import Mathlib

/-!
# Token service and authorization middleware of `ardani17/task-manager`

A shallow embedding of `backend/internal/services/jwt_service.go`,
`backend/internal/middleware/auth.go`, `backend/internal/handlers/auth_handler.go`,
`backend/internal/models/developer.go`, `backend/internal/config/config.go`,
`backend/pkg/utils/password.go`, the developer repository and the `ErrorResponse`
helper of `backend/pkg/utils/response.go`, together with the parts of
`github.com/golang-jwt/jwt/v5` and `strconv` that this code calls.

* Go `time.Time` values are wall-clock instants counted in nanoseconds since the
  Unix epoch; `time.Duration` is a number of nanoseconds.  Every read of
  `time.Now()` is an explicit argument.
* Go strings are Lean strings (valid UTF-8 text); where the code counts or slices
  bytes, the bytes are those of the UTF-8 encoding.
* A handler is the list of its effects on one request, in order: the responses it
  writes and the calls of the next handler it makes.
* The library's control flow (segment splitting, header and claims decoding,
  method look-up, key function, signature verification, claims validation and
  the joined error values examined by `errors.Is`) is followed step by step.
* The byte-level primitives underneath the library are idealised in the
  symbolic style: `EncodeSegment`/`DecodeSegment` (base64url) is an injective
  text escaping whose output contains no `'.'`, `json.Marshal`/`json.Unmarshal`
  is an injective field serialisation.  Unix seconds cross the wire unchanged.
* HMAC prepares its key as `crypto/hmac` does: a secret longer than the block of
  the hash is replaced by its SHA-2 hash, computed in full, and the result is
  padded with zero bytes to the block, so that secrets which are the same HMAC
  key give the same tags.  The tag itself is a canonical encoding of (hash, key
  block, message): two tags coincide only when hash, key block and message
  coincide.
* What lies outside the repository and is not followed step by step is an
  argument of the code that uses it: the answers of the database to the
  statements of the repository, the Blowfish computations of bcrypt, the decoded
  request body, the `.env` file and the environment of the process.  Go `int` is
  64 bits wide.
-/

namespace TaskManager

/-! ## Go `time` -/

/-- Go `time.Time`: nanoseconds since the Unix epoch. -/
abbrev Time := Int

/-- Go `time.Duration`: a signed number of nanoseconds. -/
abbrev Duration := Int

/-- Go `time.Second`. -/
def Second : Duration := 1000000000

/-- Go `time.Hour`. -/
def Hour : Duration := 3600 * Second

/-- Nearest integer, ties to the even neighbour. -/
def roundHalfEven (x : ℚ) : ℤ :=
  if x - ⌊x⌋ < 1 / 2 then ⌊x⌋
  else if 1 / 2 < x - ⌊x⌋ then ⌊x⌋ + 1
  else if ⌊x⌋ % 2 = 0 then ⌊x⌋ else ⌊x⌋ + 1

/-- Rounding of an exact value to IEEE-754 binary64 (53-bit significand, round to
nearest, ties to even), for magnitudes in the normal range. -/
def float64 (q : ℚ) : ℚ :=
  if q = 0 then 0
  else (roundHalfEven (q / (2 : ℚ) ^ (Int.log 2 |q| - 52)) : ℚ) * (2 : ℚ) ^ (Int.log 2 |q| - 52)

/-- Go `Duration.Seconds`:
`sec := d / Second; nsec := d % Second; return float64(sec) + float64(nsec)/1e9`
(Go integer division truncates toward zero). -/
def Duration.Seconds (d : Duration) : ℚ :=
  float64 (float64 (Int.tdiv d Second) + float64 (float64 (Int.tmod d Second) / 1000000000))

/-- Go conversion `int64(f)` of a float: the fraction is discarded. -/
def int64OfFloat (f : ℚ) : Int :=
  if 0 ≤ f then ⌊f⌋ else ⌈f⌉

/-! ## Text primitives of the wire-format model -/

/-- Replace the special character `sp` by `ec, alt` and the escape character `ec`
by `ec, ec`. -/
def escape (sp ec alt : Char) : List Char → List Char
  | [] => []
  | c :: cs =>
    if c = sp then ec :: alt :: escape sp ec alt cs
    else if c = ec then ec :: ec :: escape sp ec alt cs
    else c :: escape sp ec alt cs

/-- Inverse of `escape`; fails on a dangling or unknown escape sequence. -/
def unescape (sp ec alt : Char) : List Char → Option (List Char)
  | [] => some []
  | [c] => if c = ec then none else some [c]
  | c :: d :: ds =>
    if c = ec then
      if d = ec then (unescape sp ec alt ds).map (fun r => ec :: r)
      else if d = alt then (unescape sp ec alt ds).map (fun r => sp :: r)
      else none
    else (unescape sp ec alt (d :: ds)).map (fun r => c :: r)

/-- Go `strings.Split(s, sep)` for a one-character separator. -/
def stringsSplit (sep : Char) : List Char → List (List Char)
  | [] => [[]]
  | c :: cs =>
    if c = sep then [] :: stringsSplit sep cs
    else
      match stringsSplit sep cs with
      | [] => [[c]]
      | p :: ps => (c :: p) :: ps

/-- Cut a text at its first `';'`. -/
def splitField : List Char → Option (List Char × List Char)
  | [] => none
  | c :: cs =>
    if c = ';' then some ([], cs)
    else (splitField cs).map (fun p => (c :: p.1, p.2))

/-- One field of a serialised object: escaped content followed by `';'`. -/
def encField (s : List Char) : List Char :=
  escape ';' '\\' ':' s ++ [';']

/-- Read one field from the front of a text. -/
def decField (l : List Char) : Option (List Char × List Char) :=
  match splitField l with
  | none => none
  | some (raw, rest) =>
    match unescape ';' '\\' ':' raw with
    | none => none
    | some s => some (s, rest)

/-- Decimal digit character of a digit value. -/
def digitChar (d : Nat) : Char := Char.ofNat (48 + d)

/-- Decimal rendering of an integer, sign first. -/
def intChars (n : Int) : List Char :=
  (if n < 0 then '-' else '+') :: ((Nat.digits 10 n.natAbs).reverse.map digitChar)

/-- Parse the rendering produced by `intChars`. -/
def parseInt : List Char → Option Int
  | [] => none
  | s :: ds =>
    if ds.all (fun c => decide ('0' ≤ c ∧ c ≤ '9')) then
      let v : Nat := Nat.ofDigits 10 (ds.reverse.map (fun c => c.toNat - 48))
      if s = '-' then some (-(v : Int))
      else if s = '+' then some (v : Int)
      else none
    else none

/-- Read fields until the text is exhausted (`fuel` bounds the number of fields). -/
def decFields : Nat → List Char → Option (List (List Char))
  | 0, l => if l = [] then some [] else none
  | fuel + 1, l =>
    if l = [] then some []
    else
      match decField l with
      | none => none
      | some (s, rest) => (decFields fuel rest).map (fun r => s :: r)

/-- An optional field: `-` when absent, `+` and the field when present. -/
def encOptField : Option (List Char) → List Char
  | none => ['-']
  | some s => '+' :: encField s

/-- Read an optional field from the front of a text. -/
def decOptField : List Char → Option (Option (List Char) × List Char)
  | [] => none
  | c :: r =>
    if c = '-' then some (none, r)
    else if c = '+' then (decField r).map (fun p => (some p.1, p.2))
    else none

/-! ## `github.com/golang-jwt/jwt/v5`: errors, methods, claims -/

namespace jwt

/-- The sentinel error values of the library (`errors.go`); `foreign` stands for
any error value that is none of them (base64, JSON and `fmt.Errorf` errors). -/
inductive Sentinel
  | ErrInvalidKey
  | ErrInvalidKeyType
  | ErrHashUnavailable
  | ErrTokenMalformed
  | ErrTokenUnverifiable
  | ErrTokenSignatureInvalid
  | ErrTokenRequiredClaimMissing
  | ErrTokenInvalidAudience
  | ErrTokenExpired
  | ErrTokenUsedBeforeIssued
  | ErrTokenInvalidIssuer
  | ErrTokenInvalidSubject
  | ErrTokenNotValidYet
  | ErrTokenInvalidId
  | ErrTokenInvalidClaims
  | ErrInvalidType
  | ErrSignatureInvalid
  | foreign
  deriving DecidableEq, Repr

/-- A Go error value as `errors.Is` sees it: the error values reachable from it by
unwrapping, outermost first. -/
abbrev Error := List Sentinel

/-- Go `errors.Is(err, target)`. -/
def errorsIs (err : Error) (target : Sentinel) : Bool :=
  decide (target ∈ err)

/-- Library `newError(message, err, more...)`: wraps `err` and every error of `more`. -/
def newError (err : Sentinel) (more : List Error) : Error :=
  err :: more.flatten

/-- Library `joinErrors(errs...)`. -/
def joinErrors (errs : List Error) : Error :=
  errs.flatten

/-- The signing methods registered by the library's `init` functions. -/
inductive SigningMethod
  | HS256 | HS384 | HS512
  | RS256 | RS384 | RS512
  | PS256 | PS384 | PS512
  | ES256 | ES384 | ES512
  | EdDSA
  | None
  deriving DecidableEq, Repr

/-- Method `Alg()`. -/
def SigningMethod.Alg : SigningMethod → String
  | .HS256 => "HS256" | .HS384 => "HS384" | .HS512 => "HS512"
  | .RS256 => "RS256" | .RS384 => "RS384" | .RS512 => "RS512"
  | .PS256 => "PS256" | .PS384 => "PS384" | .PS512 => "PS512"
  | .ES256 => "ES256" | .ES384 => "ES384" | .ES512 => "ES512"
  | .EdDSA => "EdDSA"
  | .None => "none"

/-- Type assertion `method.(*jwt.SigningMethodHMAC)`: the three HMAC methods are
the values of that type. -/
def SigningMethod.isHMAC : SigningMethod → Bool
  | .HS256 => true | .HS384 => true | .HS512 => true
  | _ => false

/-- The registry filled by `RegisterSigningMethod` in the library's `init`
functions. -/
def signingMethods : List SigningMethod :=
  [.HS256, .HS384, .HS512, .RS256, .RS384, .RS512, .PS256, .PS384, .PS512,
   .ES256, .ES384, .ES512, .EdDSA, .None]

/-- Library `GetSigningMethod(alg)`: look-up in the registry, `none` for `nil`. -/
def GetSigningMethod (alg : String) : Option SigningMethod :=
  signingMethods.find? (fun m => m.Alg == alg)

/-- Library `NumericDate`: a time at `TimePrecision` (one second), held as Unix
seconds. -/
structure NumericDate where
  unix : Int
  deriving DecidableEq, Repr

/-- The `time.Time` embedded in a `NumericDate`. -/
def NumericDate.Time (d : NumericDate) : Time :=
  d.unix * Second

/-- Library `NewNumericDate(t)`: `t.Truncate(TimePrecision)`. -/
def NewNumericDate (t : Time) : NumericDate :=
  ⟨t / Second⟩

/-- Library `RegisteredClaims`. -/
structure RegisteredClaims where
  Issuer : String := ""
  Subject : String := ""
  Audience : List String := []
  ExpiresAt : Option NumericDate := none
  NotBefore : Option NumericDate := none
  IssuedAt : Option NumericDate := none
  ID : String := ""
  deriving DecidableEq, Repr

/-- The JOSE header of a token; only `typ` and `alg` are ever written or read.
A field is `none` when the key is missing or its value is not a string. -/
structure Header where
  typ : Option String
  alg : Option String
  deriving DecidableEq, Repr

end jwt

/-! ## `services`: data types -/

/-- JWTService handles JWT token operations. -/
structure JWTService where
  secretKey : String
  tokenExpiry : Duration
  refreshExpiry : Duration
  deriving DecidableEq, Repr

/-- JWTClaims represents the custom claims in the JWT token. -/
structure JWTClaims extends jwt.RegisteredClaims where
  DeveloperID : String := ""
  Email : String := ""
  Role : String := ""
  deriving DecidableEq, Repr

/-- TokenPair contains access and refresh tokens. -/
structure TokenPair where
  AccessToken : String
  RefreshToken : String
  ExpiresIn : Int
  TokenType : String
  deriving DecidableEq, Repr

/-! ## SHA-2 (FIPS 180-4) and the key block of `crypto/hmac` -/

namespace sha2

/-- The parameters that distinguish SHA-256 from SHA-384 and SHA-512: the word
size in bits, the round constants (one per round), and the rotation and shift
amounts of the functions Σ0, Σ1, σ0 and σ1. -/
structure Params where
  w : Nat
  K : List Nat
  bigSigma0 : Nat × Nat × Nat
  bigSigma1 : Nat × Nat × Nat
  smallSigma0 : Nat × Nat × Nat
  smallSigma1 : Nat × Nat × Nat

/-- Rotation of a `w`-bit word to the right by `n` bits. -/
def rotr (w n x : Nat) : Nat :=
  ((x >>> n) ||| (x <<< (w - n))) % 2 ^ w

/-- The `n` bytes of `x`, most significant first. -/
def bigEndian (n x : Nat) : List Nat :=
  (List.range n).map (fun i => (x >>> (8 * (n - 1 - i))) % 256)

/-- The number whose bytes, most significant first, are `bytes`. -/
def wordOf (bytes : List Nat) : Nat :=
  bytes.foldl (fun a b => a * 256 + b) 0

/-- Padding of a message: the byte `0x80`, zero bytes up to a whole number of
blocks, and the length of the message in bits as the last two words. -/
def pad (p : Params) (msg : List Nat) : List Nat :=
  let block := 16 * (p.w / 8)
  let lenBytes := 2 * (p.w / 8)
  let zeros := (block - (msg.length + 1 + lenBytes) % block) % block
  msg ++ [128] ++ List.replicate zeros 0 ++ bigEndian lenBytes (8 * msg.length)

/-- The message schedule of one block: its 16 words followed by the words derived
from them, one per remaining round. -/
def schedule (p : Params) (block : List Nat) : List Nat :=
  (List.range (p.K.length - 16)).foldl
    (fun W i =>
      let x := W.getD (i + 1) 0
      let y := W.getD (i + 14) 0
      let s0 := rotr p.w p.smallSigma0.1 x ^^^ rotr p.w p.smallSigma0.2.1 x ^^^
        (x >>> p.smallSigma0.2.2)
      let s1 := rotr p.w p.smallSigma1.1 y ^^^ rotr p.w p.smallSigma1.2.1 y ^^^
        (y >>> p.smallSigma1.2.2)
      W ++ [(s1 + W.getD (i + 9) 0 + s0 + W.getD i 0) % 2 ^ p.w])
    ((block.toChunks (p.w / 8)).map wordOf)

/-- One round on the eight working variables. -/
def round (p : Params) (W : List Nat) (v : List Nat) (t : Nat) : List Nat :=
  match v with
  | [a, b, c, d, e, f, g, h] =>
    let S1 := rotr p.w p.bigSigma1.1 e ^^^ rotr p.w p.bigSigma1.2.1 e ^^^
      rotr p.w p.bigSigma1.2.2 e
    let ch := (e &&& f) ^^^ ((2 ^ p.w - 1 - e) &&& g)
    let T1 := (h + S1 + ch + p.K.getD t 0 + W.getD t 0) % 2 ^ p.w
    let S0 := rotr p.w p.bigSigma0.1 a ^^^ rotr p.w p.bigSigma0.2.1 a ^^^
      rotr p.w p.bigSigma0.2.2 a
    let maj := (a &&& b) ^^^ (a &&& c) ^^^ (b &&& c)
    let T2 := (S0 + maj) % 2 ^ p.w
    [(T1 + T2) % 2 ^ p.w, a, b, c, (d + T1) % 2 ^ p.w, e, f, g]
  | _ => v

/-- The compression of one block into the hash value `H`. -/
def compress (p : Params) (H : List Nat) (block : List Nat) : List Nat :=
  let W := schedule p block
  let v := (List.range p.K.length).foldl (round p W) H
  List.zipWith (fun x y => (x + y) % 2 ^ p.w) H v

/-- The hash of a message: the first `size` bytes of the hash value reached from
`H0` over the blocks of the padded message. -/
def sum (p : Params) (H0 : List Nat) (size : Nat) (msg : List Nat) : List Nat :=
  let H := ((pad p msg).toChunks (16 * (p.w / 8))).foldl (compress p) H0
  (H.flatMap (bigEndian (p.w / 8))).take size

/-- The parameters of SHA-256. -/
def params256 : Params :=
  { w := 32
    K := [
      1116352408, 1899447441, 3049323471, 3921009573, 961987163, 1508970993,
      2453635748, 2870763221, 3624381080, 310598401, 607225278, 1426881987,
      1925078388, 2162078206, 2614888103, 3248222580, 3835390401, 4022224774,
      264347078, 604807628, 770255983, 1249150122, 1555081692, 1996064986,
      2554220882, 2821834349, 2952996808, 3210313671, 3336571891, 3584528711,
      113926993, 338241895, 666307205, 773529912, 1294757372, 1396182291,
      1695183700, 1986661051, 2177026350, 2456956037, 2730485921, 2820302411,
      3259730800, 3345764771, 3516065817, 3600352804, 4094571909, 275423344,
      430227734, 506948616, 659060556, 883997877, 958139571, 1322822218,
      1537002063, 1747873779, 1955562222, 2024104815, 2227730452, 2361852424,
      2428436474, 2756734187, 3204031479, 3329325298
    ]
    bigSigma0 := (2, 13, 22)
    bigSigma1 := (6, 11, 25)
    smallSigma0 := (7, 18, 3)
    smallSigma1 := (17, 19, 10) }

/-- The parameters of SHA-384 and SHA-512. -/
def params512 : Params :=
  { w := 64
    K := [
      4794697086780616226, 8158064640168781261, 13096744586834688815,
      16840607885511220156, 4131703408338449720, 6480981068601479193,
      10538285296894168987, 12329834152419229976, 15566598209576043074,
      1334009975649890238, 2608012711638119052, 6128411473006802146,
      8268148722764581231, 9286055187155687089, 11230858885718282805,
      13951009754708518548, 16472876342353939154, 17275323862435702243,
      1135362057144423861, 2597628984639134821, 3308224258029322869,
      5365058923640841347, 6679025012923562964, 8573033837759648693,
      10970295158949994411, 12119686244451234320, 12683024718118986047,
      13788192230050041572, 14330467153632333762, 15395433587784984357,
      489312712824947311, 1452737877330783856, 2861767655752347644,
      3322285676063803686, 5560940570517711597, 5996557281743188959,
      7280758554555802590, 8532644243296465576, 9350256976987008742,
      10552545826968843579, 11727347734174303076, 12113106623233404929,
      14000437183269869457, 14369950271660146224, 15101387698204529176,
      15463397548674623760, 17586052441742319658, 1182934255886127544,
      1847814050463011016, 2177327727835720531, 2830643537854262169,
      3796741975233480872, 4115178125766777443, 5681478168544905931,
      6601373596472566643, 7507060721942968483, 8399075790359081724,
      8693463985226723168, 9568029438360202098, 10144078919501101548,
      10430055236837252648, 11840083180663258601, 13761210420658862357,
      14299343276471374635, 14566680578165727644, 15097957966210449927,
      16922976911328602910, 17689382322260857208, 500013540394364858,
      748580250866718886, 1242879168328830382, 1977374033974150939,
      2944078676154940804, 3659926193048069267, 4368137639120453308,
      4836135668995329356, 5532061633213252278, 6448918945643986474,
      6902733635092675308, 7801388544844847127
    ]
    bigSigma0 := (28, 34, 39)
    bigSigma1 := (14, 18, 41)
    smallSigma0 := (1, 8, 7)
    smallSigma1 := (19, 61, 6) }

/-- SHA-256 of a message of bytes. -/
def sum256 (msg : List Nat) : List Nat :=
  sum params256
    [1779033703, 3144134277, 1013904242, 2773480762, 1359893119, 2600822924, 528734635, 1541459225] 32 msg

/-- SHA-384 of a message of bytes. -/
def sum384 (msg : List Nat) : List Nat :=
  sum params512
    [14680500436340154072, 7105036623409894663, 10473403895298186519,
     1526699215303891257, 7436329637833083697, 10282925794625328401,
     15784041429090275239, 5167115440072839076] 48 msg

/-- SHA-512 of a message of bytes. -/
def sum512 (msg : List Nat) : List Nat :=
  sum params512
    [7640891576956012808, 13503953896175478587, 4354685564936845355,
     11912009170470909681, 5840696475078001361, 11170449401992604703,
     2270897969802886507, 6620516959819538809] 64 msg

end sha2

/-! ## `github.com/golang-jwt/jwt/v5`: tokens, signing, parsing, validation -/

namespace jwt

/-- Library `EncodeSegment` (base64url without padding), idealised as an
injective escaping whose output contains no `'.'`. -/
def EncodeSegment (seg : List Char) : List Char :=
  escape '.' '~' '-' seg

/-- Library `DecodeSegment`; `none` is a decoding error. -/
def DecodeSegment (seg : List Char) : Option (List Char) :=
  unescape '.' '~' '-' seg

/-- `json.Marshal` of a token header, idealised as the two optional fields in a
fixed order. -/
def marshalHeader (h : Header) : List Char :=
  encOptField (h.typ.map String.toList) ++ encOptField (h.alg.map String.toList)

/-- `json.Unmarshal` into a token header (inverse of `marshalHeader`); `none` is a
decoding error. -/
def unmarshalHeader (l : List Char) : Option Header :=
  match decOptField l with
  | none => none
  | some (typ, r1) =>
    match decOptField r1 with
    | none => none
    | some (alg, r2) =>
      if r2 = [] then some { typ := typ.map String.mk, alg := alg.map String.mk } else none

/-- Serialisation of an optional `NumericDate`. -/
def encDate (d : Option NumericDate) : List Char :=
  encOptField (d.map (fun x => intChars x.unix))

/-- Read an optional `NumericDate` from the front of a text. -/
def decDate (l : List Char) : Option (Option NumericDate × List Char) :=
  match decOptField l with
  | none => none
  | some (none, r) => some (none, r)
  | some (some ds, r) =>
    match parseInt ds with
    | none => none
    | some n => some (some ⟨n⟩, r)

/-- `json.Marshal` of a `JWTClaims` value, idealised as its fields in a fixed
order. -/
def marshalClaims (c : JWTClaims) : List Char :=
  encField c.DeveloperID.toList ++ (encField c.Email.toList ++ (encField c.Role.toList ++
  (encField c.Issuer.toList ++ (encField c.Subject.toList ++
  (encField ((c.Audience.map (fun a => encField a.toList)).flatten) ++
  (encDate c.ExpiresAt ++ (encDate c.NotBefore ++ (encDate c.IssuedAt ++
  encField c.ID.toList))))))))

/-- `json.Unmarshal` into a `JWTClaims` value (inverse of `marshalClaims`); `none`
is a decoding error. -/
def unmarshalClaims (l : List Char) : Option JWTClaims := do
  let (developerID, r1) ← decField l
  let (email, r2) ← decField r1
  let (role, r3) ← decField r2
  let (iss, r4) ← decField r3
  let (sub, r5) ← decField r4
  let (audText, r6) ← decField r5
  let aud ← decFields audText.length audText
  let (exp, r7) ← decDate r6
  let (nbf, r8) ← decDate r7
  let (iat, r9) ← decDate r8
  let (jti, r10) ← decField r9
  if r10 = [] then
    pure { DeveloperID := String.mk developerID, Email := String.mk email, Role := String.mk role,
           Issuer := String.mk iss, Subject := String.mk sub, Audience := aud.map String.mk,
           ExpiresAt := exp, NotBefore := nbf, IssuedAt := iat, ID := String.mk jti }
  else none

/-- Library `Token`. -/
structure Token where
  Raw : String
  Method : SigningMethod
  Header : Header
  Claims : JWTClaims
  Signature : List Char
  Valid : Bool
  deriving DecidableEq, Repr

/-- Library `NewWithClaims(method, claims)`. -/
def NewWithClaims (method : SigningMethod) (claims : JWTClaims) : Token :=
  { Raw := "", Method := method, Header := { typ := some "JWT", alg := some method.Alg },
    Claims := claims, Signature := [], Valid := false }

/-- The block size in bytes of the hash `m.Hash` of an HMAC method: 64 for SHA-256,
128 for SHA-384 and SHA-512. -/
def SigningMethod.blockSize : SigningMethod → Nat
  | .HS256 => 64
  | _ => 128

/-- The hash `m.Hash` of an HMAC method, on bytes: SHA-256, SHA-384 or SHA-512. -/
def SigningMethod.hashSum : SigningMethod → List Nat → List Nat
  | .HS256 => sha2.sum256
  | .HS384 => sha2.sum384
  | _ => sha2.sum512

/-- The key block that `hmac.New(m.Hash.New, key)` derives from the bytes of the
key: a key longer than the block of the hash is replaced by its hash
(`if len(key) > blocksize`), and the key is then copied into a block of zero
bytes.  Both pads of the MAC are this block under a fixed mask, so the MAC
depends on the key through this block only. -/
def keyBlock (m : SigningMethod) (key : List Char) : List Nat :=
  let keyBytes := (key.flatMap String.utf8EncodeChar).map UInt8.toNat
  let keyBytes := if keyBytes.length > m.blockSize then m.hashSum keyBytes else keyBytes
  keyBytes ++ List.replicate (m.blockSize - keyBytes.length) 0

/-- A block of bytes as text, byte by byte. -/
def blockChars (block : List Nat) : List Char :=
  (block.map (fun (b : Nat) => encField (intChars (b : Int)))).flatten

/-- The MAC computed by `hmac.New(m.Hash.New, key)` over `msg`.  The key enters
through its key block, as in the library; the two hash passes over the padded
message are idealised: the MAC is a canonical encoding of hash, key block and
message. -/
def hmacSum (m : SigningMethod) (key msg : List Char) : List Char :=
  encField m.Alg.toList ++ (encField (blockChars (keyBlock m key)) ++ encField msg)

/-- Method `Sign(signingString, key)` for a key of type `[]byte`: the HMAC methods
return the MAC, every other method rejects the key. -/
def SigningMethod.Sign (m : SigningMethod) (signingString key : List Char) :
    Except Error (List Char) :=
  if m.isHMAC then .ok (hmacSum m key signingString)
  else if m = .None then .error (newError .ErrTokenUnverifiable [])
  else .error (newError .ErrInvalidKeyType [])

/-- Method `Verify(signingString, sig, key)` for a key of type `[]byte`; `none` is
the `nil` error. -/
def SigningMethod.Verify (m : SigningMethod) (signingString sig key : List Char) :
    Option Error :=
  if m.isHMAC then
    if sig = hmacSum m key signingString then none else some [.ErrSignatureInvalid]
  else if m = .None then some (newError .ErrTokenUnverifiable [])
  else some (newError .ErrInvalidKeyType [])

/-- Method `Token.SigningString`. -/
def Token.SigningString (t : Token) : List Char :=
  EncodeSegment (marshalHeader t.Header) ++ '.' :: EncodeSegment (marshalClaims t.Claims)

/-- Method `Token.SignedString(key)`. -/
def Token.SignedString (t : Token) (key : List Char) : Except Error String :=
  match t.Method.Sign t.SigningString key with
  | .error e => .error e
  | .ok sig => .ok (String.mk (t.SigningString ++ '.' :: EncodeSegment sig))

/-- Library `Validator`, as configured by `NewValidator()` options. -/
structure Validator where
  leeway : Duration := 0
  verifyIat : Bool := false
  requireExp : Bool := false
  deriving DecidableEq, Repr

/-- Library `errorIfFalse(value, err)`. -/
def errorIfFalse (value : Bool) (err : Sentinel) : Option Error :=
  if value then none else some [err]

/-- Library `errorIfRequired(required, claim)`. -/
def errorIfRequired (required : Bool) : Option Error :=
  if required then some (newError .ErrTokenRequiredClaimMissing []) else none

/-- Method `verifyExpiresAt`: `cmp.Before(exp.Add(+leeway))`. -/
def Validator.verifyExpiresAt (v : Validator) (claims : JWTClaims) (cmp : Time)
    (required : Bool) : Option Error :=
  match claims.ExpiresAt with
  | none => errorIfRequired required
  | some exp => errorIfFalse (decide (cmp < exp.Time + v.leeway)) .ErrTokenExpired

/-- Method `verifyNotBefore`: `!cmp.Before(nbf.Add(-leeway))`. -/
def Validator.verifyNotBefore (v : Validator) (claims : JWTClaims) (cmp : Time)
    (required : Bool) : Option Error :=
  match claims.NotBefore with
  | none => errorIfRequired required
  | some nbf => errorIfFalse (!decide (cmp < nbf.Time + -v.leeway)) .ErrTokenNotValidYet

/-- Method `verifyIssuedAt`: `!cmp.Before(iat.Add(-leeway))`. -/
def Validator.verifyIssuedAt (v : Validator) (claims : JWTClaims) (cmp : Time)
    (required : Bool) : Option Error :=
  match claims.IssuedAt with
  | none => errorIfRequired required
  | some iat => errorIfFalse (!decide (cmp < iat.Time + -v.leeway)) .ErrTokenUsedBeforeIssued

/-- Method `Validator.Validate(claims)` at clock reading `now`.  No audience,
issuer or subject is expected by a default validator, and `JWTClaims` has no
`Validate` method of its own; `none` is the `nil` error. -/
def Validator.Validate (v : Validator) (claims : JWTClaims) (now : Time) : Option Error :=
  let errs : List Error :=
    (v.verifyExpiresAt claims now v.requireExp).toList ++
    ((v.verifyNotBefore claims now false).toList ++
    (if v.verifyIat then (v.verifyIssuedAt claims now false).toList else []))
  if errs.length = 0 then none else some (joinErrors errs)

/-- Library `Parser`, as configured by `NewParser()` options. -/
structure Parser where
  skipClaimsValidation : Bool := false
  validator : Validator := {}
  deriving DecidableEq, Repr

/-- Method `Parser.ParseUnverified`: split into three segments, decode header
and claims, look the method up. -/
def Parser.ParseUnverified (_p : Parser) (tokenString : String) :
    Except Error (Token × List (List Char)) :=
  match stringsSplit '.' tokenString.toList with
  | [p0, p1, p2] =>
    match DecodeSegment p0 with
    | none => .error (newError .ErrTokenMalformed [[.foreign]])
    | some headerBytes =>
      match unmarshalHeader headerBytes with
      | none => .error (newError .ErrTokenMalformed [[.foreign]])
      | some header =>
        match DecodeSegment p1 with
        | none => .error (newError .ErrTokenMalformed [[.foreign]])
        | some claimBytes =>
          match unmarshalClaims claimBytes with
          | none => .error (newError .ErrTokenMalformed [[.foreign]])
          | some claims =>
            match header.alg with
            | none => .error (newError .ErrTokenUnverifiable [])
            | some headerAlg =>
              match GetSigningMethod headerAlg with
              | none => .error (newError .ErrTokenUnverifiable [])
              | some method =>
                .ok ({ Raw := tokenString, Method := method, Header := header,
                       Claims := claims, Signature := [], Valid := false }, [p0, p1, p2])
  | _ => .error (newError .ErrTokenMalformed [])

/-- Method `Parser.ParseWithClaims(tokenString, claims, keyFunc)` with
`claims = &JWTClaims{}`, at clock reading `now`. -/
def Parser.ParseWithClaims (p : Parser) (tokenString : String)
    (keyFunc : Token → Except Error (List Char)) (now : Time) : Except Error Token :=
  match p.ParseUnverified tokenString with
  | .error e => .error e
  | .ok (token, parts) =>
    match DecodeSegment (parts.getD 2 []) with
    | none => .error (newError .ErrTokenMalformed [[.foreign]])
    | some sig =>
      let token := { token with Signature := sig }
      let text := parts.getD 0 [] ++ '.' :: parts.getD 1 []
      match keyFunc token with
      | .error e => .error (newError .ErrTokenUnverifiable [e])
      | .ok key =>
        match token.Method.Verify text token.Signature key with
        | some e => .error (newError .ErrTokenSignatureInvalid [e])
        | none =>
          if p.skipClaimsValidation then .ok { token with Valid := true }
          else
            match p.validator.Validate token.Claims now with
            | some e => .error (newError .ErrTokenInvalidClaims [e])
            | none => .ok { token with Valid := true }

/-- Library function `ParseWithClaims`: `NewParser().ParseWithClaims(...)`. -/
def ParseWithClaims (tokenString : String) (keyFunc : Token → Except Error (List Char))
    (now : Time) : Except Error Token :=
  ({} : Parser).ParseWithClaims tokenString keyFunc now

end jwt

/-! ## `services`: the token service -/

/-- The error values a `JWTService` returns: the four package-level errors and the
two wrapped signing failures of `GenerateToken`. -/
inductive ServiceError
  | ErrInvalidToken
  | ErrExpiredToken
  | ErrInvalidClaims
  | ErrMissingSecretKey
  | signAccessToken (cause : jwt.Error)
  | signRefreshToken (cause : jwt.Error)
  deriving DecidableEq, Repr

open ServiceError

/-- NewJWTService creates a new JWT service; a panic is the `error` result. -/
def NewJWTService (secretKey : String) : Except ServiceError JWTService :=
  if secretKey = "" then .error ErrMissingSecretKey
  else .ok { secretKey := secretKey, tokenExpiry := 24 * Hour, refreshExpiry := 7 * 24 * Hour }

/-- NewJWTServiceWithExpiry creates a new JWT service with custom expiry times. -/
def NewJWTServiceWithExpiry (secretKey : String) (tokenExpiry refreshExpiry : Duration) :
    Except ServiceError JWTService :=
  if secretKey = "" then .error ErrMissingSecretKey
  else .ok { secretKey := secretKey, tokenExpiry := tokenExpiry, refreshExpiry := refreshExpiry }

/-- The `accessClaims` value built by `GenerateToken`. -/
def accessClaims (s : JWTService) (developerID email role : String) (now : Time) : JWTClaims :=
  { DeveloperID := developerID
    Email := email
    Role := role
    Subject := developerID
    ExpiresAt := some (jwt.NewNumericDate (now + s.tokenExpiry))
    IssuedAt := some (jwt.NewNumericDate now)
    NotBefore := some (jwt.NewNumericDate now) }

/-- The `refreshClaims` value built by `GenerateToken`. -/
def refreshClaims (s : JWTService) (developerID email role : String) (now : Time) : JWTClaims :=
  { DeveloperID := developerID
    Email := email
    Role := role
    Subject := developerID
    ExpiresAt := some (jwt.NewNumericDate (now + s.refreshExpiry))
    IssuedAt := some (jwt.NewNumericDate now)
    NotBefore := some (jwt.NewNumericDate now) }

/-- GenerateToken generates a new access token for a developer; `now` is the value
of `time.Now()`. -/
def GenerateToken (s : JWTService) (developerID email role : String) (now : Time) :
    Except ServiceError TokenPair :=
  let accessToken := jwt.NewWithClaims .HS256 (accessClaims s developerID email role now)
  match accessToken.SignedString s.secretKey.toList with
  | .error err => .error (signAccessToken err)
  | .ok accessTokenString =>
    let refreshToken := jwt.NewWithClaims .HS256 (refreshClaims s developerID email role now)
    match refreshToken.SignedString s.secretKey.toList with
    | .error err => .error (signRefreshToken err)
    | .ok refreshTokenString =>
      .ok { AccessToken := accessTokenString
            RefreshToken := refreshTokenString
            ExpiresIn := int64OfFloat (Duration.Seconds s.tokenExpiry)
            TokenType := "Bearer" }

/-- The key function handed to `jwt.ParseWithClaims` by `ValidateToken`. -/
def keyFunc (s : JWTService) (token : jwt.Token) : Except jwt.Error (List Char) :=
  if !token.Method.isHMAC then .error [.foreign]
  else .ok s.secretKey.toList

/-- ValidateToken validates an access token and returns the claims; `now` is the
clock reading taken by the library's validator.  The type assertion
`token.Claims.(*JWTClaims)` always succeeds, the claims having been supplied as
`&JWTClaims{}`. -/
def ValidateToken (s : JWTService) (tokenString : String) (now : Time) :
    Except ServiceError JWTClaims :=
  match jwt.ParseWithClaims tokenString (keyFunc s) now with
  | .error err =>
    if jwt.errorsIs err .ErrTokenExpired then .error ErrExpiredToken
    else .error ErrInvalidToken
  | .ok token =>
    if !token.Valid then .error ErrInvalidClaims
    else .ok token.Claims

/-- RefreshToken generates a new access token using a refresh token; `now` is the
clock reading of the validation and `now2` that of the following `GenerateToken`. -/
def RefreshToken (s : JWTService) (refreshTokenString : String) (now now2 : Time) :
    Except ServiceError TokenPair := do
  let claims ← ValidateToken s refreshTokenString now
  GenerateToken s claims.DeveloperID claims.Email claims.Role now2

/-- The bytes of a Go string: the UTF-8 encoding of the text. -/
def goBytes (s : String) : List UInt8 :=
  s.toList.flatMap String.utf8EncodeChar

/-- ExtractToken extracts the JWT token from the Authorization header; the result
is the Go pair `(string, error)`, `none` being the `nil` error.  `len`, `[:7]` and
the comparison work on bytes; once the first seven bytes are the ASCII text
`"Bearer "`, the slice `authHeader[7:]` is the text after the first seven
characters. -/
def ExtractToken (authHeader : String) : String × Option ServiceError :=
  if (goBytes authHeader).length < 7 then ("", some ErrInvalidToken)
  else if (goBytes authHeader).take 7 ≠ goBytes "Bearer " then ("", some ErrInvalidToken)
  else (String.mk (authHeader.toList.drop 7), none)

/-- A call of one of the three methods `GenerateToken`, `ValidateToken` and
`RefreshToken` on a `*JWTService` receiver, with the clock readings the call
takes. -/
inductive ServiceCall
  | generate (developerID email role : String) (now : Time)
  | validate (tokenString : String) (now : Time)
  | refresh (refreshTokenString : String) (now now2 : Time)
  deriving DecidableEq, Repr

/-- The value a method call returns. -/
inductive ServiceResult
  | pair (r : Except ServiceError TokenPair)
  | claims (r : Except ServiceError JWTClaims)

/-- The call returned a value and a `nil` error. -/
def ServiceResult.succeeded : ServiceResult → Bool
  | .pair r => r.toBool
  | .claims r => r.toBool

/-- One method call on the receiver `s`: the fields of the receiver after the call
and the value returned.  None of the three methods assigns to a field of its
receiver. -/
def ServiceCall.exec (s : JWTService) : ServiceCall → JWTService × ServiceResult
  | .generate developerID email role now =>
    (s, .pair (GenerateToken s developerID email role now))
  | .validate tokenString now => (s, .claims (ValidateToken s tokenString now))
  | .refresh refreshTokenString now now2 =>
    (s, .pair (RefreshToken s refreshTokenString now now2))

/-- A sequence of method calls on one receiver, in order: the receiver afterwards
and the values returned. -/
def execAll (s : JWTService) : List ServiceCall → JWTService × List ServiceResult
  | [] => (s, [])
  | c :: cs =>
    let (s1, r) := c.exec s
    let (s2, rs) := execAll s1 cs
    (s2, r :: rs)

/-! ## `net/http`, `context` and `utils` -/

namespace http

/-- Go `http.StatusUnauthorized`. -/
def StatusUnauthorized : Nat := 401

/-- Go `http.StatusForbidden`. -/
def StatusForbidden : Nat := 403

/-- Go `http.Header`: header names in canonical form with their values. -/
abbrev Header := List (String × List String)

/-- Method `Header.Get(key)` for a key in canonical form: the first value of the
key, `""` when there is none. -/
def Header.Get (h : Header) (key : String) : String :=
  match h.lookup key with
  | some (v :: _) => v
  | _ => ""

end http

/-- A key of a `context.Context`: a value of the package's string type
`contextKey`, or a key of any other type. -/
inductive ContextKey
  | contextKey (s : String)
  | otherType (id : Nat)
  deriving DecidableEq, Repr

/-- A value held by a `context.Context`: a Go string, or a value of any other
dynamic type. -/
inductive ContextValue
  | string (s : String)
  | otherType (id : Nat)
  deriving DecidableEq, Repr

namespace context

/-- Go `context.Context`, as the chain of values attached to it, innermost first. -/
abbrev Context := List (ContextKey × ContextValue)

/-- Go `context.WithValue(ctx, key, val)`. -/
def WithValue (ctx : Context) (key : ContextKey) (val : ContextValue) : Context :=
  (key, val) :: ctx

/-- Method `ctx.Value(key)`; `none` is `nil`. -/
def Value (ctx : Context) (key : ContextKey) : Option ContextValue :=
  List.lookup key ctx

end context

/-- Go `*http.Request`, as far as the middleware reads it. -/
structure Request where
  Header : http.Header
  Context : context.Context
  deriving DecidableEq, Repr

/-- Method `r.WithContext(ctx)`. -/
def Request.WithContext (r : Request) (ctx : context.Context) : Request :=
  { r with Context := ctx }

namespace utils

/-- The `error` object of an error response body. -/
structure ErrorDetail where
  code : Nat
  message : String
  deriving DecidableEq, Repr

/-- The JSON body written by `ErrorResponse`. -/
structure ErrorBody where
  success : Bool
  error : ErrorDetail
  deriving DecidableEq, Repr

/-- What a handler writes to its `http.ResponseWriter` for one response. -/
structure Response where
  contentType : String
  status : Nat
  body : ErrorBody
  deriving DecidableEq, Repr

/-- JSON response helper: sets the content type, writes the status, encodes the
data. -/
def JSON (status : Nat) (data : ErrorBody) : Response :=
  { contentType := "application/json", status := status, body := data }

/-- ErrorResponse sends a structured error response. -/
def ErrorResponse (status : Nat) (message : String) : Response :=
  JSON status { success := false, error := { code := status, message := message } }

end utils

/-! ## `middleware` -/

/-- What a handler does, in order: write a response, or call
`next.ServeHTTP(w, r)` with a request. -/
inductive Effect
  | write (resp : utils.Response)
  | next (r : Request)
  deriving DecidableEq, Repr

/-- Context key `UserIDKey`. -/
def UserIDKey : ContextKey := .contextKey "userID"

/-- Context key `UserEmailKey`. -/
def UserEmailKey : ContextKey := .contextKey "userEmail"

/-- Context key `UserRoleKey`. -/
def UserRoleKey : ContextKey := .contextKey "userRole"

/-- AuthMiddleware validates JWT tokens and protects routes: the effects of the
handler it returns on one request, `now` being the clock reading of the
validation. -/
def AuthMiddleware (jwtService : JWTService) (now : Time) (r : Request) : List Effect :=
  let authHeader := r.Header.Get "Authorization"
  if authHeader = "" then
    [.write (utils.ErrorResponse http.StatusUnauthorized "Authorization header required")]
  else
    match ExtractToken authHeader with
    | (_, some _) =>
      [.write (utils.ErrorResponse http.StatusUnauthorized "Invalid authorization header format")]
    | (tokenString, none) =>
      match ValidateToken jwtService tokenString now with
      | .error err =>
        if err = ErrExpiredToken then
          [.write (utils.ErrorResponse http.StatusUnauthorized "Token has expired")]
        else
          [.write (utils.ErrorResponse http.StatusUnauthorized "Invalid token")]
      | .ok claims =>
        let ctx := r.Context
        let ctx := context.WithValue ctx UserIDKey (.string claims.DeveloperID)
        let ctx := context.WithValue ctx UserEmailKey (.string claims.Email)
        let ctx := context.WithValue ctx UserRoleKey (.string claims.Role)
        [.next (r.WithContext ctx)]

/-- GetUserIDString extracts user ID from request context (returns string). -/
def GetUserIDString (r : Request) : String :=
  match context.Value r.Context UserIDKey with
  | some (.string userID) => userID
  | _ => ""

/-- GetUserEmail extracts user email from request context. -/
def GetUserEmail (r : Request) : String :=
  match context.Value r.Context UserEmailKey with
  | some (.string email) => email
  | _ => ""

/-- GetUserRole extracts user role from request context. -/
def GetUserRole (r : Request) : String :=
  match context.Value r.Context UserRoleKey with
  | some (.string role) => role
  | _ => ""

/-- RequireRole middleware checks if user has required role: the effects of the
handler it returns on one request. -/
def RequireRole (requiredRole : String) (r : Request) : List Effect :=
  let role := GetUserRole r
  if role ≠ requiredRole ∧ role ≠ "admin" then
    [.write (utils.ErrorResponse http.StatusForbidden "Insufficient permissions")]
  else
    [.next r]

/-! ## `os`, `godotenv`, `config` and `cmd/server` -/

namespace os

/-- The environment of the process: the variables that are set, with their values;
the first binding of a name is the one in force. -/
abbrev Environ := List (String × String)

/-- Go `os.LookupEnv(key)`; `none` when the variable is not set. -/
def LookupEnv (env : Environ) (key : String) : Option String :=
  env.lookup key

/-- Go `os.Getenv(key)`: the value of the variable, `""` when it is not set. -/
def Getenv (env : Environ) (key : String) : String :=
  match LookupEnv env key with
  | some value => value
  | none => ""

end os

namespace godotenv

/-- Library call `godotenv.Load()`: the variables read from the `.env` file
(`none` when the file cannot be read or parsed, an error the caller ignores) are
set in the environment unless the environment already sets them. -/
def Load (file : Option (List (String × String))) (env : os.Environ) : os.Environ :=
  match file with
  | none => env
  | some vars => env ++ vars.filter (fun kv => (os.LookupEnv env kv.1).isNone)

end godotenv

namespace config

/-- The configuration record of `config.go`. -/
structure Config where
  AppPort : String
  AppEnv : String
  DBHost : String
  DBPort : String
  DBUser : String
  DBPassword : String
  DBName : String
  RedisHost : String
  RedisPort : String
  JWTSecret : String
  JWTExpiry : String
  deriving DecidableEq, Repr

/-- The helper `getEnv(key, defaultValue)` of `config.go`. -/
def getEnv (env : os.Environ) (key defaultValue : String) : String :=
  let value := os.Getenv env key
  if value = "" then defaultValue
  else value

/-- The function `config.Load()`, as a function of the `.env` file and of the
environment of the process. -/
def Load (file : Option (List (String × String))) (env : os.Environ) : Config :=
  let env := godotenv.Load file env
  { AppPort := getEnv env "APP_PORT" "8080"
    AppEnv := getEnv env "APP_ENV" "development"
    DBHost := getEnv env "DB_HOST" "localhost"
    DBPort := getEnv env "DB_PORT" "5433"
    DBUser := getEnv env "DB_USER" "taskmanager"
    DBPassword := getEnv env "DB_PASSWORD" "taskmanager123"
    DBName := getEnv env "DB_NAME" "taskmanager"
    RedisHost := getEnv env "REDIS_HOST" "localhost"
    RedisPort := getEnv env "REDIS_PORT" "6380"
    JWTSecret := getEnv env "JWT_SECRET" "super-secret-key-change-in-production"
    JWTExpiry := getEnv env "JWT_EXPIRY" "24h" }

end config

namespace server

/-- The token service built by `main` (`cmd/server/main.go`):
`cfg := config.Load()` followed, once the database is connected, by
`jwtService := services.NewJWTService(cfg.JWTSecret)`; a panic is the `error`
result. -/
def jwtService (file : Option (List (String × String))) (env : os.Environ) :
    Except ServiceError JWTService :=
  let cfg := config.Load file env
  NewJWTService cfg.JWTSecret

end server

/-! ## `golang.org/x/crypto/bcrypt` and `utils/password.go` -/

namespace bcrypt

/-- The error values of the package. -/
inductive Error
  | ErrMismatchedHashAndPassword
  | ErrHashTooShort
  | ErrPasswordTooLong
  | other (id : Nat)
  deriving DecidableEq, Repr

/-- Constant `minHashSize`. -/
def minHashSize : Nat := 59

/-- The Blowfish-based computations of the package, which are not part of this
repository: hashing a password under fresh random bytes, and the comparison
performed by `CompareHashAndPassword` once the hash has passed the length check
of `newFromHash`. -/
structure Core where
  GenerateFromPassword : (random : List UInt8) → (password : String) → (cost : Int) →
    Except Error String
  compareDecoded : (hashedPassword password : String) → Option Error

/-- Library call `bcrypt.CompareHashAndPassword(hashedPassword, password)`; `none`
is the `nil` error.  Its first step, in `newFromHash`, is
`if len(hashedSecret) < minHashSize { return nil, ErrHashTooShort }`. -/
def CompareHashAndPassword (core : Core) (hashedPassword password : String) : Option Error :=
  if (goBytes hashedPassword).length < minHashSize then some .ErrHashTooShort
  else core.compareDecoded hashedPassword password

end bcrypt

namespace utils

/-- Constant `DefaultCost` of `password.go`. -/
def DefaultCost : Int := 12

/-- The `*PasswordError` values of `password.go`. -/
inductive PasswordError
  | ErrEmptyPassword
  | ErrPasswordTooShort
  | ErrPasswordNoUpper
  | ErrPasswordNoLower
  | ErrPasswordNoNumber
  | ErrPasswordNoSpecial
  deriving DecidableEq, Repr

/-- Method `Error()` of `*PasswordError`: the `Message` field. -/
def PasswordError.Error : PasswordError → String
  | .ErrEmptyPassword => "password cannot be empty"
  | .ErrPasswordTooShort => "password must be at least 6 characters"
  | .ErrPasswordNoUpper => "password must contain at least one uppercase letter"
  | .ErrPasswordNoLower => "password must contain at least one lowercase letter"
  | .ErrPasswordNoNumber => "password must contain at least one number"
  | .ErrPasswordNoSpecial => "password must contain at least one special character"

/-- A Go `error` returned by `HashPassword`: one of the package's password errors
or an error of the bcrypt library. -/
inductive HashError
  | password (err : PasswordError)
  | library (err : bcrypt.Error)
  deriving DecidableEq, Repr

/-- HashPassword creates a bcrypt hash from the given password; the result is the
Go pair `(string, error)`, `none` being the `nil` error. -/
def HashPassword (core : bcrypt.Core) (random : List UInt8) (password : String) :
    String × Option HashError :=
  if (goBytes password).length = 0 then ("", some (.password .ErrEmptyPassword))
  else if (goBytes password).length < 6 then ("", some (.password .ErrPasswordTooShort))
  else
    match core.GenerateFromPassword random password DefaultCost with
    | .error err => ("", some (.library err))
    | .ok bytes => (bytes, none)

/-- CheckPassword compares a password with its hash. -/
def CheckPassword (core : bcrypt.Core) (password hash : String) : Bool :=
  let err := bcrypt.CompareHashAndPassword core hash password
  err == none

/-- One step of the loop of `ValidatePassword` over the characters of the
password, on the pair `(hasUpper, hasLower)`. -/
def letterStep (flags : Bool × Bool) (char : Char) : Bool × Bool :=
  if 'A' ≤ char ∧ char ≤ 'Z' then (true, flags.2)
  else if 'a' ≤ char ∧ char ≤ 'z' then (flags.1, true)
  else flags

/-- ValidatePassword checks if password meets security requirements; `none` is the
`nil` error. -/
def ValidatePassword (password : String) : Option PasswordError :=
  if (goBytes password).length = 0 then some .ErrEmptyPassword
  else if (goBytes password).length < 6 then some .ErrPasswordTooShort
  else
    let flags := password.toList.foldl letterStep (false, false)
    if !flags.1 && !flags.2 then some .ErrPasswordNoLower
    else none

/-- ValidateEmail checks if email format is valid. -/
def ValidateEmail (email : String) : Bool :=
  if (goBytes email).length = 0 then false
  else
    let atCount := email.toList.foldl (fun n char => if char = '@' then n + 1 else n) 0
    atCount == 1 && decide ((goBytes email).length > 3) &&
      (goBytes email).head? != some '@'.val.toUInt8

end utils

/-! ## `models/developer.go` -/

/-- The zero value of Go `time.Time`: January 1 of year 1, 00:00:00 UTC. -/
def zeroTime : Time := -62135596800 * Second

namespace models

/-- Developer represents a developer in the system. -/
structure Developer where
  ID : Int
  Name : String
  Email : String
  PasswordHash : String
  Role : String
  TeamID : Option Int
  AvatarURL : String
  Status : String
  CreatedAt : Time
  UpdatedAt : Time
  deriving DecidableEq, Repr

/-- The value `&models.Developer{}`: every field at its zero value. -/
def Developer.zero : Developer :=
  { ID := 0, Name := "", Email := "", PasswordHash := "", Role := "", TeamID := none,
    AvatarURL := "", Status := "", CreatedAt := zeroTime, UpdatedAt := zeroTime }

/-- RegisterRequest represents the registration request body. -/
structure RegisterRequest where
  Name : String
  Email : String
  Password : String
  Role : String
  deriving DecidableEq, Repr

/-- LoginRequest represents the login request body. -/
structure LoginRequest where
  Email : String
  Password : String
  deriving DecidableEq, Repr

/-- Validate validates the registration request. -/
def RegisterRequest.Validate (r : RegisterRequest) : List String :=
  let errors : List String := []
  let errors := if r.Name = "" then errors ++ ["Name is required"] else errors
  let errors := if (goBytes r.Name).length < 2 then
    errors ++ ["Name must be at least 2 characters"] else errors
  let errors := if r.Email = "" then errors ++ ["Email is required"] else errors
  let errors := if r.Password = "" then errors ++ ["Password is required"] else errors
  let errors := if (goBytes r.Password).length < 6 then
    errors ++ ["Password must be at least 6 characters"] else errors
  errors

/-- Validate validates the login request. -/
def LoginRequest.Validate (r : LoginRequest) : List String :=
  let errors : List String := []
  let errors := if r.Email = "" then errors ++ ["Email is required"] else errors
  let errors := if r.Password = "" then errors ++ ["Password is required"] else errors
  errors

/-- ToDeveloper creates a Developer from RegisterRequest. -/
def RegisterRequest.ToDeveloper (r : RegisterRequest) (passwordHash : String) : Developer :=
  let role := r.Role
  let role := if role = "" then "developer" else role
  { Developer.zero with
    Name := r.Name
    Email := r.Email
    PasswordHash := passwordHash
    Role := role
    Status := "active" }

end models

/-! ## `database/sql` and `repository/developer_repo.go` -/

namespace sql

/-- An error of `database/sql` or of the driver. -/
inductive Error
  | ErrNoRows
  | other (id : Nat)
  deriving DecidableEq, Repr

end sql

namespace repository

/-- A row returned by the `SELECT` of `GetByID` and `GetByEmail`, column by column;
`none` is SQL `NULL`. -/
structure DeveloperRow where
  id : Int
  name : String
  email : String
  role : Option String
  teamID : Option Int
  avatarURL : Option String
  status : String
  createdAt : Time
  updatedAt : Time
  deriving DecidableEq, Repr

/-- The database as the repository sees it during one request: the answer of the
driver to each statement on table `developers` whose result a handler uses. -/
structure DB where
  /-- Statement `INSERT INTO developers (...) VALUES ($1..$7) RETURNING id,
  created_at, updated_at`, scanned. -/
  insertDeveloper : (name email role avatarURL status : String) → (createdAt updatedAt : Time) →
    Except sql.Error (Int × Time × Time)
  /-- Statement `SELECT ... FROM developers WHERE id = $1`, scanned. -/
  selectByID : Int → Except sql.Error DeveloperRow
  /-- Statement `SELECT ... FROM developers WHERE email = $1`, scanned. -/
  selectByEmail : String → Except sql.Error DeveloperRow

/-- DeveloperRepository handles database operations for developers. -/
structure DeveloperRepository where
  db : DB

/-- An error built by `fmt.Errorf("...: %w", err)`. -/
structure Error where
  message : String
  cause : sql.Error
  deriving DecidableEq, Repr

/-- The developer assembled from a scanned row by `GetByID` and `GetByEmail`: the
fields that are scanned or copied; `PasswordHash` is not among the selected
columns and keeps its zero value. -/
def developerOfRow (row : DeveloperRow) : models.Developer :=
  let developer := { models.Developer.zero with
    ID := row.id
    Name := row.name
    Email := row.email
    Status := row.status
    CreatedAt := row.createdAt
    UpdatedAt := row.updatedAt }
  let developer := match row.role with
    | some role => { developer with Role := role }
    | none => developer
  let developer := match row.avatarURL with
    | some avatarURL => { developer with AvatarURL := avatarURL }
    | none => developer
  let developer := match row.teamID with
    | some tid => { developer with TeamID := some tid }
    | none => developer
  developer

/-- Create creates a new developer: the developer after the call (the pointer
argument) and the error; `now` is the value of `time.Now()`. -/
def DeveloperRepository.Create (r : DeveloperRepository) (developer : models.Developer)
    (now : Time) : models.Developer × Option Error :=
  match r.db.insertDeveloper developer.Name developer.Email developer.Role developer.AvatarURL
      developer.Status now now with
  | .error err => (developer, some ⟨"failed to create developer", err⟩)
  | .ok (id, createdAt, updatedAt) =>
    ({ developer with ID := id, CreatedAt := createdAt, UpdatedAt := updatedAt }, none)

/-- GetByID retrieves a developer by ID; `ok none` is the Go result `(nil, nil)`. -/
def DeveloperRepository.GetByID (r : DeveloperRepository) (id : Int) :
    Except Error (Option models.Developer) :=
  match r.db.selectByID id with
  | .error err =>
    if err = .ErrNoRows then .ok none
    else .error ⟨"failed to get developer", err⟩
  | .ok row => .ok (some (developerOfRow row))

/-- GetByEmail retrieves a developer by email; `ok none` is the Go result
`(nil, nil)`. -/
def DeveloperRepository.GetByEmail (r : DeveloperRepository) (email : String) :
    Except Error (Option models.Developer) :=
  match r.db.selectByEmail email with
  | .error err =>
    if err = .ErrNoRows then .ok none
    else .error ⟨"failed to get developer by email", err⟩
  | .ok row => .ok (some (developerOfRow row))

end repository

/-! ## `strconv` -/

namespace strconv

/-- The `Err` field of a `*strconv.NumError`. -/
inductive Err
  | ErrSyntax
  | ErrRange
  deriving DecidableEq, Repr

/-- Constant `intSize`: the size in bits of Go `int` on a 64-bit platform. -/
def intSize : Nat := 64

/-- Conversion `int64(x)` of an integer: reduction into the range of `int64`. -/
def toInt64 (x : Int) : Int :=
  (x + 9223372036854775808) % 18446744073709551616 - 9223372036854775808

/-- The loop of the fast path of `Atoi` over the bytes of the text:
`ch -= '0'; if ch > 9 { return 0, syntaxError }; n = n*10 + int(ch)`; `none` is the
syntax error.  The subtraction is that of Go `byte`. -/
def atoiLoop : List Nat → Int → Option Int
  | [], n => some n
  | ch :: rest, n =>
    let ch := (ch + 256 - 48) % 256
    if ch > 9 then none
    else atoiLoop rest (n * 10 + ch)

/-- Function `lower(c)`: `c | ('x' - 'X')`. -/
def lower (c : Nat) : Nat := c ||| 32

/-- Constant `maxUint64`. -/
def maxUint64 : Nat := 18446744073709551615

/-- The loop of `ParseUint(s, 10, 64)` over the bytes of the text, `n` being the
`uint64` accumulated so far; the result is the Go pair `(uint64, error)`. -/
def parseUintLoop : List Nat → Nat → Nat × Option Err
  | [], n => (n, none)
  | c :: rest, n =>
    let d : Option Nat :=
      if 48 ≤ c ∧ c ≤ 57 then some (c - 48)
      else if 97 ≤ lower c ∧ lower c ≤ 122 then some (lower c - 97 + 10)
      else none
    match d with
    | none => (0, some .ErrSyntax)
    | some d =>
      if d ≥ 10 then (0, some .ErrSyntax)
      else if n ≥ maxUint64 / 10 + 1 then (maxUint64, some .ErrRange)
      else
        let n := (n * 10) % 18446744073709551616
        let n1 := (n + d) % 18446744073709551616
        if n1 < n ∨ n1 > maxUint64 then (maxUint64, some .ErrRange)
        else parseUintLoop rest n1

/-- Go `strconv.ParseUint(s, 10, 64)` on the bytes of `s`. -/
def ParseUint (s : List Nat) : Nat × Option Err :=
  if s = [] then (0, some .ErrSyntax)
  else parseUintLoop s 0

/-- The second half of `ParseInt`, "convert unsigned and check range", on the
result `(un, err)` of `ParseUint`. -/
def parseIntRange (neg : Bool) (un : Nat) (err : Option Err) : Int × Option Err :=
  if err ≠ none ∧ err ≠ some .ErrRange then (0, err)
  else
    let cutoff : Nat := 2 ^ (intSize - 1)
    if neg = false ∧ un ≥ cutoff then ((cutoff : Int) - 1, some .ErrRange)
    else if neg = true ∧ un > cutoff then (-(cutoff : Int), some .ErrRange)
    else
      let n := toInt64 un
      (if neg = true then toInt64 (-n) else n, none)

/-- Go `strconv.ParseInt(s, 10, 0)` on the bytes of `s`: the leading sign is picked
off, the rest goes through `ParseUint` and the range check. -/
def ParseInt (s : List Nat) : Int × Option Err :=
  match s with
  | [] => (0, some .ErrSyntax)
  | s0 :: tail =>
    let neg := decide (s0 = 45)
    let s := if s0 = 43 then tail else if s0 = 45 then tail else s0 :: tail
    parseIntRange neg (ParseUint s).1 (ParseUint s).2

/-- Go `strconv.Atoi(s)` with 64-bit `int`: the fast path for texts of 1 to 18
bytes, `ParseInt(s, 10, 0)` for the others; the result is the Go pair
`(int, error)`. -/
def Atoi (s : String) : Int × Option Err :=
  let bytes := (goBytes s).map UInt8.toNat
  let sLen := bytes.length
  if 0 < sLen ∧ sLen < 19 then
    match bytes with
    | [] => (0, some .ErrSyntax)
    | s0 :: tail =>
      let signed := decide (s0 = 45 ∨ s0 = 43)
      let s := if signed then tail else s0 :: tail
      if signed ∧ s.length < 1 then (0, some .ErrSyntax)
      else
        match atoiLoop s 0 with
        | none => (0, some .ErrSyntax)
        | some n => (if s0 = 45 then -n else n, none)
  else ParseInt bytes

/-- Go `strconv.Itoa(i)`: the decimal text of `i`, with a leading `-` when
negative. -/
def Itoa (i : Int) : String :=
  if i < 0 then "-" ++ Nat.repr i.natAbs else Nat.repr i.natAbs

end strconv

/-! ## `middleware` (continued) -/

/-- GetUserID extracts user ID from request context (returns int). -/
def GetUserID (r : Request) : Int :=
  match context.Value r.Context UserIDKey with
  | some (.string userIDStr) =>
    match strconv.Atoi userIDStr with
    | (_, some _) => 0
    | (userID, none) => userID
  | _ => 0

/-- IsAuthenticated checks if request has valid authentication. -/
def IsAuthenticated (r : Request) : Bool :=
  decide (GetUserID r > 0)

/-! ## `handlers/auth_handler.go` -/

namespace http

/-- Go `http.StatusOK`. -/
def StatusOK : Nat := 200

/-- Go `http.StatusCreated`. -/
def StatusCreated : Nat := 201

/-- Go `http.StatusBadRequest`. -/
def StatusBadRequest : Nat := 400

/-- Go `http.StatusNotFound`. -/
def StatusNotFound : Nat := 404

/-- Go `http.StatusConflict`. -/
def StatusConflict : Nat := 409

/-- Go `http.StatusInternalServerError`. -/
def StatusInternalServerError : Nat := 500

end http

namespace handlers

/-- The `data`/`message` content of a success body handed to `utils.JSON` by the
handlers of `auth_handler.go`. -/
inductive Data
  /-- Fields `message`, `data.developer` and `data.token` (`access_token`,
  `token_type`, `expires_in`) of the bodies of `Register` and `Login`. -/
  | session (message : String) (developer : models.Developer)
      (accessToken tokenType : String) (expiresIn : Int)
  /-- Field `data` of the body of `Me`. -/
  | developer (data : models.Developer)
  /-- Field `message` of the body of `Logout`. -/
  | message (message : String)
  deriving DecidableEq, Repr

/-- One response written by a handler. -/
inductive Reply
  /-- Written by `utils.ErrorResponse(w, status, message)`. -/
  | error (resp : utils.Response)
  /-- Written by `utils.ValidationErrorResponse(w, errors)`. -/
  | validationError (details : List String)
  /-- Written by `utils.JSON(w, status, ...)` with a `"success": true` body. -/
  | json (status : Nat) (data : Data)
  deriving DecidableEq, Repr

/-- The status code of a response. -/
def Reply.status : Reply → Nat
  | .error resp => resp.status
  | .validationError _ => http.StatusBadRequest
  | .json status _ => status

/-- What a handler of `auth_handler.go` does, in order: the calls of
`userRepo.Create` and `userRepo.UpdateStatus` it makes and the response it
writes. -/
inductive Effect
  | create (developer : models.Developer)
  | updateStatus (id : Int) (status : String)
  | write (reply : Reply)
  deriving DecidableEq, Repr

/-- AuthHandler handles authentication endpoints. -/
structure AuthHandler where
  jwtService : JWTService
  userRepo : repository.DeveloperRepository

/-- Register handles POST /api/v1/auth/register.  `decoded` is the outcome of
`json.NewDecoder(r.Body).Decode(&req)` (`none` when it fails), `random` the bytes
bcrypt reads from the random source, `tCreate` and `now` the clock readings of
`Create` and of `GenerateToken`. -/
def AuthHandler.Register (h : AuthHandler) (core : bcrypt.Core) (random : List UInt8)
    (tCreate now : Time) (decoded : Option models.RegisterRequest) : List Effect :=
  match decoded with
  | none => [.write (.error (utils.ErrorResponse http.StatusBadRequest "Invalid request body"))]
  | some req =>
    if req.Validate.length > 0 then [.write (.validationError req.Validate)]
    else if !utils.ValidateEmail req.Email then
      [.write (.error (utils.ErrorResponse http.StatusBadRequest "Invalid email format"))]
    else
      match utils.ValidatePassword req.Password with
      | some err => [.write (.error (utils.ErrorResponse http.StatusBadRequest err.Error))]
      | none =>
        match h.userRepo.GetByEmail req.Email with
        | .error _ =>
          [.write (.error (utils.ErrorResponse http.StatusInternalServerError
            "Failed to check email"))]
        | .ok (some _) =>
          [.write (.error (utils.ErrorResponse http.StatusConflict "Email already registered"))]
        | .ok none =>
          match utils.HashPassword core random req.Password with
          | (_, some _) =>
            [.write (.error (utils.ErrorResponse http.StatusInternalServerError
              "Failed to hash password"))]
          | (passwordHash, none) =>
            let developer := req.ToDeveloper passwordHash
            match h.userRepo.Create developer tCreate with
            | (_, some _) =>
              [.create developer,
               .write (.error (utils.ErrorResponse http.StatusInternalServerError
                "Failed to create user"))]
            | (created, none) =>
              match GenerateToken h.jwtService (strconv.Itoa created.ID) created.Email
                  created.Role now with
              | .error _ =>
                [.create developer,
                 .write (.error (utils.ErrorResponse http.StatusInternalServerError
                  "Failed to generate token"))]
              | .ok tokenPair =>
                [.create developer,
                 .updateStatus created.ID "online",
                 .write (.json http.StatusCreated
                  (.session "Registration successful" created tokenPair.AccessToken
                    tokenPair.TokenType tokenPair.ExpiresIn))]

/-- Login handles POST /api/v1/auth/login.  `decoded` is the outcome of
`json.NewDecoder(r.Body).Decode(&req)` (`none` when it fails), `random` the bytes
bcrypt reads from the random source, `now` the clock reading of `GenerateToken`. -/
def AuthHandler.Login (h : AuthHandler) (core : bcrypt.Core) (random : List UInt8)
    (now : Time) (decoded : Option models.LoginRequest) : List Effect :=
  match decoded with
  | none => [.write (.error (utils.ErrorResponse http.StatusBadRequest "Invalid request body"))]
  | some req =>
    if req.Validate.length > 0 then [.write (.validationError req.Validate)]
    else
      match h.userRepo.GetByEmail req.Email with
      | .error _ =>
        [.write (.error (utils.ErrorResponse http.StatusInternalServerError
          "Failed to fetch user"))]
      | .ok none =>
        [.write (.error (utils.ErrorResponse http.StatusUnauthorized
          "Invalid email or password"))]
      | .ok (some developer) =>
        let developer :=
          if developer.PasswordHash = "" then
            let passwordHash := (utils.HashPassword core random req.Password).1
            { developer with PasswordHash := passwordHash }
          else developer
        if !utils.CheckPassword core req.Password developer.PasswordHash then
          [.write (.error (utils.ErrorResponse http.StatusUnauthorized
            "Invalid email or password"))]
        else
          match GenerateToken h.jwtService (strconv.Itoa developer.ID) developer.Email
              developer.Role now with
          | .error _ =>
            [.write (.error (utils.ErrorResponse http.StatusInternalServerError
              "Failed to generate token"))]
          | .ok tokenPair =>
            [.updateStatus developer.ID "online",
             .write (.json http.StatusOK
              (.session "Login successful" { developer with Status := "online" }
                tokenPair.AccessToken tokenPair.TokenType tokenPair.ExpiresIn))]

/-- Me handles GET /api/v1/auth/me: returns the currently authenticated user. -/
def AuthHandler.Me (h : AuthHandler) (r : Request) : List Effect :=
  let userID := GetUserID r
  if userID = 0 then
    [.write (.error (utils.ErrorResponse http.StatusUnauthorized "Not authenticated"))]
  else
    match h.userRepo.GetByID userID with
    | .error _ =>
      [.write (.error (utils.ErrorResponse http.StatusInternalServerError
        "Failed to fetch user"))]
    | .ok none =>
      [.write (.error (utils.ErrorResponse http.StatusNotFound "User not found"))]
    | .ok (some developer) => [.write (.json http.StatusOK (.developer developer))]

/-- Logout handles POST /api/v1/auth/logout. -/
def AuthHandler.Logout (_h : AuthHandler) (r : Request) : List Effect :=
  let userID := GetUserID r
  if userID = 0 then
    [.write (.error (utils.ErrorResponse http.StatusUnauthorized "Not authenticated"))]
  else
    [.updateStatus userID "inactive", .write (.json http.StatusOK (.message "Logout successful"))]

end handlers

/-! ## Vocabulary of the properties -/

/-- The token as the library returns it from a parser configured with
`jwt.WithoutClaimsValidation()` and the service's key function: the result is
`ok` exactly when the token string is well formed, names a registered HMAC
method and carries the MAC of its first two segments under the service's
secret.  No clock is consulted. -/
def verifiedToken (s : JWTService) (tokenString : String) : Except jwt.Error jwt.Token :=
  ({ skipClaimsValidation := true } : jwt.Parser).ParseWithClaims tokenString (keyFunc s) 0

/-- The verdict of the service on claims whose token has verified, as a function
of the clock: expired from `ExpiresAt` on, otherwise invalid before `NotBefore`,
otherwise accepted. -/
def windowVerdict (c : JWTClaims) (now : Time) : Except ServiceError JWTClaims :=
  match c.ExpiresAt, c.NotBefore with
  | some exp, some nbf =>
    if now < exp.Time then (if now < nbf.Time then .error ErrInvalidToken else .ok c)
    else .error ErrExpiredToken
  | some exp, none => if now < exp.Time then .ok c else .error ErrExpiredToken
  | none, some nbf => if now < nbf.Time then .error ErrInvalidToken else .ok c
  | none, none => .ok c

/-- The clock reading lies in the validity window of the claims: at or after
`NotBefore` and strictly before `ExpiresAt`; a bound the claims do not carry
imposes nothing. -/
def withinWindow (c : JWTClaims) (now : Time) : Prop :=
  (match c.NotBefore with
    | none => True
    | some nbf => nbf.Time ≤ now) ∧
  (match c.ExpiresAt with
    | none => True
    | some exp => now < exp.Time)

instance withinWindowDecidable (c : JWTClaims) (now : Time) : Decidable (withinWindow c now) :=
  match h1 : c.NotBefore, h2 : c.ExpiresAt with
  | none, none => isTrue (by simp [withinWindow, h1, h2])
  | none, some exp =>
    if h : now < exp.Time then isTrue (by simp [withinWindow, h1, h2, h])
    else isFalse (by simp [withinWindow, h1, h2, h])
  | some nbf, none =>
    if h : nbf.Time ≤ now then isTrue (by simp [withinWindow, h1, h2, h])
    else isFalse (by simp [withinWindow, h1, h2, h])
  | some nbf, some exp =>
    if h : nbf.Time ≤ now ∧ now < exp.Time then isTrue (by simpa [withinWindow, h1, h2] using h)
    else isFalse (by simpa [withinWindow, h1, h2] using h)

/-- The token string is a well-formed token signed under `secret` with the HMAC
method `m` and carrying the claims `c`: it consists of three segments separated
by dots; the first decodes to a header that names `m`, one of HS256, HS384 and
HS512; the second decodes to `c`; and the third decodes to the MAC, under `secret`
and the hash of `m`, of the first two segments with the dot between them. -/
def SignedByWith (secret : String) (m : jwt.SigningMethod) (tokenString : String)
    (c : JWTClaims) : Prop :=
  m.isHMAC = true ∧
  ∃ p0 p1 p2 headerBytes header claimBytes,
    stringsSplit '.' tokenString.toList = [p0, p1, p2] ∧
    jwt.DecodeSegment p0 = some headerBytes ∧
    jwt.unmarshalHeader headerBytes = some header ∧
    header.alg = some m.Alg ∧
    jwt.DecodeSegment p1 = some claimBytes ∧
    jwt.unmarshalClaims claimBytes = some c ∧
    jwt.DecodeSegment p2 = some (jwt.hmacSum m secret.toList (p0 ++ '.' :: p1))

/-- The signature of the token string verifies under `secret`, the claims of the
token being `c`. -/
def SignatureVerifies (secret : String) (tokenString : String) (c : JWTClaims) : Prop :=
  ∃ m, SignedByWith secret m tokenString c

/-- The token was signed with a secret that is another HMAC key than the service's
secret: it is a well-formed token signed under some secret whose key block, for
the method of the token, differs from the key block of the service's secret. -/
def SignedWithOtherKey (s : JWTService) (tokenString : String) : Prop :=
  ∃ other m c, SignedByWith other m tokenString c ∧
    jwt.keyBlock m other.toList ≠ jwt.keyBlock m s.secretKey.toList

/-- The claims carry an `ExpiresAt` that the clock reading has reached. -/
def hasExpired (c : JWTClaims) (now : Time) : Bool :=
  match c.ExpiresAt with
  | none => false
  | some exp => decide (exp.Time ≤ now)

/-- The algorithm named by the header (first segment) of a token string, when
that segment decodes to a header with a string-valued `alg`. -/
def headerAlg (tokenString : String) : Option String :=
  match stringsSplit '.' tokenString.toList with
  | [] => none
  | p0 :: _ =>
    match jwt.DecodeSegment p0 with
    | none => none
    | some headerBytes =>
      match jwt.unmarshalHeader headerBytes with
      | none => none
      | some header => header.alg

/-- Refresh as the specification words it: validate the token exactly as an
access token; on failure return that error and no pair; on success mint a new
pair from the developer id, email and role of the validated claims. -/
def RefreshTokenSpec (s : JWTService) (tokenString : String) (now now2 : Time) :
    Except ServiceError TokenPair :=
  match ValidateToken s tokenString now with
  | .error e => .error e
  | .ok c => GenerateToken s c.DeveloperID c.Email c.Role now2

/-- A value within the range of Go `int64`. -/
def isInt64 (n : Int) : Prop :=
  -9223372036854775808 ≤ n ∧ n < 9223372036854775808

/-- The three steps of `AuthMiddleware` all succeed on the request: the
`Authorization` header is present and not empty, `ExtractToken` returns a token
and no error, and `ValidateToken` returns claims for that token. -/
def stepsSucceed (jwtService : JWTService) (now : Time) (r : Request) : Prop :=
  r.Header.Get "Authorization" ≠ "" ∧
  (ExtractToken (r.Header.Get "Authorization")).2 = none ∧
  (ValidateToken jwtService (ExtractToken (r.Header.Get "Authorization")).1 now).toBool = true

/-- The request that `AuthMiddleware` hands to the next handler for claims `c`. -/
def withIdentity (r : Request) (c : JWTClaims) : Request :=
  r.WithContext
    (context.WithValue
      (context.WithValue
        (context.WithValue r.Context UserIDKey (.string c.DeveloperID))
        UserEmailKey (.string c.Email))
      UserRoleKey (.string c.Role))

/-- The number written by a run of decimal digits, most significant first,
continuing the number `n`. -/
def digitsValue (n : Nat) (digits : List Char) : Nat :=
  digits.foldl (fun n c => 10 * n + (c.toNat - 48)) n

/-- The integer denoted by a sign and a run of characters: the characters must be
one or more of the digits `0` to `9` and the signed value must fit a 64-bit Go
`int`. -/
def decimalOf (neg : Bool) (digits : List Char) : Option Int :=
  if digits ≠ [] ∧ digits.all Char.isDigit = true then
    let v : Int := if neg = true then -(digitsValue 0 digits : Int) else digitsValue 0 digits
    if -9223372036854775808 ≤ v ∧ v ≤ 9223372036854775807 then some v
    else none
  else none

/-- The integer a text denotes in decimal notation, when it parses as a Go `int`:
an optional sign `+` or `-` followed by one or more of the digits `0` to `9` and
nothing else, with a value from -2^63 to 2^63 - 1. -/
def decimalInt (s : String) : Option Int :=
  match s.toList with
  | [] => none
  | c :: cs =>
    if c = '-' then decimalOf true cs
    else if c = '+' then decimalOf false cs
    else decimalOf false (c :: cs)

/-! ## Round-trip lemmas of the wire format -/

theorem unescape_escape (sp ec alt : Char) (h1 : sp ≠ ec) (h2 : alt ≠ ec) (s : List Char) :
    unescape sp ec alt (escape sp ec alt s) = some s := by
  induction s with
  | nil => rfl
  | cons c cs ih =>
    by_cases hsp : c = sp
    · subst hsp
      simp [escape, unescape, ih, h2]
    · by_cases hec : c = ec
      · subst hec
        simp [escape, unescape, ih, hsp]
      · simp only [escape, hsp, hec, if_false]
        cases hcs : escape sp ec alt cs with
        | nil =>
          rw [hcs] at ih
          cases cs with
          | nil => simp [unescape, hec]
          | cons d ds => simp [unescape] at ih
        | cons d ds =>
          rw [hcs] at ih
          simp [unescape, hec, ih]

theorem not_mem_escape (sp ec alt : Char) (h1 : sp ≠ ec) (h2 : sp ≠ alt) (s : List Char) :
    sp ∉ escape sp ec alt s := by
  induction s with
  | nil => simp [escape]
  | cons c cs ih =>
    by_cases hsp : c = sp
    · subst hsp
      simp [escape, ih, h1, h2]
    · by_cases hec : c = ec
      · subst hec
        simp [escape, ih, h1, hsp]
      · simp [escape, hsp, hec, ih, Ne.symm hsp]

theorem splitField_append (p r : List Char) (hp : ';' ∉ p) :
    splitField (p ++ ';' :: r) = some (p, r) := by
  induction p with
  | nil => simp [splitField]
  | cons c cs ih =>
    have hc : c ≠ ';' := fun h => hp (by simp [h])
    have hcs : ';' ∉ cs := fun h => hp (by simp [h])
    simp [splitField, hc, ih hcs]

theorem decField_encField (s r : List Char) : decField (encField s ++ r) = some (s, r) := by
  unfold decField encField
  rw [List.append_assoc, List.singleton_append,
    splitField_append _ _ (not_mem_escape ';' '\\' ':' (by decide) (by decide) s)]
  simp [unescape_escape ';' '\\' ':' (by decide) (by decide) s]

theorem encField_ne_nil (s : List Char) : encField s ≠ [] := by
  simp [encField]

theorem decOptField_encOptField (o : Option (List Char)) (r : List Char) :
    decOptField (encOptField o ++ r) = some (o, r) := by
  cases o with
  | none => simp [encOptField, decOptField]
  | some s => simp [encOptField, decOptField, decField_encField]

theorem digitChar_isDigit (d : Nat) (hd : d < 10) :
    '0' ≤ digitChar d ∧ digitChar d ≤ '9' := by
  interval_cases d <;> decide

theorem digitChar_toNat (d : Nat) (hd : d < 10) : (digitChar d).toNat - 48 = d := by
  interval_cases d <;> decide

theorem parseInt_intChars (n : Int) : parseInt (intChars n) = some n := by
  have hall : ((Nat.digits 10 n.natAbs).reverse.map digitChar).all
      (fun c => decide ('0' ≤ c ∧ c ≤ '9')) = true := by
    rw [List.all_eq_true]
    intro c hc
    rw [List.mem_map] at hc
    obtain ⟨d, hd, rfl⟩ := hc
    have hlt : d < 10 := Nat.digits_lt_base (by norm_num) (List.mem_reverse.mp hd)
    exact decide_eq_true (digitChar_isDigit d hlt)
  have hval : Nat.ofDigits 10
      ((((Nat.digits 10 n.natAbs).reverse.map digitChar).reverse).map
        (fun c => c.toNat - 48)) = n.natAbs := by
    rw [← List.map_reverse, List.reverse_reverse, List.map_map]
    have hid : List.map ((fun c => c.toNat - 48) ∘ digitChar) (Nat.digits 10 n.natAbs)
        = Nat.digits 10 n.natAbs := by
      conv_rhs => rw [← List.map_id (Nat.digits 10 n.natAbs)]
      apply List.map_congr_left
      intro d hd
      exact digitChar_toNat d (Nat.digits_lt_base (by norm_num) hd)
    rw [hid, Nat.ofDigits_digits]
  unfold intChars parseInt
  simp only [hall, if_true, hval]
  by_cases hn : n < 0
  · simp only [hn, if_true]
    congr 1
    omega
  · simp only [hn, if_false]
    have : ('+' = '-') = False := by decide
    simp only [this, if_false, if_true]
    congr 1
    omega

theorem decDate_encDate (d : Option jwt.NumericDate) (r : List Char) :
    jwt.decDate (jwt.encDate d ++ r) = some (d, r) := by
  unfold jwt.decDate jwt.encDate
  rw [decOptField_encOptField]
  cases d with
  | none => rfl
  | some x => simp [parseInt_intChars]

theorem decFields_flatten (ss : List (List Char)) :
    ∀ fuel, ((ss.map encField).flatten).length ≤ fuel →
      decFields fuel ((ss.map encField).flatten) = some ss := by
  induction ss with
  | nil =>
    intro fuel _
    cases fuel <;> simp [decFields]
  | cons s rest ih =>
    intro fuel hfuel
    have hne : encField s ++ (rest.map encField).flatten ≠ [] := by
      simp [encField_ne_nil]
    have hlen : 0 < (encField s).length := List.length_pos.mpr (encField_ne_nil s)
    cases fuel with
    | zero =>
      simp only [List.map_cons, List.flatten_cons, List.length_append] at hfuel
      omega
    | succ k =>
      simp only [List.map_cons, List.flatten_cons, List.length_append] at hfuel
      have hk : ((rest.map encField).flatten).length ≤ k := by omega
      simp only [List.map_cons, List.flatten_cons, decFields, hne, if_false,
        decField_encField, ih k hk, Option.map_some']

theorem map_mk_toList (l : List String) :
    (l.map String.toList).map String.mk = l := by
  induction l with
  | nil => rfl
  | cons a t ih => simp [ih]

theorem unmarshalClaims_marshalClaims (c : JWTClaims) :
    jwt.unmarshalClaims (jwt.marshalClaims c) = some c := by
  have haud : decFields ((c.Audience.map (fun a => encField a.toList)).flatten).length
      ((c.Audience.map (fun a => encField a.toList)).flatten)
      = some (c.Audience.map String.toList) := by
    have h := decFields_flatten (c.Audience.map String.toList)
      (((c.Audience.map String.toList).map encField).flatten).length (le_refl _)
    simpa [List.map_map, Function.comp] using h
  have hjti : decField (encField c.ID.toList) = some (c.ID.toList, []) := by
    simpa using decField_encField c.ID.toList []
  unfold jwt.unmarshalClaims jwt.marshalClaims
  simp only [decField_encField, decDate_encDate, haud, hjti, Option.bind_eq_bind,
    Option.some_bind, if_true, Option.pure_def, map_mk_toList]
  rfl

theorem unmarshalHeader_marshalHeader (h : jwt.Header) :
    jwt.unmarshalHeader (jwt.marshalHeader h) = some h := by
  have h2 : decOptField (encOptField (h.alg.map String.toList))
      = some (h.alg.map String.toList, []) := by
    simpa using decOptField_encOptField (h.alg.map String.toList) []
  unfold jwt.unmarshalHeader jwt.marshalHeader
  simp only [decOptField_encOptField, h2, if_true]
  cases h with
  | mk typ alg => cases typ <;> cases alg <;> rfl

theorem DecodeSegment_EncodeSegment (b : List Char) :
    jwt.DecodeSegment (jwt.EncodeSegment b) = some b :=
  unescape_escape '.' '~' '-' (by decide) (by decide) b

theorem dot_not_mem_EncodeSegment (b : List Char) : '.' ∉ jwt.EncodeSegment b :=
  not_mem_escape '.' '~' '-' (by decide) (by decide) b

theorem stringsSplit_of_not_mem (sep : Char) (a : List Char) (ha : sep ∉ a) :
    stringsSplit sep a = [a] := by
  induction a with
  | nil => rfl
  | cons c cs ih =>
    have hc : c ≠ sep := fun h => ha (by simp [h])
    have hcs : sep ∉ cs := fun h => ha (by simp [h])
    simp [stringsSplit, hc, ih hcs]

theorem stringsSplit_append (sep : Char) (a r : List Char) (ha : sep ∉ a) :
    stringsSplit sep (a ++ sep :: r) = a :: stringsSplit sep r := by
  induction a with
  | nil => simp [stringsSplit]
  | cons c cs ih =>
    have hc : c ≠ sep := fun h => ha (by simp [h])
    have hcs : sep ∉ cs := fun h => ha (by simp [h])
    simp [stringsSplit, hc, ih hcs]

theorem stringsSplit_three (a b c : List Char) (ha : '.' ∉ a) (hb : '.' ∉ b) (hc : '.' ∉ c) :
    stringsSplit '.' (a ++ '.' :: (b ++ '.' :: c)) = [a, b, c] := by
  rw [stringsSplit_append _ _ _ ha, stringsSplit_append _ _ _ hb,
    stringsSplit_of_not_mem _ _ hc]

theorem GetSigningMethod_Alg (m : jwt.SigningMethod) : jwt.GetSigningMethod m.Alg = some m := by
  cases m <;> decide

theorem Alg_injective (m m2 : jwt.SigningMethod) (h : m.Alg = m2.Alg) : m = m2 := by
  have h1 := GetSigningMethod_Alg m
  rw [h, GetSigningMethod_Alg] at h1
  exact (Option.some.inj h1).symm

theorem blockChars_cons (x : Nat) (a : List Nat) :
    jwt.blockChars (x :: a) = encField (intChars x) ++ jwt.blockChars a := by
  simp [jwt.blockChars]

theorem blockChars_injective (a b : List Nat) (h : jwt.blockChars a = jwt.blockChars b) :
    a = b := by
  induction a generalizing b with
  | nil =>
    cases b with
    | nil => rfl
    | cons y b =>
      rw [blockChars_cons] at h
      have hlen := congrArg List.length h
      have hne := encField_ne_nil (intChars y)
      have hpos : 0 < (encField (intChars y)).length := List.length_pos.mpr hne
      have hnil : jwt.blockChars [] = [] := rfl
      rw [hnil, List.length_append, List.length_nil] at hlen
      omega
  | cons x a ih =>
    cases b with
    | nil =>
      rw [blockChars_cons] at h
      have hlen := congrArg List.length h
      have hne := encField_ne_nil (intChars x)
      have hpos : 0 < (encField (intChars x)).length := List.length_pos.mpr hne
      have hnil : jwt.blockChars [] = [] := rfl
      rw [hnil, List.length_append, List.length_nil] at hlen
      omega
    | cons y b =>
      rw [blockChars_cons, blockChars_cons] at h
      have h1 := decField_encField (intChars x) (jwt.blockChars a)
      rw [h, decField_encField] at h1
      simp only [Option.some.injEq, Prod.mk.injEq] at h1
      obtain ⟨hxy, hrest⟩ := h1
      have h2 := parseInt_intChars (x : Int)
      rw [← hxy, parseInt_intChars] at h2
      have hx : x = y := by
        have h3 : (y : Int) = (x : Int) := Option.some.inj h2
        omega
      rw [hx, ih b hrest.symm]

theorem hmacSum_injective (m m2 : jwt.SigningMethod) (k k2 msg msg2 : List Char)
    (h : jwt.hmacSum m k msg = jwt.hmacSum m2 k2 msg2) :
    m = m2 ∧ jwt.keyBlock m k = jwt.keyBlock m2 k2 ∧ msg = msg2 := by
  unfold jwt.hmacSum at h
  have h1 := decField_encField m.Alg.toList
    (encField (jwt.blockChars (jwt.keyBlock m k)) ++ encField msg)
  rw [h, decField_encField] at h1
  simp only [Option.some.injEq, Prod.mk.injEq] at h1
  obtain ⟨ha, hrest⟩ := h1
  have h2 := decField_encField (jwt.blockChars (jwt.keyBlock m k)) (encField msg)
  rw [← hrest, decField_encField] at h2
  simp only [Option.some.injEq, Prod.mk.injEq] at h2
  obtain ⟨hk, hrest2⟩ := h2
  have h3 := decField_encField msg []
  rw [List.append_nil, ← hrest2] at h3
  have h4 := decField_encField msg2 []
  rw [List.append_nil, h3] at h4
  simp only [Option.some.injEq, Prod.mk.injEq, and_true] at h4
  refine ⟨?_, (blockChars_injective _ _ hk).symm, h4⟩
  apply Alg_injective
  have := congrArg String.mk ha
  simpa using this.symm

theorem ParseUnverified_congr (p q : jwt.Parser) (tokenString : String) :
    p.ParseUnverified tokenString = q.ParseUnverified tokenString := rfl

theorem ParseWithClaims_default (tokenString : String)
    (kf : jwt.Token → Except jwt.Error (List Char)) (now : Time) :
    jwt.ParseWithClaims tokenString kf now =
      match ({ skipClaimsValidation := true } : jwt.Parser).ParseWithClaims tokenString kf 0 with
      | .error e => .error e
      | .ok t =>
        match ({} : jwt.Validator).Validate t.Claims now with
        | some e => .error (jwt.newError .ErrTokenInvalidClaims [e])
        | none => .ok t := by
  unfold jwt.ParseWithClaims jwt.Parser.ParseWithClaims
  rw [ParseUnverified_congr ({} : jwt.Parser) { skipClaimsValidation := true }]
  cases ({ skipClaimsValidation := true } : jwt.Parser).ParseUnverified tokenString with
  | error e => rfl
  | ok r =>
    obtain ⟨token, parts⟩ := r
    simp only
    cases jwt.DecodeSegment (parts.getD 2 []) with
    | none => rfl
    | some sig =>
      simp only
      cases kf { token with Signature := sig } with
      | error e => rfl
      | ok key =>
        simp only
        cases token.Method.Verify (parts.getD 0 [] ++ '.' :: parts.getD 1 []) sig key with
        | some e => rfl
        | none => simp

theorem verifiedToken_not_expired (s : JWTService) (tokenString : String) (e : jwt.Error)
    (h : verifiedToken s tokenString = .error e) : jwt.errorsIs e .ErrTokenExpired = false := by
  unfold verifiedToken jwt.Parser.ParseWithClaims at h
  cases hpu : ({ skipClaimsValidation := true } : jwt.Parser).ParseUnverified tokenString with
  | error e2 =>
    rw [hpu] at h
    simp only [Except.error.injEq] at h
    subst h
    unfold jwt.Parser.ParseUnverified at hpu
    split at hpu
    · repeat' split at hpu
      all_goals first
        | (simp only [Except.error.injEq] at hpu; subst hpu; decide)
        | simp at hpu
    · simp only [Except.error.injEq] at hpu; subst hpu; decide
  | ok r =>
    obtain ⟨token, parts⟩ := r
    rw [hpu] at h
    simp only at h
    cases hd : jwt.DecodeSegment (parts.getD 2 []) with
    | none =>
      rw [hd] at h
      simp only [Except.error.injEq] at h
      subst h; decide
    | some sig =>
      rw [hd] at h
      simp only at h
      unfold keyFunc at h
      by_cases hm : token.Method.isHMAC = true
      · simp only [hm, Bool.not_true, Bool.false_eq_true, if_false] at h
        unfold jwt.SigningMethod.Verify at h
        simp only [hm, if_true] at h
        by_cases hsig : sig = jwt.hmacSum token.Method s.secretKey.toList
            (parts.getD 0 [] ++ '.' :: parts.getD 1 [])
        · simp [hsig] at h
        · simp only [hsig, if_false, Except.error.injEq] at h
          subst h; decide
      · simp only [hm, Bool.not_false, if_true, Bool.not_eq_true] at h
        simp only [Bool.not_eq_true] at hm
        simp only [hm, Bool.not_false, if_true, Except.error.injEq] at h
        subst h; decide

theorem verifiedToken_valid (s : JWTService) (tokenString : String) (t : jwt.Token)
    (h : verifiedToken s tokenString = .ok t) : t.Valid = true := by
  unfold verifiedToken jwt.Parser.ParseWithClaims at h
  simp only [↓reduceIte] at h
  repeat' split at h
  all_goals first
    | (simp only [Except.ok.injEq] at h; subst h; rfl)
    | simp at h

theorem validate_verdict (t : jwt.Token) (hv : t.Valid = true) (now : Time) :
    (match (match ({} : jwt.Validator).Validate t.Claims now with
        | some e => (Except.error (jwt.newError .ErrTokenInvalidClaims [e]) :
            Except jwt.Error jwt.Token)
        | none => .ok t) with
      | .error err =>
        if jwt.errorsIs err .ErrTokenExpired then .error ErrExpiredToken
        else .error ErrInvalidToken
      | .ok token =>
        if !token.Valid then .error ErrInvalidClaims
        else .ok token.Claims) = windowVerdict t.Claims now := by
  unfold jwt.Validator.Validate jwt.Validator.verifyExpiresAt jwt.Validator.verifyNotBefore
    jwt.errorIfFalse jwt.errorIfRequired windowVerdict
  cases hexp : t.Claims.ExpiresAt with
  | none =>
    cases hnbf : t.Claims.NotBefore with
    | none => simp [hv]
    | some nbf =>
      by_cases h2 : now < nbf.Time
      · simp [h2, jwt.joinErrors, jwt.newError, jwt.errorsIs]
      · simp [h2, hv]
  | some exp =>
    cases hnbf : t.Claims.NotBefore with
    | none =>
      by_cases h1 : now < exp.Time
      · simp [h1, hv]
      · simp [h1, jwt.joinErrors, jwt.newError, jwt.errorsIs]
    | some nbf =>
      by_cases h1 : now < exp.Time
      · by_cases h2 : now < nbf.Time
        · simp [h1, h2, jwt.joinErrors, jwt.newError, jwt.errorsIs]
        · simp [h1, h2, hv]
      · by_cases h2 : now < nbf.Time
        · simp [h1, h2, jwt.joinErrors, jwt.newError, jwt.errorsIs]
        · simp [h1, h2, jwt.joinErrors, jwt.newError, jwt.errorsIs]

theorem ValidateToken_eq (s : JWTService) (tokenString : String) (now : Time) :
    ValidateToken s tokenString now =
      match verifiedToken s tokenString with
      | .error _ => .error ErrInvalidToken
      | .ok t => windowVerdict t.Claims now := by
  unfold ValidateToken
  rw [ParseWithClaims_default]
  cases h : verifiedToken s tokenString with
  | error e =>
    have hne := verifiedToken_not_expired s tokenString e h
    unfold verifiedToken at h
    simp only [h, hne]
    rfl
  | ok t =>
    have hv := verifiedToken_valid s tokenString t h
    unfold verifiedToken at h
    simp only [h]
    exact validate_verdict t hv now

theorem GetSigningMethod_some (a : String) (m : jwt.SigningMethod)
    (h : jwt.GetSigningMethod a = some m) : m.Alg = a := by
  unfold jwt.GetSigningMethod at h
  simpa using List.find?_some h

theorem verifiedToken_inv (s : JWTService) (tokenString : String) (t : jwt.Token)
    (h : verifiedToken s tokenString = .ok t) :
    ∃ p0 p1 p2 headerBytes claimBytes,
      stringsSplit '.' tokenString.toList = [p0, p1, p2] ∧
      jwt.DecodeSegment p0 = some headerBytes ∧
      jwt.unmarshalHeader headerBytes = some t.Header ∧
      jwt.DecodeSegment p1 = some claimBytes ∧
      jwt.unmarshalClaims claimBytes = some t.Claims ∧
      t.Header.alg = some t.Method.Alg ∧
      t.Method.isHMAC = true ∧
      jwt.DecodeSegment p2 = some (jwt.hmacSum t.Method s.secretKey.toList (p0 ++ '.' :: p1)) := by
  unfold verifiedToken jwt.Parser.ParseWithClaims at h
  simp only [↓reduceIte] at h
  cases hpu : ({ skipClaimsValidation := true } : jwt.Parser).ParseUnverified tokenString with
  | error e => rw [hpu] at h; simp at h
  | ok r =>
    obtain ⟨token, parts⟩ := r
    rw [hpu] at h
    simp only at h
    unfold jwt.Parser.ParseUnverified at hpu
    split at hpu
    · rename_i p0 p1 p2 hsplit
      cases hd0 : jwt.DecodeSegment p0 with
      | none => rw [hd0] at hpu; simp at hpu
      | some headerBytes =>
        rw [hd0] at hpu
        simp only at hpu
        cases hh : jwt.unmarshalHeader headerBytes with
        | none => rw [hh] at hpu; simp at hpu
        | some header =>
          rw [hh] at hpu
          simp only at hpu
          cases hd1 : jwt.DecodeSegment p1 with
          | none => rw [hd1] at hpu; simp at hpu
          | some claimBytes =>
            rw [hd1] at hpu
            simp only at hpu
            cases hc : jwt.unmarshalClaims claimBytes with
            | none => rw [hc] at hpu; simp at hpu
            | some claims =>
              rw [hc] at hpu
              simp only at hpu
              cases ha : header.alg with
              | none => rw [ha] at hpu; simp at hpu
              | some headerAlg =>
                rw [ha] at hpu
                simp only at hpu
                cases hm : jwt.GetSigningMethod headerAlg with
                | none => rw [hm] at hpu; simp at hpu
                | some method =>
                  rw [hm] at hpu
                  simp only [Except.ok.injEq, Prod.mk.injEq] at hpu
                  obtain ⟨htok, hparts⟩ := hpu
                  subst htok hparts
                  simp only [List.getD_cons_zero, List.getD_cons_succ] at h
                  cases hd2 : jwt.DecodeSegment p2 with
                  | none => rw [hd2] at h; simp at h
                  | some sig =>
                    rw [hd2] at h
                    simp only at h
                    unfold keyFunc at h
                    by_cases hhm : method.isHMAC = true
                    · simp only [hhm, Bool.not_true, Bool.false_eq_true, if_false] at h
                      unfold jwt.SigningMethod.Verify at h
                      simp only [hhm, if_true] at h
                      by_cases hsig : sig = jwt.hmacSum method s.secretKey.toList (p0 ++ '.' :: p1)
                      · rw [if_pos hsig] at h
                        simp only [Except.ok.injEq] at h
                        subst h
                        refine ⟨p0, p1, p2, headerBytes, claimBytes, hsplit, hd0, hh, hd1, hc,
                          ?_, hhm, ?_⟩
                        · simp only [ha, GetSigningMethod_some headerAlg method hm]
                        · rw [hd2, hsig]
                      · rw [if_neg hsig] at h
                        simp at h
                    · simp only [Bool.not_eq_true] at hhm
                      simp [hhm] at h
    · simp at hpu

/-! ## Tokens produced by `SignedString` -/

theorem verifiedToken_segments (s : JWTService) (hdr : jwt.Header) (m : jwt.SigningMethod)
    (c : JWTClaims) (sig : List Char) (halg : hdr.alg = some m.Alg) (hm : m.isHMAC = true) :
    verifiedToken s (String.mk (jwt.EncodeSegment (jwt.marshalHeader hdr) ++
        '.' :: (jwt.EncodeSegment (jwt.marshalClaims c) ++ '.' :: jwt.EncodeSegment sig))) =
      if sig = jwt.hmacSum m s.secretKey.toList
          (jwt.EncodeSegment (jwt.marshalHeader hdr) ++
            '.' :: jwt.EncodeSegment (jwt.marshalClaims c)) then
        .ok { Raw := String.mk (jwt.EncodeSegment (jwt.marshalHeader hdr) ++
                '.' :: (jwt.EncodeSegment (jwt.marshalClaims c) ++ '.' :: jwt.EncodeSegment sig)),
              Method := m, Header := hdr, Claims := c, Signature := sig, Valid := true }
      else .error (jwt.newError .ErrTokenSignatureInvalid [[.ErrSignatureInvalid]]) := by
  have hsplit := stringsSplit_three (jwt.EncodeSegment (jwt.marshalHeader hdr))
    (jwt.EncodeSegment (jwt.marshalClaims c)) (jwt.EncodeSegment sig)
    (dot_not_mem_EncodeSegment _) (dot_not_mem_EncodeSegment _) (dot_not_mem_EncodeSegment _)
  have hpu : ({ skipClaimsValidation := true } : jwt.Parser).ParseUnverified
      (String.mk (jwt.EncodeSegment (jwt.marshalHeader hdr) ++
        '.' :: (jwt.EncodeSegment (jwt.marshalClaims c) ++ '.' :: jwt.EncodeSegment sig))) =
      .ok ({ Raw := String.mk (jwt.EncodeSegment (jwt.marshalHeader hdr) ++
                '.' :: (jwt.EncodeSegment (jwt.marshalClaims c) ++ '.' :: jwt.EncodeSegment sig)),
             Method := m, Header := hdr, Claims := c, Signature := [], Valid := false },
           [jwt.EncodeSegment (jwt.marshalHeader hdr), jwt.EncodeSegment (jwt.marshalClaims c),
            jwt.EncodeSegment sig]) := by
    unfold jwt.Parser.ParseUnverified
    have hl : (String.mk (jwt.EncodeSegment (jwt.marshalHeader hdr) ++
        '.' :: (jwt.EncodeSegment (jwt.marshalClaims c) ++ '.' :: jwt.EncodeSegment sig))).toList
        = jwt.EncodeSegment (jwt.marshalHeader hdr) ++
        '.' :: (jwt.EncodeSegment (jwt.marshalClaims c) ++ '.' :: jwt.EncodeSegment sig) := rfl
    rw [hl, hsplit]
    simp only [DecodeSegment_EncodeSegment, unmarshalHeader_marshalHeader,
      unmarshalClaims_marshalClaims, halg, GetSigningMethod_Alg]
  unfold verifiedToken jwt.Parser.ParseWithClaims
  rw [hpu]
  simp only [List.getD_cons_zero, List.getD_cons_succ, DecodeSegment_EncodeSegment, keyFunc, hm,
    Bool.not_true, Bool.false_eq_true, if_false, jwt.SigningMethod.Verify, if_true]
  by_cases hsig : sig = jwt.hmacSum m s.secretKey.toList
      (jwt.EncodeSegment (jwt.marshalHeader hdr) ++ '.' :: jwt.EncodeSegment (jwt.marshalClaims c))
  · rw [if_pos hsig, if_pos hsig]
  · rw [if_neg hsig, if_neg hsig]

theorem SignedString_hmac (m : jwt.SigningMethod) (c : JWTClaims) (key : List Char)
    (hm : m.isHMAC = true) :
    (jwt.NewWithClaims m c).SignedString key =
      .ok (String.mk (jwt.EncodeSegment (jwt.marshalHeader { typ := some "JWT", alg := some m.Alg })
        ++ '.' :: (jwt.EncodeSegment (jwt.marshalClaims c) ++ '.' :: jwt.EncodeSegment
          (jwt.hmacSum m key
            (jwt.EncodeSegment (jwt.marshalHeader { typ := some "JWT", alg := some m.Alg }) ++
              '.' :: jwt.EncodeSegment (jwt.marshalClaims c)))))) := by
  simp [jwt.Token.SignedString, jwt.SigningMethod.Sign, jwt.NewWithClaims, hm,
    jwt.Token.SigningString]

theorem verifiedToken_signed (s : JWTService) (m : jwt.SigningMethod) (c : JWTClaims)
    (key : List Char) (tok : String) (hm : m.isHMAC = true)
    (h : (jwt.NewWithClaims m c).SignedString key = .ok tok) :
    (key = s.secretKey.toList → ∃ t, verifiedToken s tok = .ok t ∧ t.Claims = c ∧ t.Method = m) ∧
    (jwt.keyBlock m key ≠ jwt.keyBlock m s.secretKey.toList →
      ∃ e, verifiedToken s tok = .error e) := by
  rw [SignedString_hmac m c key hm] at h
  simp only [Except.ok.injEq] at h
  subst h
  rw [verifiedToken_segments s { typ := some "JWT", alg := some m.Alg } m c _ rfl hm]
  constructor
  · intro hk
    subst hk
    rw [if_pos rfl]
    exact ⟨_, rfl, rfl, rfl⟩
  · intro hk
    rw [if_neg]
    · exact ⟨_, rfl⟩
    · intro heq
      exact hk (hmacSum_injective _ _ _ _ _ _ heq).2.1

theorem ValidateToken_signed (s : JWTService) (m : jwt.SigningMethod) (c : JWTClaims)
    (tok : String) (hm : m.isHMAC = true)
    (h : (jwt.NewWithClaims m c).SignedString s.secretKey.toList = .ok tok) (now : Time) :
    ValidateToken s tok now = windowVerdict c now := by
  obtain ⟨t, ht, hc, _⟩ := (verifiedToken_signed s m c _ tok hm h).1 rfl
  rw [ValidateToken_eq, ht]
  simp only [hc]

theorem signedByWith_of_verified (s : JWTService) (tokenString : String) (t : jwt.Token)
    (h : verifiedToken s tokenString = .ok t) :
    SignedByWith s.secretKey t.Method tokenString t.Claims := by
  obtain ⟨p0, p1, p2, headerBytes, claimBytes, hsplit, hd0, hh, hd1, hc, halg, hm, hsig⟩ :=
    verifiedToken_inv s tokenString t h
  exact ⟨hm, p0, p1, p2, headerBytes, t.Header, claimBytes, hsplit, hd0, hh, halg, hd1, hc, hsig⟩

theorem verified_of_signedByWith (s : JWTService) (m : jwt.SigningMethod) (tokenString : String)
    (c : JWTClaims) (h : SignedByWith s.secretKey m tokenString c) :
    ∃ t, verifiedToken s tokenString = .ok t ∧ t.Claims = c ∧ t.Method = m := by
  obtain ⟨hm, p0, p1, p2, headerBytes, header, claimBytes, hsplit, hd0, hh, halg, hd1, hc, hsig⟩ := h
  have hpu : ({ skipClaimsValidation := true } : jwt.Parser).ParseUnverified tokenString =
      .ok ({ Raw := tokenString, Method := m, Header := header, Claims := c, Signature := [],
             Valid := false }, [p0, p1, p2]) := by
    unfold jwt.Parser.ParseUnverified
    rw [hsplit]
    simp only [hd0, hh, hd1, hc, halg, GetSigningMethod_Alg]
  unfold verifiedToken jwt.Parser.ParseWithClaims
  rw [hpu]
  simp only [List.getD_cons_zero, List.getD_cons_succ, hsig, keyFunc, hm, Bool.not_true,
    Bool.false_eq_true, if_false, jwt.SigningMethod.Verify, if_true]
  exact ⟨_, rfl, rfl, rfl⟩

theorem signedByWith_of_SignedString (secret : String) (m : jwt.SigningMethod) (c : JWTClaims)
    (tok : String) (hm : m.isHMAC = true)
    (h : (jwt.NewWithClaims m c).SignedString secret.toList = .ok tok) :
    SignedByWith secret m tok c := by
  obtain ⟨t, ht, hc, hmeth⟩ := (verifiedToken_signed ⟨secret, 0, 0⟩ m c _ tok hm h).1 rfl
  have hs := signedByWith_of_verified ⟨secret, 0, 0⟩ tok t ht
  rw [hc, hmeth] at hs
  exact hs

theorem GenerateToken_eq (s : JWTService) (developerID email role : String) (now : Time) :
    ∃ access refresh,
      (jwt.NewWithClaims .HS256 (accessClaims s developerID email role now)).SignedString
          s.secretKey.toList = .ok access ∧
      (jwt.NewWithClaims .HS256 (refreshClaims s developerID email role now)).SignedString
          s.secretKey.toList = .ok refresh ∧
      GenerateToken s developerID email role now =
        .ok { AccessToken := access, RefreshToken := refresh,
              ExpiresIn := int64OfFloat (Duration.Seconds s.tokenExpiry),
              TokenType := "Bearer" } := by
  refine ⟨_, _, SignedString_hmac .HS256 _ _ rfl, SignedString_hmac .HS256 _ _ rfl, ?_⟩
  unfold GenerateToken
  simp only [SignedString_hmac .HS256 _ _ rfl]

/-! ## Clock and float arithmetic -/

theorem roundHalfEven_intCast (z : ℤ) : roundHalfEven (z : ℚ) = z := by
  unfold roundHalfEven
  simp

theorem float64_dyadic (m k : ℤ) (hm : m ≠ 0) (hb : |m| < 2 ^ 53) :
    float64 ((m : ℚ) * (2 : ℚ) ^ k) = (m : ℚ) * (2 : ℚ) ^ k := by
  have h2 : (0 : ℚ) < 2 := by norm_num
  have hpow : (0 : ℚ) < (2 : ℚ) ^ k := zpow_pos h2 k
  have hq : (m : ℚ) * (2 : ℚ) ^ k ≠ 0 := mul_ne_zero (by exact_mod_cast hm) (ne_of_gt hpow)
  have habs : |(m : ℚ) * (2 : ℚ) ^ k| = |(m : ℚ)| * (2 : ℚ) ^ k := by
    rw [abs_mul, abs_of_pos hpow]
  have hpos : (0 : ℚ) < |(m : ℚ) * (2 : ℚ) ^ k| := abs_pos.mpr hq
  have hle := Int.zpow_log_le_self (b := 2) (by norm_num) hpos
  have hmb : |(m : ℚ)| < (2 : ℚ) ^ (53 : ℤ) := by
    have : ((|m| : ℤ) : ℚ) < ((2 ^ 53 : ℤ) : ℚ) := by exact_mod_cast hb
    rw [Int.cast_abs] at this
    calc |(m : ℚ)| < ((2 ^ 53 : ℤ) : ℚ) := this
      _ = (2 : ℚ) ^ (53 : ℤ) := by norm_num
  have hlt : ((2 : ℕ) : ℚ) ^ Int.log 2 |(m : ℚ) * (2 : ℚ) ^ k| < (2 : ℚ) ^ (53 + k) := by
    calc ((2 : ℕ) : ℚ) ^ Int.log 2 |(m : ℚ) * (2 : ℚ) ^ k|
        ≤ |(m : ℚ) * (2 : ℚ) ^ k| := hle
      _ = |(m : ℚ)| * (2 : ℚ) ^ k := habs
      _ < (2 : ℚ) ^ (53 : ℤ) * (2 : ℚ) ^ k := by
          exact mul_lt_mul_of_pos_right hmb hpow
      _ = (2 : ℚ) ^ (53 + k) := by rw [zpow_add₀ (ne_of_gt h2)]
  have he : Int.log 2 |(m : ℚ) * (2 : ℚ) ^ k| < 53 + k := by
    have h1 : (1 : ℚ) < 2 := by norm_num
    have := hlt
    simp only [Nat.cast_ofNat] at this
    exact (zpow_lt_zpow_iff_right₀ h1).mp this
  obtain ⟨j, hj⟩ : ∃ j : ℕ, (j : ℤ) = k - (Int.log 2 |(m : ℚ) * (2 : ℚ) ^ k| - 52) :=
    ⟨(k - (Int.log 2 |(m : ℚ) * (2 : ℚ) ^ k| - 52)).toNat, Int.toNat_of_nonneg (by omega)⟩
  have hdiv : (m : ℚ) * (2 : ℚ) ^ k / (2 : ℚ) ^ (Int.log 2 |(m : ℚ) * (2 : ℚ) ^ k| - 52)
      = ((m * 2 ^ j : ℤ) : ℚ) := by
    rw [mul_div_assoc, ← zpow_sub₀ (ne_of_gt h2), ← hj]
    push_cast
    rw [zpow_natCast]
  unfold float64
  rw [if_neg hq, hdiv, roundHalfEven_intCast]
  push_cast
  rw [mul_assoc, ← zpow_natCast, ← zpow_add₀ (ne_of_gt h2), hj]
  congr 2
  ring

theorem float64_intCast (n : ℤ) (hb : |n| < 2 ^ 53) : float64 (n : ℚ) = n := by
  by_cases hn : n = 0
  · subst hn; simp [float64]
  · simpa using float64_dyadic n 0 hn hb

theorem Seconds_whole (k : ℤ) (hb : |k| < 2 ^ 53) :
    int64OfFloat (Duration.Seconds (k * Second)) = k := by
  have h1 : Int.tdiv (k * Second) Second = k := by
    simp [Second, Int.mul_tdiv_cancel]
  have h2 : Int.tmod (k * Second) Second = 0 := by
    simp [Second, Int.mul_tmod_left]
  unfold Duration.Seconds
  rw [h1, h2]
  have hz : float64 ((0 : ℤ) : ℚ) = 0 := by simp [float64]
  rw [hz]
  simp only [zero_div]
  have hz2 : float64 0 = 0 := by simp [float64]
  rw [hz2, add_zero, float64_intCast k hb, float64_intCast k hb]
  unfold int64OfFloat
  split <;> simp

theorem Seconds_1500ms : int64OfFloat (Duration.Seconds 1500000000) = 1 := by
  have h1 : Int.tdiv (1500000000 : ℤ) Second = 1 := by decide
  have h2 : Int.tmod (1500000000 : ℤ) Second = 500000000 := by decide
  unfold Duration.Seconds
  rw [h1, h2, float64_intCast 500000000 (by norm_num), float64_intCast 1 (by norm_num)]
  have e1 : ((500000000 : ℤ) : ℚ) / 1000000000 = ((1 : ℤ) : ℚ) * (2 : ℚ) ^ (-1 : ℤ) := by norm_num
  have e2 : ((1 : ℤ) : ℚ) + ((1 : ℤ) : ℚ) * (2 : ℚ) ^ (-1 : ℤ)
      = ((3 : ℤ) : ℚ) * (2 : ℚ) ^ (-1 : ℤ) := by norm_num
  rw [e1, float64_dyadic 1 (-1) (by norm_num) (by norm_num), e2,
    float64_dyadic 3 (-1) (by norm_num) (by norm_num)]
  unfold int64OfFloat
  norm_num

theorem NewNumericDate_add_whole (t L : Int) (h : L % Second = 0) :
    (jwt.NewNumericDate (t + L)).Time = (jwt.NewNumericDate t).Time + L := by
  unfold jwt.NewNumericDate jwt.NumericDate.Time
  unfold Second at *
  show (t + L) / 1000000000 * 1000000000 = t / 1000000000 * 1000000000 + L
  omega

theorem NewNumericDate_bracket (t : Int) :
    (jwt.NewNumericDate t).Time ≤ t ∧ t < (jwt.NewNumericDate t).Time + Second := by
  unfold jwt.NewNumericDate jwt.NumericDate.Time
  unfold Second
  show t / 1000000000 * 1000000000 ≤ t ∧ t < t / 1000000000 * 1000000000 + 1000000000
  omega

theorem windowVerdict_accessClaims (s : JWTService) (developerID email role : String)
    (t0 now : Time) :
    windowVerdict (accessClaims s developerID email role t0) now =
      if now < (jwt.NewNumericDate (t0 + s.tokenExpiry)).Time then
        (if now < (jwt.NewNumericDate t0).Time then .error ErrInvalidToken
         else .ok (accessClaims s developerID email role t0))
      else .error ErrExpiredToken := rfl

/-! ## C1: round trip of the access token -/

/-- C1 fails as stated: a service built by `NewJWTServiceWithExpiry` with an access
lifetime of 1.5 s mints a token at `t0 = 0`; at `now = 1.2 s`, which lies strictly
between issuance and `issuedAt + accessLifetime = 1.5 s`, `ValidateToken` answers
`ErrExpiredToken`, because `expiresAt` was truncated to the whole second 1 s. -/
theorem C1_counterexample_fractional_lifetime :
    ∃ s pair,
      NewJWTServiceWithExpiry "s3cr3t" 1500000000 (7 * 24 * Hour) = .ok s ∧
      GenerateToken s "42" "a@b.com" "developer" 0 = .ok pair ∧
      (0 : Time) < 1200000000 ∧
      (1200000000 : Time) < (jwt.NewNumericDate 0).Time + s.tokenExpiry ∧
      ValidateToken s pair.AccessToken 1200000000 = .error ErrExpiredToken := by
  obtain ⟨access, refresh, ha, _, hg⟩ :=
    GenerateToken_eq ⟨"s3cr3t", 1500000000, 7 * 24 * Hour⟩ "42" "a@b.com" "developer" 0
  refine ⟨⟨"s3cr3t", 1500000000, 7 * 24 * Hour⟩, _, rfl, hg, by decide, by decide, ?_⟩
  rw [ValidateToken_signed _ .HS256 _ access rfl ha, windowVerdict_accessClaims,
    if_neg (by decide)]

/-- C1 (amended): for every service whose access lifetime is a whole number of
seconds, every `(developerID, email, role)` and every issuance time `t0`,
`GenerateToken` returns a pair, and `ValidateToken` on its access token at any
`now` with `t0 < now < issuedAt + accessLifetime` returns the claims that were
signed, whose DeveloperID, Subject, Email and Role are the inputs. -/
theorem C1_roundtrip_whole_second_lifetime (s : JWTService) (developerID email role : String)
    (t0 now : Time) (hwhole : s.tokenExpiry % Second = 0) (h1 : t0 < now)
    (h2 : now < (jwt.NewNumericDate t0).Time + s.tokenExpiry) :
    ∃ pair claims,
      GenerateToken s developerID email role t0 = .ok pair ∧
      ValidateToken s pair.AccessToken now = .ok claims ∧
      claims = accessClaims s developerID email role t0 ∧
      claims.DeveloperID = developerID ∧ claims.Subject = developerID ∧
      claims.Email = email ∧ claims.Role = role := by
  obtain ⟨access, refresh, ha, _, hg⟩ := GenerateToken_eq s developerID email role t0
  refine ⟨_, accessClaims s developerID email role t0, hg, ?_, rfl, rfl, rfl, rfl, rfl⟩
  rw [ValidateToken_signed s .HS256 _ access rfl ha, windowVerdict_accessClaims,
    NewNumericDate_add_whole t0 _ hwhole, if_pos h2, if_neg]
  exact not_lt.mpr (le_of_lt (lt_of_le_of_lt (NewNumericDate_bracket t0).1 h1))

/-- C1 witness: the service `NewJWTService("s3cr3t")`, the triple
`("42", "a@b.com", "developer")`, issued at `t0 = 1700000000.5 s` and validated one
second later; the returned role is `"developer"`. -/
theorem C1_witness :
    ∃ s pair claims,
      NewJWTService "s3cr3t" = .ok s ∧
      GenerateToken s "42" "a@b.com" "developer" 1700000000500000000 = .ok pair ∧
      ValidateToken s pair.AccessToken 1700000001500000000 = .ok claims ∧
      claims.Role = "developer" := by
  obtain ⟨pair, claims, hg, hv, _, _, _, _, hr⟩ :=
    C1_roundtrip_whole_second_lifetime ⟨"s3cr3t", 24 * Hour, 7 * 24 * Hour⟩
      "42" "a@b.com" "developer" 1700000000500000000 1700000001500000000
      (by decide) (by decide) (by decide)
  exact ⟨_, pair, claims, rfl, hg, hv, hr⟩

theorem windowVerdict_ok_iff (c c2 : JWTClaims) (now : Time) :
    windowVerdict c now = .ok c2 ↔ c = c2 ∧ withinWindow c now := by
  unfold windowVerdict withinWindow
  cases hexp : c.ExpiresAt with
  | none =>
    cases hnbf : c.NotBefore with
    | none => simp
    | some nbf =>
      by_cases h2 : now < nbf.Time
      · simp [h2]
      · simp [h2, not_lt.mp h2]
  | some exp =>
    cases hnbf : c.NotBefore with
    | none =>
      by_cases h1 : now < exp.Time
      · simp [h1]
      · simp [h1]
    | some nbf =>
      by_cases h1 : now < exp.Time
      · by_cases h2 : now < nbf.Time
        · simp [h1, h2]
        · simp [h1, h2, not_lt.mp h2]
      · simp [h1]

theorem windowVerdict_expired (c : JWTClaims) (exp : jwt.NumericDate) (now : Time)
    (he : c.ExpiresAt = some exp) (h : exp.Time ≤ now) :
    windowVerdict c now = .error ErrExpiredToken := by
  unfold windowVerdict
  rw [he]
  cases c.NotBefore with
  | none => simp [not_lt.mpr h]
  | some nbf => simp [not_lt.mpr h]

/-! ## C2: the validity invariant -/

/-- C2 fails as stated: the access token that `NewJWTService("s3cr3t")` mints at
`t0 = 0` verifies under the service's secret and, at `now = 86400 s`, satisfies
`notBefore ≤ now ≤ expiresAt` (with `now = expiresAt`), yet `ValidateToken` answers
`ErrExpiredToken`. -/
theorem C2_counterexample_now_equals_expiresAt :
    ∃ s pair t nbf exp,
      NewJWTService "s3cr3t" = .ok s ∧
      GenerateToken s "42" "a@b.com" "developer" 0 = .ok pair ∧
      verifiedToken s pair.AccessToken = .ok t ∧
      SignatureVerifies s.secretKey pair.AccessToken t.Claims ∧
      t.Claims.NotBefore = some nbf ∧ t.Claims.ExpiresAt = some exp ∧
      nbf.Time ≤ 86400000000000 ∧ (86400000000000 : Time) ≤ exp.Time ∧
      ValidateToken s pair.AccessToken 86400000000000 = .error ErrExpiredToken := by
  obtain ⟨access, refresh, ha, _, hg⟩ :=
    GenerateToken_eq ⟨"s3cr3t", 24 * Hour, 7 * 24 * Hour⟩ "42" "a@b.com" "developer" 0
  obtain ⟨t, ht, hc, _⟩ :=
    (verifiedToken_signed ⟨"s3cr3t", 24 * Hour, 7 * 24 * Hour⟩ .HS256 _ _ access rfl ha).1 rfl
  refine ⟨⟨"s3cr3t", 24 * Hour, 7 * 24 * Hour⟩, _, t, jwt.NewNumericDate 0,
    jwt.NewNumericDate (0 + 24 * Hour), rfl, hg, ht,
    ⟨t.Method, signedByWith_of_verified _ _ t ht⟩, ?_, ?_, by decide, by decide, ?_⟩
  · rw [hc]; rfl
  · rw [hc]; rfl
  · rw [ValidateToken_signed _ .HS256 _ access rfl ha, windowVerdict_accessClaims,
      if_neg (by decide)]

/-- C2 (amended): for every token string and every time `now`, `ValidateToken`
returns claims `c` if and only if the signature of the token verifies under the
service's configured secret (the token is three dot-separated segments, a header
naming HS256, HS384 or HS512, the claims `c`, and the MAC of the first two
segments under that secret) and `notBefore ≤ now < expiresAt`: the window is
closed at `notBefore` and open at `expiresAt`. -/
theorem C2_valid_iff_verified_and_in_half_open_window (s : JWTService) (tokenString : String)
    (now : Time) (c : JWTClaims) :
    (ValidateToken s tokenString now = .ok c ↔
      SignatureVerifies s.secretKey tokenString c ∧ withinWindow c now) ∧
    (∀ nbf exp, c.NotBefore = some nbf → c.ExpiresAt = some exp →
      (ValidateToken s tokenString now = .ok c ↔
        SignatureVerifies s.secretKey tokenString c ∧ nbf.Time ≤ now ∧ now < exp.Time)) := by
  have hiff : ValidateToken s tokenString now = .ok c ↔
      SignatureVerifies s.secretKey tokenString c ∧ withinWindow c now := by
    rw [ValidateToken_eq]
    constructor
    · intro h
      cases hv : verifiedToken s tokenString with
      | error e =>
        rw [hv] at h
        cases h
      | ok t =>
        rw [hv] at h
        obtain ⟨hc, hw⟩ := (windowVerdict_ok_iff t.Claims c now).mp h
        subst hc
        exact ⟨⟨t.Method, signedByWith_of_verified s tokenString t hv⟩, hw⟩
    · rintro ⟨⟨m, hs⟩, hw⟩
      obtain ⟨t, ht, hc, _⟩ := verified_of_signedByWith s m tokenString c hs
      subst hc
      rw [ht]
      exact (windowVerdict_ok_iff t.Claims t.Claims now).mpr ⟨rfl, hw⟩
  refine ⟨hiff, ?_⟩
  intro nbf exp hnbf hexp
  rw [hiff]
  unfold withinWindow
  rw [hnbf, hexp]

/-! ## C3: one second after expiry -/

/-- C3: for every token that verifies under the service's secret (minted by
`GenerateToken` or otherwise) and carries an `expiresAt`, `ValidateToken` at
`now = expiresAt + 1 second` returns `ErrExpiredToken`. -/
theorem C3_expired_one_second_after_expiresAt (s : JWTService) (tokenString : String)
    (t : jwt.Token) (exp : jwt.NumericDate) (hv : verifiedToken s tokenString = .ok t)
    (he : t.Claims.ExpiresAt = some exp) :
    ValidateToken s tokenString (exp.Time + Second) = .error ErrExpiredToken := by
  rw [ValidateToken_eq, hv]
  exact windowVerdict_expired t.Claims exp _ he (le_add_of_nonneg_right (by decide))

/-- C3 witness: the access token minted by `NewJWTService("s3cr3t")` at `t0 = 0`
expires at 86400 s and is reported expired at 86401 s. -/
theorem C3_witness :
    ∃ s pair,
      NewJWTService "s3cr3t" = .ok s ∧
      GenerateToken s "42" "a@b.com" "developer" 0 = .ok pair ∧
      ValidateToken s pair.AccessToken (86400000000000 + Second) = .error ErrExpiredToken := by
  obtain ⟨access, refresh, ha, _, hg⟩ :=
    GenerateToken_eq ⟨"s3cr3t", 24 * Hour, 7 * 24 * Hour⟩ "42" "a@b.com" "developer" 0
  obtain ⟨t, ht, hc, _⟩ :=
    (verifiedToken_signed ⟨"s3cr3t", 24 * Hour, 7 * 24 * Hour⟩ .HS256 _ _ access rfl ha).1 rfl
  have h := C3_expired_one_second_after_expiresAt _ access t
    (jwt.NewNumericDate (0 + 24 * Hour)) ht (by rw [hc]; rfl)
  have htime : (jwt.NewNumericDate (0 + 24 * Hour)).Time = 86400000000000 := by decide
  rw [htime] at h
  exact ⟨⟨"s3cr3t", 24 * Hour, 7 * 24 * Hour⟩, _, rfl, hg, h⟩

theorem ValidateToken_of_not_verified (s : JWTService) (tokenString : String) (now : Time)
    (h : ∀ t, verifiedToken s tokenString ≠ .ok t) :
    ValidateToken s tokenString now = .error ErrInvalidToken := by
  rw [ValidateToken_eq]
  cases hv : verifiedToken s tokenString with
  | error e => rfl
  | ok t => exact absurd hv (h t)

theorem not_verified_of_other_key (s : JWTService) (tokenString : String)
    (h : SignedWithOtherKey s tokenString) (t : jwt.Token) :
    verifiedToken s tokenString ≠ .ok t := by
  intro hv
  obtain ⟨other, m, c, ⟨_, q0, q1, q2, hb2, header2, cb2, hsplit2, hd2, hh2, halg2, _, _, hsig2⟩,
    hne⟩ := h
  obtain ⟨p0, p1, p2, hb, _, hsplit, hd, hh, _, _, halg, _, hsig⟩ :=
    verifiedToken_inv s tokenString t hv
  rw [hsplit] at hsplit2
  simp only [List.cons.injEq, and_true] at hsplit2
  obtain ⟨rfl, rfl, rfl⟩ := hsplit2
  rw [hd] at hd2
  obtain rfl := Option.some.inj hd2
  rw [hh] at hh2
  obtain rfl := Option.some.inj hh2
  rw [halg] at halg2
  have hmeth : t.Method = m := Alg_injective _ _ (Option.some.inj halg2)
  rw [hsig] at hsig2
  have hk := (hmacSum_injective _ _ _ _ _ _ (Option.some.inj hsig2)).2.1
  rw [hmeth] at hk
  exact hne hk.symm

theorem windowVerdict_outside (c : JWTClaims) (now : Time) (h : ¬ withinWindow c now) :
    windowVerdict c now =
      .error (if hasExpired c now then ErrExpiredToken else ErrInvalidToken) := by
  unfold withinWindow at h
  unfold windowVerdict hasExpired
  cases hexp : c.ExpiresAt with
  | none =>
    cases hnbf : c.NotBefore with
    | none => simp [hexp, hnbf] at h
    | some nbf =>
      simp only [hexp, hnbf, and_true, not_le] at h
      simp [h]
  | some exp =>
    cases hnbf : c.NotBefore with
    | none =>
      simp only [hexp, hnbf, true_and, not_lt] at h
      simp [h, not_lt.mpr h]
    | some nbf =>
      simp only [hexp, hnbf] at h
      by_cases h1 : now < exp.Time
      · have h2 : now < nbf.Time := by
          by_contra hcon
          exact h ⟨not_lt.mp hcon, h1⟩
        simp [h1, h2, not_le.mpr h1]
      · simp [h1, not_lt.mp h1]

/-! ## C5: outside the validity window -/

/-- C5 fails as stated: the access token that `NewJWTService("s3cr3t")` mints at
`t0 = 10 s` verifies under the service's secret and carries `notBefore = 10 s`; at
`now = 5 s`, before `notBefore`, `ValidateToken` answers `ErrInvalidToken`, not
`ErrExpiredToken`. -/
theorem C5_counterexample_before_notBefore :
    ∃ s pair t nbf,
      NewJWTService "s3cr3t" = .ok s ∧
      GenerateToken s "42" "a@b.com" "developer" 10000000000 = .ok pair ∧
      verifiedToken s pair.AccessToken = .ok t ∧
      t.Claims.NotBefore = some nbf ∧ (5000000000 : Time) < nbf.Time ∧
      ValidateToken s pair.AccessToken 5000000000 = .error ErrInvalidToken ∧
      ValidateToken s pair.AccessToken 5000000000 ≠ .error ErrExpiredToken := by
  obtain ⟨access, refresh, ha, _, hg⟩ :=
    GenerateToken_eq ⟨"s3cr3t", 24 * Hour, 7 * 24 * Hour⟩ "42" "a@b.com" "developer" 10000000000
  obtain ⟨t, ht, hc, _⟩ :=
    (verifiedToken_signed ⟨"s3cr3t", 24 * Hour, 7 * 24 * Hour⟩ .HS256 _ _ access rfl ha).1 rfl
  have hval : ValidateToken ⟨"s3cr3t", 24 * Hour, 7 * 24 * Hour⟩ access 5000000000
      = .error ErrInvalidToken := by
    rw [ValidateToken_signed _ .HS256 _ access rfl ha, windowVerdict_accessClaims,
      if_pos (by decide), if_pos (by decide)]
  refine ⟨⟨"s3cr3t", 24 * Hour, 7 * 24 * Hour⟩, _, t, jwt.NewNumericDate 10000000000,
    rfl, hg, ht, ?_, by decide, hval, ?_⟩
  · rw [hc]; rfl
  · rw [hval]
    intro hcontra
    cases hcontra

/-- C5 (amended): for every well-formed token correctly signed with the service's
secret and every time `now` outside the token's validity window, `ValidateToken`
returns `ErrExpiredToken` when `now` is at or after its `expiresAt`, and
`ErrInvalidToken` when `now` is before its `notBefore` and before its
`expiresAt`. -/
theorem C5_outside_window_expired_or_invalid (s : JWTService) (tokenString : String)
    (t : jwt.Token) (now : Time) (hv : verifiedToken s tokenString = .ok t)
    (hout : ¬ withinWindow t.Claims now) :
    ValidateToken s tokenString now =
      .error (if hasExpired t.Claims now then ErrExpiredToken else ErrInvalidToken) := by
  rw [ValidateToken_eq, hv]
  exact windowVerdict_outside t.Claims now hout

/-- C5 witness: the access token minted by `NewJWTService("s3cr3t")` at `t0 = 0`,
validated at 90000 s, after its `expiresAt` of 86400 s, is reported expired. -/
theorem C5_witness :
    ∃ s pair,
      NewJWTService "s3cr3t" = .ok s ∧
      GenerateToken s "42" "a@b.com" "developer" 0 = .ok pair ∧
      ValidateToken s pair.AccessToken 90000000000000 = .error ErrExpiredToken := by
  obtain ⟨access, refresh, ha, _, hg⟩ :=
    GenerateToken_eq ⟨"s3cr3t", 24 * Hour, 7 * 24 * Hour⟩ "42" "a@b.com" "developer" 0
  obtain ⟨t, ht, hc, _⟩ :=
    (verifiedToken_signed ⟨"s3cr3t", 24 * Hour, 7 * 24 * Hour⟩ .HS256 _ _ access rfl ha).1 rfl
  have h := C5_outside_window_expired_or_invalid ⟨"s3cr3t", 24 * Hour, 7 * 24 * Hour⟩ access t
    90000000000000 ht (by rw [hc]; decide)
  have hexp : hasExpired t.Claims 90000000000000 = true := by rw [hc]; decide
  rw [hexp, if_pos rfl] at h
  exact ⟨_, _, rfl, hg, h⟩

/-! ## C6: algorithms outside the HMAC family -/

theorem verified_headerAlg (s : JWTService) (tokenString : String) (t : jwt.Token)
    (hv : verifiedToken s tokenString = .ok t) :
    headerAlg tokenString = some t.Method.Alg ∧ t.Method.isHMAC = true := by
  obtain ⟨p0, p1, p2, hb, cb, hsplit, hd0, hh, _, _, halg, hm, _⟩ :=
    verifiedToken_inv s tokenString t hv
  refine ⟨?_, hm⟩
  unfold headerAlg
  rw [hsplit]
  simp only [hd0, hh, halg]

theorem isHMAC_Alg (m : jwt.SigningMethod) (h : m.isHMAC = true) :
    m.Alg = "HS256" ∨ m.Alg = "HS384" ∨ m.Alg = "HS512" := by
  cases m <;> first | (exact absurd h (by decide)) | decide

/-- C6: for every token whose header names a signing algorithm outside the HMAC
family (`HS256`, `HS384`, `HS512`), `ValidateToken` returns `ErrInvalidToken`,
whatever the payload, the signature segment and the time `now`; such a token
never yields claims. -/
theorem C6_non_hmac_algorithm_is_invalid (s : JWTService) (tokenString : String) (now : Time)
    (alg : String) (ha : headerAlg tokenString = some alg)
    (hn : alg ≠ "HS256" ∧ alg ≠ "HS384" ∧ alg ≠ "HS512") :
    ValidateToken s tokenString now = .error ErrInvalidToken ∧
      ∀ c, ValidateToken s tokenString now ≠ .ok c := by
  have hinv : ValidateToken s tokenString now = .error ErrInvalidToken := by
    apply ValidateToken_of_not_verified
    intro t hv
    obtain ⟨h1, h2⟩ := verified_headerAlg s tokenString t hv
    rw [ha] at h1
    have h3 := Option.some.inj h1
    rcases isHMAC_Alg t.Method h2 with h | h | h
    · exact hn.1 (h3.trans h)
    · exact hn.2.1 (h3.trans h)
    · exact hn.2.2 (h3.trans h)
  refine ⟨hinv, ?_⟩
  intro c hc
  rw [hinv] at hc
  cases hc

/-- C6 witness: a token whose header names `alg = "none"` and whose signature
segment is empty is rejected as invalid. -/
theorem C6_witness :
    ∃ s, NewJWTService "s3cr3t" = .ok s ∧
      headerAlg "+JWT;+none;.42;a@b~-com;admin;;42;;---;." = some "none" ∧
      ValidateToken s "+JWT;+none;.42;a@b~-com;admin;;42;;---;." 1700000000000000000
        = .error ErrInvalidToken :=
  ⟨⟨"s3cr3t", 24 * Hour, 7 * 24 * Hour⟩, rfl, by decide,
    (C6_non_hmac_algorithm_is_invalid ⟨"s3cr3t", 24 * Hour, 7 * 24 * Hour⟩
      "+JWT;+none;.42;a@b~-com;admin;;42;;---;." 1700000000000000000 "none"
      (by decide) (by decide)).1⟩

/-! ## C7: exactly three outcomes -/

/-- C7: for every token string and every time `now`, the result of `ValidateToken`
is either claims with a nil error, `ErrInvalidToken`, or `ErrExpiredToken`; no
other error, in particular `ErrInvalidClaims`, is ever returned. -/
theorem C7_three_outcomes (s : JWTService) (tokenString : String) (now : Time) :
    ((∃ c, ValidateToken s tokenString now = .ok c) ∨
      ValidateToken s tokenString now = .error ErrInvalidToken ∨
      ValidateToken s tokenString now = .error ErrExpiredToken) ∧
    ValidateToken s tokenString now ≠ .error ErrInvalidClaims := by
  rw [ValidateToken_eq]
  cases verifiedToken s tokenString with
  | error e => simp
  | ok t =>
    by_cases hw : withinWindow t.Claims now
    · have h := (windowVerdict_ok_iff t.Claims t.Claims now).mpr ⟨rfl, hw⟩
      simp [h]
    · have h := windowVerdict_outside t.Claims now hw
      simp only [h]
      cases hasExpired t.Claims now <;> simp

/-! ## C8: the two claims values built by `GenerateToken` -/

/-- C8 fails as stated: at the clock reading `now = 1.5 s` the claims built by the
service `NewJWTService("s3cr3t")` carry `issuedAt = notBefore = 1 s`, not `now`,
and `expiresAt = 86401 s`, not `now + tokenExpiry = 86401.5 s`. -/
theorem C8_counterexample_subsecond_now :
    ∃ s iat exp,
      NewJWTService "s3cr3t" = .ok s ∧
      (accessClaims s "42" "a@b.com" "developer" 1500000000).IssuedAt = some iat ∧
      (accessClaims s "42" "a@b.com" "developer" 1500000000).NotBefore = some iat ∧
      (accessClaims s "42" "a@b.com" "developer" 1500000000).ExpiresAt = some exp ∧
      iat.Time = 1000000000 ∧ iat.Time ≠ 1500000000 ∧
      exp.Time = 86401000000000 ∧ exp.Time ≠ 1500000000 + s.tokenExpiry :=
  ⟨⟨"s3cr3t", 24 * Hour, 7 * 24 * Hour⟩, jwt.NewNumericDate 1500000000,
    jwt.NewNumericDate (1500000000 + 24 * Hour), rfl, rfl, rfl, rfl,
    by decide, by decide, by decide, by decide⟩

/-- C8 (amended): for every `(developerID, email, role)` and issuance time `now`,
`GenerateToken` builds two claims values that both carry
`DeveloperID = Subject = developerID`, `Email = email`, `Role = role` and
`issuedAt = notBefore = now` truncated to the whole second; the access claims
expire at `now + tokenExpiry` truncated to the whole second and the refresh claims
at `now + refreshExpiry` truncated to the whole second; the two values differ in
`ExpiresAt` only, and the pair returned holds both values signed with `HS256`, an
HMAC method, under the service's secret. -/
theorem C8_claims_built_by_GenerateToken (s : JWTService) (developerID email role : String)
    (now : Time) :
    ((accessClaims s developerID email role now).DeveloperID = developerID ∧
      (accessClaims s developerID email role now).Subject = developerID ∧
      (accessClaims s developerID email role now).Email = email ∧
      (accessClaims s developerID email role now).Role = role ∧
      (accessClaims s developerID email role now).IssuedAt = some (jwt.NewNumericDate now) ∧
      (accessClaims s developerID email role now).NotBefore = some (jwt.NewNumericDate now) ∧
      (accessClaims s developerID email role now).ExpiresAt
        = some (jwt.NewNumericDate (now + s.tokenExpiry))) ∧
    ((refreshClaims s developerID email role now).DeveloperID = developerID ∧
      (refreshClaims s developerID email role now).Subject = developerID ∧
      (refreshClaims s developerID email role now).Email = email ∧
      (refreshClaims s developerID email role now).Role = role ∧
      (refreshClaims s developerID email role now).IssuedAt = some (jwt.NewNumericDate now) ∧
      (refreshClaims s developerID email role now).NotBefore = some (jwt.NewNumericDate now) ∧
      (refreshClaims s developerID email role now).ExpiresAt
        = some (jwt.NewNumericDate (now + s.refreshExpiry))) ∧
    ((jwt.NewNumericDate now).Time ≤ now ∧ now < (jwt.NewNumericDate now).Time + Second) ∧
    ((jwt.NewNumericDate (now + s.tokenExpiry)).Time ≤ now + s.tokenExpiry ∧
      now + s.tokenExpiry < (jwt.NewNumericDate (now + s.tokenExpiry)).Time + Second) ∧
    ((jwt.NewNumericDate (now + s.refreshExpiry)).Time ≤ now + s.refreshExpiry ∧
      now + s.refreshExpiry < (jwt.NewNumericDate (now + s.refreshExpiry)).Time + Second) ∧
    (∃ n : Int, (jwt.NewNumericDate now).Time = n * Second) ∧
    refreshClaims s developerID email role now =
      { accessClaims s developerID email role now with
        ExpiresAt := (refreshClaims s developerID email role now).ExpiresAt } ∧
    jwt.SigningMethod.isHMAC .HS256 = true ∧
    ∃ pair,
      GenerateToken s developerID email role now = .ok pair ∧
      (jwt.NewWithClaims .HS256 (accessClaims s developerID email role now)).SignedString
        s.secretKey.toList = .ok pair.AccessToken ∧
      (jwt.NewWithClaims .HS256 (refreshClaims s developerID email role now)).SignedString
        s.secretKey.toList = .ok pair.RefreshToken := by
  obtain ⟨access, refresh, ha, hr, hg⟩ := GenerateToken_eq s developerID email role now
  exact ⟨⟨rfl, rfl, rfl, rfl, rfl, rfl, rfl⟩, ⟨rfl, rfl, rfl, rfl, rfl, rfl, rfl⟩,
    NewNumericDate_bracket now, NewNumericDate_bracket _, NewNumericDate_bracket _,
    ⟨_, rfl⟩, rfl, rfl, _, hg, ha, hr⟩

/-! ## C9: `TokenType` and `ExpiresIn` -/

theorem whole_div_sub (t L : Int) (h : L % 1000000000 = 0) :
    L / 1000000000 = (t + L) / 1000000000 - t / 1000000000 := by
  omega

theorem Seconds_of_whole (d : Duration) (hwhole : d % Second = 0) (hr : isInt64 d) :
    int64OfFloat (Duration.Seconds d) = d / Second := by
  obtain ⟨k, hk⟩ : ∃ k : Int, d = k * Second := ⟨d / Second, by
    have := Int.ediv_add_emod d Second
    rw [hwhole, add_zero] at this
    rw [mul_comm]
    exact this.symm⟩
  have hk2 : d / Second = k := by
    rw [hk]
    exact Int.mul_ediv_cancel k (by decide)
  have hb : |k| < 2 ^ 53 := by
    unfold isInt64 at hr
    rw [hk] at hr
    unfold Second at hr
    rw [abs_lt]
    constructor <;> omega
  rw [hk2, hk]
  exact Seconds_whole k hb

/-- C9 fails as stated: a service with an access lifetime of 1.5 s that mints at
`t0 = 0.5 s` returns `ExpiresIn = 1`, while the access token's `expiresAt` (2 s)
minus its `issuedAt` (0 s) is 2 seconds. -/
theorem C9_counterexample_fractional_lifetime :
    ∃ s pair,
      NewJWTServiceWithExpiry "s3cr3t" 1500000000 (7 * 24 * Hour) = .ok s ∧
      GenerateToken s "42" "a@b.com" "developer" 500000000 = .ok pair ∧
      (accessClaims s "42" "a@b.com" "developer" 500000000).ExpiresAt = some ⟨2⟩ ∧
      (accessClaims s "42" "a@b.com" "developer" 500000000).IssuedAt = some ⟨0⟩ ∧
      pair.ExpiresIn = 1 ∧ pair.ExpiresIn ≠ 2 - 0 := by
  obtain ⟨access, refresh, _, _, hg⟩ :=
    GenerateToken_eq ⟨"s3cr3t", 1500000000, 7 * 24 * Hour⟩ "42" "a@b.com" "developer" 500000000
  have he : int64OfFloat (Duration.Seconds 1500000000) = 1 := Seconds_1500ms
  refine ⟨⟨"s3cr3t", 1500000000, 7 * 24 * Hour⟩, _, rfl, hg, by decide, by decide, he, ?_⟩
  show int64OfFloat (Duration.Seconds 1500000000) ≠ 2 - 0
  rw [he]
  decide

/-- C9 (amended): for every service configuration and every issuance time the
`TokenPair` returned by `GenerateToken` has `TokenType` exactly `"Bearer"`, and,
whenever the access lifetime is a whole number of seconds, `ExpiresIn` equals the
access token's `expiresAt` minus its `issuedAt` in seconds, which is the lifetime
in seconds (86400 for the default configuration). -/
theorem C9_token_type_and_expires_in (s : JWTService) (developerID email role : String)
    (now : Time) (hr : isInt64 s.tokenExpiry) :
    ∃ pair iat exp,
      GenerateToken s developerID email role now = .ok pair ∧
      pair.TokenType = "Bearer" ∧
      (accessClaims s developerID email role now).IssuedAt = some iat ∧
      (accessClaims s developerID email role now).ExpiresAt = some exp ∧
      (s.tokenExpiry % Second = 0 →
        pair.ExpiresIn = exp.unix - iat.unix ∧ pair.ExpiresIn = s.tokenExpiry / Second) := by
  obtain ⟨access, refresh, _, _, hg⟩ := GenerateToken_eq s developerID email role now
  refine ⟨_, jwt.NewNumericDate now, jwt.NewNumericDate (now + s.tokenExpiry), hg, rfl, rfl, rfl,
    ?_⟩
  intro hwhole
  have h1 : int64OfFloat (Duration.Seconds s.tokenExpiry) = s.tokenExpiry / Second :=
    Seconds_of_whole s.tokenExpiry hwhole hr
  refine ⟨?_, h1⟩
  show int64OfFloat (Duration.Seconds s.tokenExpiry)
    = (now + s.tokenExpiry) / Second - now / Second
  rw [h1]
  exact whole_div_sub now s.tokenExpiry hwhole

/-- C9 witness: the default configuration `NewJWTService("s3cr3t")` returns
`TokenType = "Bearer"` and `ExpiresIn = 86400`. -/
theorem C9_witness :
    ∃ s pair,
      NewJWTService "s3cr3t" = .ok s ∧
      GenerateToken s "42" "a@b.com" "developer" 1700000000500000000 = .ok pair ∧
      pair.TokenType = "Bearer" ∧ pair.ExpiresIn = 86400 := by
  obtain ⟨pair, iat, exp, hg, ht, _, _, he⟩ :=
    C9_token_type_and_expires_in ⟨"s3cr3t", 24 * Hour, 7 * 24 * Hour⟩
      "42" "a@b.com" "developer" 1700000000500000000 (by unfold isInt64; decide)
  have h := (he (by decide)).2
  have hd : (24 * Hour : Duration) / Second = 86400 := by decide
  exact ⟨_, pair, rfl, hg, ht, h.trans hd⟩

/-! ## C10: refresh is validate-then-mint -/

theorem GenerateToken_toBool (s : JWTService) (developerID email role : String) (now : Time) :
    (GenerateToken s developerID email role now).toBool = true := by
  obtain ⟨access, refresh, _, _, hg⟩ := GenerateToken_eq s developerID email role now
  rw [hg]
  rfl

/-- C10: `RefreshToken` is exactly validate-then-mint: for every token string and
every pair of clock readings it equals `RefreshTokenSpec` (the error of
`ValidateToken` when validation fails, otherwise `GenerateToken` on the developer
id, email and role of the validated claims), and it returns a pair exactly when
`ValidateToken` returns claims, so an access token is accepted by `RefreshToken`
under the same conditions as by `ValidateToken`. -/
theorem C10_refresh_is_validate_then_mint (s : JWTService) (tokenString : String)
    (now now2 : Time) :
    RefreshToken s tokenString now now2 = RefreshTokenSpec s tokenString now now2 ∧
      (RefreshToken s tokenString now now2).toBool = (ValidateToken s tokenString now).toBool := by
  unfold RefreshToken RefreshTokenSpec
  cases h : ValidateToken s tokenString now with
  | error e => exact ⟨rfl, rfl⟩
  | ok c =>
    refine ⟨rfl, ?_⟩
    show (GenerateToken s c.DeveloperID c.Email c.Role now2).toBool = true
    exact GenerateToken_toBool s c.DeveloperID c.Email c.Role now2

/-! ## Bytes of a text and `ExtractToken` -/

theorem twoByte_lead (x : UInt8) : ¬ (x &&& 0x1f ||| 0xc0) < 0x80 := by
  obtain ⟨x⟩ := x
  revert x
  decide

theorem threeByte_lead (x : UInt8) : ¬ (x &&& 0x0f ||| 0xe0) < 0x80 := by
  obtain ⟨x⟩ := x
  revert x
  decide

theorem fourByte_lead (x : UInt8) : ¬ (x &&& 0x07 ||| 0xf0) < 0x80 := by
  obtain ⟨x⟩ := x
  revert x
  decide

/-- A character whose encoding starts with an ASCII byte is that ASCII character. -/
theorem utf8EncodeChar_ascii_head (c : Char) (b : UInt8) (rest : List UInt8) (hb : b < 0x80)
    (h : String.utf8EncodeChar c = b :: rest) :
    rest = [] ∧ c.val ≤ 0x7f ∧ c.val.toUInt8 = b := by
  unfold String.utf8EncodeChar at h
  simp only at h
  split_ifs at h with h1 h2 h3
  · simp only [List.cons.injEq] at h
    exact ⟨h.2.symm, h1, h.1⟩
  · simp only [List.cons.injEq] at h
    exact absurd (h.1 ▸ hb) (twoByte_lead _)
  · simp only [List.cons.injEq] at h
    exact absurd (h.1 ▸ hb) (threeByte_lead _)
  · simp only [List.cons.injEq] at h
    exact absurd (h.1 ▸ hb) (fourByte_lead _)

theorem utf8EncodeChar_of_ascii (a : Char) (ha : a.val ≤ 0x7f) :
    String.utf8EncodeChar a = [a.val.toUInt8] := by
  unfold String.utf8EncodeChar
  simp [ha]

theorem char_eq_of_ascii_byte (a c : Char) (ha : a.val ≤ 0x7f) (hc : c.val ≤ 0x7f)
    (h : c.val.toUInt8 = a.val.toUInt8) : c = a := by
  have ha' : a.val.toNat ≤ 127 := ha
  have hc' : c.val.toNat ≤ 127 := hc
  have h1 := congrArg UInt8.toNat h
  simp only [UInt32.toUInt8, Nat.toUInt8] at h1
  rw [UInt8.toNat_ofNat_of_lt (by unfold UInt8.size; omega),
    UInt8.toNat_ofNat_of_lt (by unfold UInt8.size; omega)] at h1
  apply Char.ext
  cases hcv : c.val with
  | mk cb =>
    cases hav : a.val with
    | mk ab =>
      rw [hcv, hav] at h1
      have : cb = ab := BitVec.eq_of_toNat_eq h1
      rw [this]

theorem goBytes_cons (c : Char) (cs : List Char) :
    goBytes (String.mk (c :: cs)) = String.utf8EncodeChar c ++ goBytes (String.mk cs) := by
  simp [goBytes]

/-- The bytes of a text start with an ASCII byte exactly when the text starts with
that ASCII character. -/
theorem goBytes_ascii_head (a : Char) (ha : a.val ≤ 0x7f) (l : List Char) (rest : List UInt8)
    (h : goBytes (String.mk l) = a.val.toUInt8 :: rest) :
    ∃ l2, l = a :: l2 ∧ rest = goBytes (String.mk l2) := by
  cases l with
  | nil => simp [goBytes] at h
  | cons c cs =>
    rw [goBytes_cons] at h
    have hlen : 0 < (String.utf8EncodeChar c).length := by
      rw [String.length_utf8EncodeChar]
      exact Char.utf8Size_pos c
    cases henc : String.utf8EncodeChar c with
    | nil => rw [henc] at hlen; simp at hlen
    | cons b bs =>
      rw [henc] at h
      simp only [List.cons_append, List.cons.injEq] at h
      obtain ⟨hb, hrest⟩ := h
      have hb80 : b < 0x80 := by
        rw [hb]
        have ha' : a.val.toNat ≤ 127 := ha
        rw [UInt8.lt_def, BitVec.lt_def]
        simp only [UInt32.toUInt8, Nat.toUInt8]
        show (UInt8.ofNat a.val.toNat).toNat < 128
        rw [UInt8.toNat_ofNat_of_lt (by unfold UInt8.size; omega)]
        omega
      obtain ⟨hbs, hc, hcb⟩ := utf8EncodeChar_ascii_head c b bs hb80 henc
      subst hbs
      have hca : c = a := char_eq_of_ascii_byte a c ha hc (hcb.trans hb)
      subst hca
      exact ⟨cs, rfl, by simpa using hrest.symm⟩

theorem goBytes_append (a b : List Char) :
    goBytes (String.mk (a ++ b)) = goBytes (String.mk a) ++ goBytes (String.mk b) := by
  simp [goBytes]

theorem goBytes_Bearer :
    goBytes "Bearer " = ['B'.val.toUInt8, 'e'.val.toUInt8, 'a'.val.toUInt8, 'r'.val.toUInt8,
      'e'.val.toUInt8, 'r'.val.toUInt8, ' '.val.toUInt8] := by
  decide

/-- The first seven bytes of a text are the bytes of `"Bearer "` exactly when its
first seven characters are `Bearer ` and a blank. -/
theorem bearer_bytes_iff (l : List Char) :
    (¬ (goBytes (String.mk l)).length < 7 ∧
      (goBytes (String.mk l)).take 7 = goBytes "Bearer ") ↔
    ∃ t, l = 'B' :: 'e' :: 'a' :: 'r' :: 'e' :: 'r' :: ' ' :: t := by
  constructor
  · rintro ⟨_, htake⟩
    have hsplit : goBytes (String.mk l)
        = goBytes "Bearer " ++ (goBytes (String.mk l)).drop 7 := by
      rw [← htake, List.take_append_drop]
    rw [goBytes_Bearer] at hsplit
    simp only [List.cons_append, List.nil_append] at hsplit
    obtain ⟨l1, rfl, h1⟩ := goBytes_ascii_head 'B' (by decide) l _ hsplit
    obtain ⟨l2, rfl, h2⟩ := goBytes_ascii_head 'e' (by decide) l1 _ h1.symm
    obtain ⟨l3, rfl, h3⟩ := goBytes_ascii_head 'a' (by decide) l2 _ h2.symm
    obtain ⟨l4, rfl, h4⟩ := goBytes_ascii_head 'r' (by decide) l3 _ h3.symm
    obtain ⟨l5, rfl, h5⟩ := goBytes_ascii_head 'e' (by decide) l4 _ h4.symm
    obtain ⟨l6, rfl, h6⟩ := goBytes_ascii_head 'r' (by decide) l5 _ h5.symm
    obtain ⟨l7, rfl, _⟩ := goBytes_ascii_head ' ' (by decide) l6 _ h6.symm
    exact ⟨l7, rfl⟩
  · rintro ⟨t, rfl⟩
    have happ := goBytes_append ['B', 'e', 'a', 'r', 'e', 'r', ' '] t
    have hb : goBytes (String.mk ['B', 'e', 'a', 'r', 'e', 'r', ' ']) = goBytes "Bearer " := rfl
    have hlen : (goBytes "Bearer ").length = 7 := by decide
    simp only [List.cons_append, List.nil_append] at happ
    rw [happ, hb]
    constructor
    · simp [hlen]
    · rw [← hlen, List.take_left]

theorem ExtractToken_of_bearer (t : List Char) :
    ExtractToken (String.mk ('B' :: 'e' :: 'a' :: 'r' :: 'e' :: 'r' :: ' ' :: t))
      = (String.mk t, none) := by
  have h := (bearer_bytes_iff ('B' :: 'e' :: 'a' :: 'r' :: 'e' :: 'r' :: ' ' :: t)).mpr ⟨t, rfl⟩
  unfold ExtractToken
  rw [if_neg h.1, if_neg (not_not.mpr h.2)]
  rfl

theorem ExtractToken_of_not_bearer (h : String)
    (hn : ¬ ∃ t, h.toList = 'B' :: 'e' :: 'a' :: 'r' :: 'e' :: 'r' :: ' ' :: t) :
    ExtractToken h = ("", some ErrInvalidToken) := by
  unfold ExtractToken
  by_cases h1 : (goBytes h).length < 7
  · rw [if_pos h1]
  · rw [if_neg h1]
    by_cases h2 : (goBytes h).take 7 = goBytes "Bearer "
    · exact absurd ((bearer_bytes_iff h.toList).mp ⟨h1, h2⟩) hn
    · rw [if_pos h2]

theorem bearer_append_toList (t : String) :
    ("Bearer " ++ t).toList = 'B' :: 'e' :: 'a' :: 'r' :: 'e' :: 'r' :: ' ' :: t.toList := by
  simp [String.toList]

theorem bearer_append_iff (h : String) :
    (∃ t : String, h = "Bearer " ++ t) ↔
      ∃ t, h.toList = 'B' :: 'e' :: 'a' :: 'r' :: 'e' :: 'r' :: ' ' :: t := by
  constructor
  · rintro ⟨t, rfl⟩
    exact ⟨t.toList, bearer_append_toList t⟩
  · rintro ⟨t, ht⟩
    refine ⟨String.mk t, ?_⟩
    apply String.ext
    have := bearer_append_toList (String.mk t)
    simp only [String.toList] at this ht
    rw [this, ht]

theorem ExtractToken_bearer_append (t : String) : ExtractToken ("Bearer " ++ t) = (t, none) := by
  have h1 : "Bearer " ++ t
      = String.mk ('B' :: 'e' :: 'a' :: 'r' :: 'e' :: 'r' :: ' ' :: t.toList) := by
    apply String.ext
    exact bearer_append_toList t
  rw [h1, ExtractToken_of_bearer]
  rfl

theorem goBytes_bearer_append (t : String) :
    goBytes t = (goBytes ("Bearer " ++ t)).drop 7 := by
  have h1 : "Bearer " ++ t
      = String.mk (['B', 'e', 'a', 'r', 'e', 'r', ' '] ++ t.toList) := by
    apply String.ext
    exact bearer_append_toList t
  have hb : goBytes (String.mk ['B', 'e', 'a', 'r', 'e', 'r', ' ']) = goBytes "Bearer " := rfl
  have hlen : (goBytes "Bearer ").length = 7 := by decide
  rw [h1, goBytes_append, hb, ← hlen, List.drop_left]
  rfl

/-! ## C13: `ExtractToken` -/

/-- C13: for every header string `h`, `ExtractToken(h)` succeeds if and only if `h`
starts with the exact seven-byte text `"Bearer "`, and then returns exactly the
remainder `h[7:]`, so that `ExtractToken("Bearer " ++ t) = t` for every `t`; for
every other `h` it returns the empty string and `ErrInvalidToken`.  `"Token abc"`,
`""` and `"Bearer"` fail and `"Bearer abc"` returns `"abc"`. -/
theorem C13_ExtractToken_bearer (h t : String) :
    ExtractToken ("Bearer " ++ t) = (t, none) ∧
    ((ExtractToken h).2 = none ↔ ∃ t2 : String, h = "Bearer " ++ t2) ∧
    ((∃ t2 : String, h = "Bearer " ++ t2 ∧ ExtractToken h = (t2, none) ∧
        goBytes t2 = (goBytes h).drop 7) ∨
      ((¬ ∃ t2 : String, h = "Bearer " ++ t2) ∧ ExtractToken h = ("", some ErrInvalidToken))) ∧
    ExtractToken "Token abc" = ("", some ErrInvalidToken) ∧
    ExtractToken "" = ("", some ErrInvalidToken) ∧
    ExtractToken "Bearer" = ("", some ErrInvalidToken) ∧
    ExtractToken "Bearer abc" = ("abc", none) := by
  have hcases : (∃ t2 : String, h = "Bearer " ++ t2 ∧ ExtractToken h = (t2, none) ∧
        goBytes t2 = (goBytes h).drop 7) ∨
      ((¬ ∃ t2 : String, h = "Bearer " ++ t2) ∧ ExtractToken h = ("", some ErrInvalidToken)) := by
    by_cases hb : ∃ t2 : String, h = "Bearer " ++ t2
    · obtain ⟨t2, rfl⟩ := hb
      exact Or.inl ⟨t2, rfl, ExtractToken_bearer_append t2, goBytes_bearer_append t2⟩
    · exact Or.inr ⟨hb, ExtractToken_of_not_bearer h (fun hc => hb ((bearer_append_iff h).mpr hc))⟩
  refine ⟨ExtractToken_bearer_append t, ?_, hcases, by decide, by decide, by decide, by decide⟩
  rcases hcases with ⟨t2, rfl, he, _⟩ | ⟨hn, he⟩
  · rw [he]
    exact ⟨fun _ => ⟨t2, rfl⟩, fun _ => rfl⟩
  · rw [he]
    constructor
    · intro hc
      cases hc
    · intro hc
      exact absurd hc hn

/-! ## C11: what a refresh returns -/

theorem windowVerdict_refreshClaims (s : JWTService) (developerID email role : String)
    (t0 now : Time) :
    windowVerdict (refreshClaims s developerID email role t0) now =
      if now < (jwt.NewNumericDate (t0 + s.refreshExpiry)).Time then
        (if now < (jwt.NewNumericDate t0).Time then .error ErrInvalidToken
         else .ok (refreshClaims s developerID email role t0))
      else .error ErrExpiredToken := rfl

theorem windowVerdict_toBool (c : JWTClaims) (now : Time)
    (h : (windowVerdict c now).toBool = true) : windowVerdict c now = .ok c := by
  cases hw : windowVerdict c now with
  | error e => rw [hw] at h; cases h
  | ok c2 =>
    have := ((windowVerdict_ok_iff c c2 now).mp hw).1
    rw [this]

theorem RefreshToken_of_generated (s : JWTService) (developerID email role : String)
    (t0 now now2 : Time) (orig : TokenPair)
    (hg : GenerateToken s developerID email role t0 = .ok orig)
    (hvalid : (ValidateToken s orig.RefreshToken now).toBool = true) :
    RefreshToken s orig.RefreshToken now now2 = GenerateToken s developerID email role now2 := by
  obtain ⟨access, refresh, _, hr, hg2⟩ := GenerateToken_eq s developerID email role t0
  rw [hg2] at hg
  simp only [Except.ok.injEq] at hg
  subst hg
  have hv := ValidateToken_signed s .HS256 _ refresh rfl hr now
  simp only at hvalid ⊢
  rw [hv] at hvalid
  have hok := windowVerdict_toBool _ now hvalid
  unfold RefreshToken
  rw [hv, hok]
  rfl

theorem unix_le_of_le (a b : Int) (h : a ≤ b) : a / 1000000000 ≤ b / 1000000000 := by
  omega

theorem unix_lt_iff (a b : Int) :
    a / 1000000000 < b / 1000000000 ↔ a / 1000000000 * 1000000000 + 1000000000 ≤ b := by
  omega

/-- C11 fails as stated: the service `NewJWTService("s3cr3t")` mints a pair at
`t0 = 0`; its refresh token is valid at 0.5 s, and exchanging it then returns the
very same pair, whose `issuedAt` and `expiresAt` are those of the original, not
strictly later. -/
theorem C11_counterexample_refresh_within_the_second :
    ∃ s orig,
      NewJWTService "s3cr3t" = .ok s ∧
      GenerateToken s "42" "a@b.com" "developer" 0 = .ok orig ∧
      (ValidateToken s orig.RefreshToken 500000000).toBool = true ∧
      RefreshToken s orig.RefreshToken 500000000 500000000 = .ok orig ∧
      (accessClaims s "42" "a@b.com" "developer" 500000000).IssuedAt
        = (accessClaims s "42" "a@b.com" "developer" 0).IssuedAt ∧
      (accessClaims s "42" "a@b.com" "developer" 500000000).ExpiresAt
        = (accessClaims s "42" "a@b.com" "developer" 0).ExpiresAt := by
  obtain ⟨access, refresh, ha, hr, hg⟩ :=
    GenerateToken_eq ⟨"s3cr3t", 24 * Hour, 7 * 24 * Hour⟩ "42" "a@b.com" "developer" 0
  have hv : (ValidateToken ⟨"s3cr3t", 24 * Hour, 7 * 24 * Hour⟩ refresh 500000000).toBool
      = true := by
    rw [ValidateToken_signed _ .HS256 _ refresh rfl hr, windowVerdict_refreshClaims,
      if_pos (by decide), if_neg (by decide)]
    rfl
  have hsame : GenerateToken ⟨"s3cr3t", 24 * Hour, 7 * 24 * Hour⟩ "42" "a@b.com" "developer"
      500000000 = GenerateToken ⟨"s3cr3t", 24 * Hour, 7 * 24 * Hour⟩ "42" "a@b.com" "developer"
      0 := by
    have h1 : accessClaims ⟨"s3cr3t", 24 * Hour, 7 * 24 * Hour⟩ "42" "a@b.com" "developer"
        500000000 = accessClaims ⟨"s3cr3t", 24 * Hour, 7 * 24 * Hour⟩ "42" "a@b.com"
        "developer" 0 := by decide
    have h2 : refreshClaims ⟨"s3cr3t", 24 * Hour, 7 * 24 * Hour⟩ "42" "a@b.com" "developer"
        500000000 = refreshClaims ⟨"s3cr3t", 24 * Hour, 7 * 24 * Hour⟩ "42" "a@b.com"
        "developer" 0 := by decide
    unfold GenerateToken
    rw [h1, h2]
  refine ⟨⟨"s3cr3t", 24 * Hour, 7 * 24 * Hour⟩, _, rfl, hg, hv, ?_, by decide, by decide⟩
  rw [RefreshToken_of_generated _ "42" "a@b.com" "developer" 0 500000000 500000000 _ hg hv,
    hsame, hg]

/-- C11 (amended): for every refresh token produced by `GenerateToken` and every
time `now` at which it is valid, `RefreshToken`, minting at a clock reading `now2`
not before the original issuance, yields a new pair whose access and refresh
tokens carry the same subject/DeveloperID, email and role as the original, and
whose `issuedAt` and `expiresAt` are not earlier than those of the original pair's
corresponding tokens; a timestamp is strictly later exactly when the new clock
reading (plus the lifetime, for `expiresAt`) has reached the next whole second
after the original value. -/
theorem C11_refresh_same_identity_timestamps_not_earlier (s : JWTService)
    (developerID email role : String) (t0 now now2 : Time) (orig : TokenPair)
    (hg : GenerateToken s developerID email role t0 = .ok orig)
    (hvalid : (ValidateToken s orig.RefreshToken now).toBool = true)
    (hclock : t0 ≤ now2) :
    ∃ pair oa orf na nrf i0 i1 ea0 ea1 er0 er1,
      RefreshToken s orig.RefreshToken now now2 = .ok pair ∧
      verifiedToken s orig.AccessToken = .ok oa ∧
      verifiedToken s orig.RefreshToken = .ok orf ∧
      verifiedToken s pair.AccessToken = .ok na ∧
      verifiedToken s pair.RefreshToken = .ok nrf ∧
      (na.Claims.DeveloperID = oa.Claims.DeveloperID ∧ na.Claims.Subject = oa.Claims.Subject ∧
        na.Claims.Email = oa.Claims.Email ∧ na.Claims.Role = oa.Claims.Role) ∧
      (nrf.Claims.DeveloperID = orf.Claims.DeveloperID ∧
        nrf.Claims.Subject = orf.Claims.Subject ∧
        nrf.Claims.Email = orf.Claims.Email ∧ nrf.Claims.Role = orf.Claims.Role) ∧
      (na.Claims.DeveloperID = developerID ∧ na.Claims.Subject = developerID ∧
        na.Claims.Email = email ∧ na.Claims.Role = role) ∧
      (oa.Claims.IssuedAt = some i0 ∧ orf.Claims.IssuedAt = some i0 ∧
        na.Claims.IssuedAt = some i1 ∧ nrf.Claims.IssuedAt = some i1) ∧
      (oa.Claims.ExpiresAt = some ea0 ∧ na.Claims.ExpiresAt = some ea1 ∧
        orf.Claims.ExpiresAt = some er0 ∧ nrf.Claims.ExpiresAt = some er1) ∧
      (i0.unix ≤ i1.unix ∧ ea0.unix ≤ ea1.unix ∧ er0.unix ≤ er1.unix) ∧
      (i0.unix < i1.unix ↔ i0.Time + Second ≤ now2) ∧
      (ea0.unix < ea1.unix ↔ ea0.Time + Second ≤ now2 + s.tokenExpiry) ∧
      (er0.unix < er1.unix ↔ er0.Time + Second ≤ now2 + s.refreshExpiry) := by
  have hrefresh := RefreshToken_of_generated s developerID email role t0 now now2 orig hg hvalid
  obtain ⟨access, refresh, ha, hr, hg0⟩ := GenerateToken_eq s developerID email role t0
  obtain ⟨access2, refresh2, ha2, hr2, hg2⟩ := GenerateToken_eq s developerID email role now2
  rw [hg0] at hg
  simp only [Except.ok.injEq] at hg
  subst hg
  obtain ⟨oa, hoa, hoac, _⟩ := (verifiedToken_signed s .HS256 _ _ access rfl ha).1 rfl
  obtain ⟨orf, horf, horfc, _⟩ := (verifiedToken_signed s .HS256 _ _ refresh rfl hr).1 rfl
  obtain ⟨na, hna, hnac, _⟩ := (verifiedToken_signed s .HS256 _ _ access2 rfl ha2).1 rfl
  obtain ⟨nrf, hnrf, hnrfc, _⟩ := (verifiedToken_signed s .HS256 _ _ refresh2 rfl hr2).1 rfl
  refine ⟨_, oa, orf, na, nrf, jwt.NewNumericDate t0, jwt.NewNumericDate now2,
    jwt.NewNumericDate (t0 + s.tokenExpiry), jwt.NewNumericDate (now2 + s.tokenExpiry),
    jwt.NewNumericDate (t0 + s.refreshExpiry), jwt.NewNumericDate (now2 + s.refreshExpiry),
    hrefresh.trans hg2, hoa, horf, hna, hnrf, ?_, ?_, ?_, ?_, ?_, ?_, ?_, ?_, ?_⟩
  · rw [hnac, hoac]; exact ⟨rfl, rfl, rfl, rfl⟩
  · rw [hnrfc, horfc]; exact ⟨rfl, rfl, rfl, rfl⟩
  · rw [hnac]; exact ⟨rfl, rfl, rfl, rfl⟩
  · rw [hoac, horfc, hnac, hnrfc]; exact ⟨rfl, rfl, rfl, rfl⟩
  · rw [hoac, horfc, hnac, hnrfc]; exact ⟨rfl, rfl, rfl, rfl⟩
  · exact ⟨unix_le_of_le t0 now2 hclock,
      unix_le_of_le (t0 + s.tokenExpiry) (now2 + s.tokenExpiry) (add_le_add_right hclock _),
      unix_le_of_le (t0 + s.refreshExpiry) (now2 + s.refreshExpiry)
        (add_le_add_right hclock _)⟩
  · exact unix_lt_iff t0 now2
  · exact unix_lt_iff (t0 + s.tokenExpiry) (now2 + s.tokenExpiry)
  · exact unix_lt_iff (t0 + s.refreshExpiry) (now2 + s.refreshExpiry)

/-- C11 witness: the pair minted by `NewJWTService("s3cr3t")` at `t0 = 0` is
refreshed at 10 s; the refresh succeeds and returns a pair. -/
theorem C11_witness :
    ∃ s orig pair,
      NewJWTService "s3cr3t" = .ok s ∧
      GenerateToken s "42" "a@b.com" "developer" 0 = .ok orig ∧
      RefreshToken s orig.RefreshToken 10000000000 10000000000 = .ok pair ∧
      (accessClaims s "42" "a@b.com" "developer" 0).IssuedAt = some ⟨0⟩ ∧
      (accessClaims s "42" "a@b.com" "developer" 10000000000).IssuedAt = some ⟨10⟩ := by
  obtain ⟨access, refresh, ha, hr, hg⟩ :=
    GenerateToken_eq ⟨"s3cr3t", 24 * Hour, 7 * 24 * Hour⟩ "42" "a@b.com" "developer" 0
  have hv : (ValidateToken ⟨"s3cr3t", 24 * Hour, 7 * 24 * Hour⟩ refresh 10000000000).toBool
      = true := by
    rw [ValidateToken_signed _ .HS256 _ refresh rfl hr, windowVerdict_refreshClaims,
      if_pos (by decide), if_neg (by decide)]
    rfl
  obtain ⟨pair, _, _, _, _, _, _, _, _, _, _, hp, _⟩ :=
    C11_refresh_same_identity_timestamps_not_earlier ⟨"s3cr3t", 24 * Hour, 7 * 24 * Hour⟩
      "42" "a@b.com" "developer" 0 10000000000 10000000000 _ hg hv (by decide)
  exact ⟨_, _, pair, rfl, hg, hp, by decide, by decide⟩

theorem RefreshToken_toBool (s : JWTService) (tokenString : String) (now now2 : Time) :
    (RefreshToken s tokenString now now2).toBool = (ValidateToken s tokenString now).toBool := by
  unfold RefreshToken
  cases h : ValidateToken s tokenString now with
  | error e => rfl
  | ok c =>
    show (GenerateToken s c.DeveloperID c.Email c.Role now2).toBool = true
    exact GenerateToken_toBool s c.DeveloperID c.Email c.Role now2

/-! ## C12: the service is stateless -/

theorem exec_fst (s : JWTService) (c : ServiceCall) : (c.exec s).1 = s := by
  cases c <;> rfl

theorem execAll_fst (s : JWTService) (history : List ServiceCall) :
    (execAll s history).1 = s := by
  induction history generalizing s with
  | nil => rfl
  | cons c cs ih =>
    unfold execAll
    simp only
    rw [exec_fst]
    exact ih s

/-- C12: the token service is stateless.  After any sequence of `GenerateToken`,
`ValidateToken` and `RefreshToken` calls the service still holds the same secret
and the same two lifetimes, so a following `RefreshToken` returns what it returns
on the fresh service: a function of configuration, token string and clock only.
Consequently the exchange of a refresh token that follows any number of earlier
exchanges of the same token is accepted exactly when the token is valid at `now`:
there is no single-use enforcement. -/
theorem C12_service_is_stateless (s : JWTService) (history : List ServiceCall)
    (tokenString : String) (now now2 : Time) (earlier : List (Time × Time)) :
    (execAll s history).1 = s ∧
    ((execAll s history).1.secretKey = s.secretKey ∧
      (execAll s history).1.tokenExpiry = s.tokenExpiry ∧
      (execAll s history).1.refreshExpiry = s.refreshExpiry) ∧
    (ServiceCall.refresh tokenString now now2).exec (execAll s history).1
      = (s, .pair (RefreshToken s tokenString now now2)) ∧
    ((ServiceCall.refresh tokenString now now2).exec
        (execAll s (earlier.map (fun p => .refresh tokenString p.1 p.2))).1).2.succeeded
      = (ValidateToken s tokenString now).toBool := by
  refine ⟨execAll_fst s history, ?_, ?_, ?_⟩
  · rw [execAll_fst]
    exact ⟨rfl, rfl, rfl⟩
  · rw [execAll_fst]
    rfl
  · rw [execAll_fst]
    exact (RefreshToken_toBool s tokenString now now2)

/-! ## The middleware, case by case -/

theorem AuthMiddleware_missing (jwtService : JWTService) (now : Time) (r : Request)
    (h : r.Header.Get "Authorization" = "") :
    AuthMiddleware jwtService now r =
      [.write (utils.ErrorResponse http.StatusUnauthorized "Authorization header required")] := by
  unfold AuthMiddleware
  simp only [h, if_true]

theorem AuthMiddleware_bad_format (jwtService : JWTService) (now : Time) (r : Request)
    (h1 : r.Header.Get "Authorization" ≠ "") (e : ServiceError) (tok : String)
    (h2 : ExtractToken (r.Header.Get "Authorization") = (tok, some e)) :
    AuthMiddleware jwtService now r =
      [.write (utils.ErrorResponse http.StatusUnauthorized
        "Invalid authorization header format")] := by
  unfold AuthMiddleware
  simp only [h1, if_false, h2]

theorem AuthMiddleware_rejected (jwtService : JWTService) (now : Time) (r : Request)
    (h1 : r.Header.Get "Authorization" ≠ "") (tok : String)
    (h2 : ExtractToken (r.Header.Get "Authorization") = (tok, none)) (e : ServiceError)
    (h3 : ValidateToken jwtService tok now = .error e) :
    AuthMiddleware jwtService now r =
      [.write (utils.ErrorResponse http.StatusUnauthorized
        (if e = ErrExpiredToken then "Token has expired" else "Invalid token"))] := by
  unfold AuthMiddleware
  simp only [h1, if_false, h2, h3]
  split <;> rfl

theorem AuthMiddleware_accepted (jwtService : JWTService) (now : Time) (r : Request)
    (h1 : r.Header.Get "Authorization" ≠ "") (tok : String)
    (h2 : ExtractToken (r.Header.Get "Authorization") = (tok, none)) (c : JWTClaims)
    (h3 : ValidateToken jwtService tok now = .ok c) :
    AuthMiddleware jwtService now r = [.next (withIdentity r c)] := by
  unfold AuthMiddleware
  simp only [h1, if_false, h2, h3]
  rfl

theorem ExtractToken_cases (h : String) :
    (∃ t : String, h = "Bearer " ++ t ∧ ExtractToken h = (t, none)) ∨
      ((¬ ∃ t : String, h = "Bearer " ++ t) ∧ ExtractToken h = ("", some ErrInvalidToken)) := by
  by_cases hb : ∃ t : String, h = "Bearer " ++ t
  · obtain ⟨t, rfl⟩ := hb
    exact Or.inl ⟨t, rfl, ExtractToken_bearer_append t⟩
  · exact Or.inr ⟨hb, ExtractToken_of_not_bearer h (fun hc => hb ((bearer_append_iff h).mpr hc))⟩

theorem bearer_append_ne_empty (t : String) : "Bearer " ++ t ≠ "" := by
  intro h
  have h1 := congrArg String.toList h
  rw [bearer_append_toList] at h1
  cases h1

theorem GetUserRole_withIdentity (r : Request) (c : JWTClaims) :
    GetUserRole (withIdentity r c) = c.Role := by
  simp [GetUserRole, withIdentity, Request.WithContext, context.WithValue, context.Value,
    UserRoleKey, List.lookup]

theorem GetUserEmail_withIdentity (r : Request) (c : JWTClaims) :
    GetUserEmail (withIdentity r c) = c.Email := by
  have h1 : (UserEmailKey == UserRoleKey) = false := by decide
  have h2 : (UserEmailKey == UserEmailKey) = true := by decide
  simp only [GetUserEmail, withIdentity, Request.WithContext, context.WithValue, context.Value,
    List.lookup, h1, h2]

theorem GetUserIDString_withIdentity (r : Request) (c : JWTClaims) :
    GetUserIDString (withIdentity r c) = c.DeveloperID := by
  have h1 : (UserIDKey == UserRoleKey) = false := by decide
  have h2 : (UserIDKey == UserEmailKey) = false := by decide
  have h3 : (UserIDKey == UserIDKey) = true := by decide
  simp only [GetUserIDString, withIdentity, Request.WithContext, context.WithValue,
    context.Value, List.lookup, h1, h2, h3]

/-! ## C14: `RequireRole` -/

/-- C14: `RequireRole(required)` invokes the next handler, with the request
unchanged and without writing a response, if and only if the request identity's
role equals `required` or equals `"admin"`; in every other case it responds 403
Forbidden with the message `"Insufficient permissions"` and does not invoke the
next handler.  `RequireRole("admin")` rejects role `"developer"` and passes role
`"admin"`; `RequireRole("manager")` passes role `"admin"`. -/
theorem C14_RequireRole (requiredRole : String) (r : Request) :
    (((GetUserRole r = requiredRole ∨ GetUserRole r = "admin") ∧
        RequireRole requiredRole r = [.next r]) ∨
      (¬ (GetUserRole r = requiredRole ∨ GetUserRole r = "admin") ∧
        RequireRole requiredRole r =
          [.write { contentType := "application/json", status := 403,
                    body := { success := false,
                              error := { code := 403,
                                         message := "Insufficient permissions" } } }])) ∧
    ((∃ r2, Effect.next r2 ∈ RequireRole requiredRole r) ↔
      (GetUserRole r = requiredRole ∨ GetUserRole r = "admin")) ∧
    RequireRole "admin" ⟨[], [(UserRoleKey, .string "developer")]⟩ =
      [.write (utils.ErrorResponse http.StatusForbidden "Insufficient permissions")] ∧
    RequireRole "admin" ⟨[], [(UserRoleKey, .string "admin")]⟩ =
      [.next ⟨[], [(UserRoleKey, .string "admin")]⟩] ∧
    RequireRole "manager" ⟨[], [(UserRoleKey, .string "admin")]⟩ =
      [.next ⟨[], [(UserRoleKey, .string "admin")]⟩] := by
  have hcases : ((GetUserRole r = requiredRole ∨ GetUserRole r = "admin") ∧
        RequireRole requiredRole r = [.next r]) ∨
      (¬ (GetUserRole r = requiredRole ∨ GetUserRole r = "admin") ∧
        RequireRole requiredRole r =
          [.write { contentType := "application/json", status := 403,
                    body := { success := false,
                              error := { code := 403,
                                         message := "Insufficient permissions" } } }]) := by
    by_cases h : GetUserRole r = requiredRole ∨ GetUserRole r = "admin"
    · left
      refine ⟨h, ?_⟩
      unfold RequireRole
      simp only
      rw [if_neg]
      rintro ⟨h1, h2⟩
      rcases h with h | h
      · exact h1 h
      · exact h2 h
    · right
      refine ⟨h, ?_⟩
      unfold RequireRole
      simp only
      rw [if_pos]
      · rfl
      · exact not_or.mp h
  refine ⟨hcases, ?_, by decide, by decide, by decide⟩
  rcases hcases with ⟨h, he⟩ | ⟨h, he⟩
  · rw [he]
    exact ⟨fun _ => h, fun _ => ⟨r, by simp⟩⟩
  · rw [he]
    constructor
    · rintro ⟨r2, hr2⟩
      simp at hr2
    · intro hc
      exact absurd hc h

/-! ## C15: the success path of `AuthMiddleware` -/

/-- C15: on success, when the `Authorization` header is not empty, `ExtractToken`
succeeds and `ValidateToken` returns claims `c`, `AuthMiddleware` invokes the next
handler exactly once and writes no response itself; the request it passes on has
the identity attached: `GetUserIDString` returns `c.DeveloperID`, `GetUserEmail`
returns `c.Email` and `GetUserRole` returns `c.Role`. -/
theorem C15_success_attaches_identity (jwtService : JWTService) (now : Time) (r : Request)
    (tokenString : String) (c : JWTClaims)
    (h1 : r.Header.Get "Authorization" ≠ "")
    (h2 : ExtractToken (r.Header.Get "Authorization") = (tokenString, none))
    (h3 : ValidateToken jwtService tokenString now = .ok c) :
    ∃ r2,
      AuthMiddleware jwtService now r = [.next r2] ∧
      GetUserIDString r2 = c.DeveloperID ∧ GetUserEmail r2 = c.Email ∧
      GetUserRole r2 = c.Role ∧ r2.Header = r.Header :=
  ⟨withIdentity r c, AuthMiddleware_accepted jwtService now r h1 tokenString h2 c h3,
    GetUserIDString_withIdentity r c, GetUserEmail_withIdentity r c,
    GetUserRole_withIdentity r c, rfl⟩

/-- C15 witness: a request carrying `Bearer` and the access token minted by
`NewJWTService("s3cr3t")` for `("42", "a@b.com", "developer")` at `t0 = 0` is passed
on, five seconds later, with that identity attached. -/
theorem C15_witness :
    ∃ s pair r2,
      NewJWTService "s3cr3t" = .ok s ∧
      GenerateToken s "42" "a@b.com" "developer" 0 = .ok pair ∧
      AuthMiddleware s 5000000000 ⟨[("Authorization", ["Bearer " ++ pair.AccessToken])], []⟩
        = [.next r2] ∧
      GetUserIDString r2 = "42" ∧ GetUserEmail r2 = "a@b.com" ∧ GetUserRole r2 = "developer" := by
  obtain ⟨access, refresh, ha, _, hg⟩ :=
    GenerateToken_eq ⟨"s3cr3t", 24 * Hour, 7 * 24 * Hour⟩ "42" "a@b.com" "developer" 0
  have hv : ValidateToken ⟨"s3cr3t", 24 * Hour, 7 * 24 * Hour⟩ access 5000000000
      = .ok (accessClaims ⟨"s3cr3t", 24 * Hour, 7 * 24 * Hour⟩ "42" "a@b.com" "developer" 0) := by
    rw [ValidateToken_signed _ .HS256 _ access rfl ha, windowVerdict_accessClaims,
      if_pos (by decide), if_neg (by decide)]
  have hget : http.Header.Get [("Authorization", ["Bearer " ++ access])] "Authorization"
      = "Bearer " ++ access := by
    simp [http.Header.Get, List.lookup]
  obtain ⟨r2, hr2, hid, hemail, hrole, _⟩ :=
    C15_success_attaches_identity ⟨"s3cr3t", 24 * Hour, 7 * 24 * Hour⟩ 5000000000
      ⟨[("Authorization", ["Bearer " ++ access])], []⟩ access _
      (by rw [hget]; exact bearer_append_ne_empty access)
      (by rw [hget]; exact ExtractToken_bearer_append access) hv
  exact ⟨_, _, r2, rfl, hg, hr2, hid, hemail, hrole⟩

/-! ## C16: short circuit -/

theorem AuthMiddleware_cases (jwtService : JWTService) (now : Time) (r : Request) :
    (stepsSucceed jwtService now r ∧ ∃ r2, AuthMiddleware jwtService now r = [.next r2]) ∨
    (¬ stepsSucceed jwtService now r ∧
      ∃ message, AuthMiddleware jwtService now r =
        [.write (utils.ErrorResponse http.StatusUnauthorized message)]) := by
  unfold stepsSucceed
  by_cases h1 : r.Header.Get "Authorization" = ""
  · right
    exact ⟨fun h => h.1 h1, _, AuthMiddleware_missing jwtService now r h1⟩
  · rcases ExtractToken_cases (r.Header.Get "Authorization") with ⟨t, _, he⟩ | ⟨_, he⟩
    · cases hv : ValidateToken jwtService t now with
      | error e =>
        right
        refine ⟨?_, _, AuthMiddleware_rejected jwtService now r h1 t he e hv⟩
        rintro ⟨_, _, h⟩
        rw [he] at h
        simp only [hv] at h
        cases h
      | ok c =>
        left
        refine ⟨⟨h1, by rw [he], ?_⟩, _, AuthMiddleware_accepted jwtService now r h1 t he c hv⟩
        rw [he]
        simp only [hv]
        rfl
    · right
      refine ⟨?_, _, AuthMiddleware_bad_format jwtService now r h1 _ _ he⟩
      rintro ⟨_, h, _⟩
      rw [he] at h
      cases h

/-- C16: `AuthMiddleware` invokes the next handler if and only if the header is
present, the bearer token is extracted and `ValidateToken` succeeds, and then it
does so once and writes nothing.  Whenever one of the three steps fails its
effects are exactly one rejection response, with status 401, and nothing else: the
next handler is not invoked and no request with an identity attached exists. -/
theorem C16_short_circuit (jwtService : JWTService) (now : Time) (r : Request) :
    ((∃ r2, Effect.next r2 ∈ AuthMiddleware jwtService now r) ↔
      stepsSucceed jwtService now r) ∧
    ((stepsSucceed jwtService now r ∧ ∃ r2, AuthMiddleware jwtService now r = [.next r2]) ∨
      (¬ stepsSucceed jwtService now r ∧
        ∃ resp, AuthMiddleware jwtService now r = [.write resp] ∧ resp.status = 401 ∧
          ∀ r2, Effect.next r2 ∉ AuthMiddleware jwtService now r)) := by
  rcases AuthMiddleware_cases jwtService now r with ⟨hs, r2, he⟩ | ⟨hs, message, he⟩
  · refine ⟨⟨fun _ => hs, fun _ => ⟨r2, by rw [he]; simp⟩⟩, Or.inl ⟨hs, r2, he⟩⟩
  · have hno : ∀ r2, Effect.next r2 ∉ AuthMiddleware jwtService now r := by
      intro r2 hmem
      rw [he] at hmem
      simp at hmem
    refine ⟨⟨fun ⟨r2, hmem⟩ => absurd hmem (hno r2), fun h => absurd h hs⟩,
      Or.inr ⟨hs, _, he, rfl, hno⟩⟩

/-! ## C17: missing credential -/

/-- C17: for every request whose `Authorization` header is absent or is the empty
string, so that `Header.Get` returns `""`, `AuthMiddleware` writes exactly the 401
response with the reason `"Authorization header required"`, whatever the service
and the clock are, and the next handler is not invoked. -/
theorem C17_missing_header (r : Request) (h : r.Header.Get "Authorization" = "")
    (jwtService : JWTService) (now : Time) :
    AuthMiddleware jwtService now r =
      [.write { contentType := "application/json", status := 401,
                body := { success := false,
                          error := { code := 401,
                                     message := "Authorization header required" } } }] ∧
    ∀ r2, Effect.next r2 ∉ AuthMiddleware jwtService now r := by
  have he := AuthMiddleware_missing jwtService now r h
  refine ⟨he, ?_⟩
  intro r2 hmem
  rw [he] at hmem
  simp [utils.ErrorResponse, utils.JSON] at hmem

/-- C17 witness: a request without any header and a request whose `Authorization`
header is the empty string are both answered 401, `"Authorization header
required"`. -/
theorem C17_witness :
    ∃ s, NewJWTService "s3cr3t" = .ok s ∧
      AuthMiddleware s 1700000000000000000 ⟨[], []⟩ =
        [.write (utils.ErrorResponse 401 "Authorization header required")] ∧
      AuthMiddleware s 1700000000000000000 ⟨[("Authorization", [""])], []⟩ =
        [.write (utils.ErrorResponse 401 "Authorization header required")] :=
  ⟨⟨"s3cr3t", 24 * Hour, 7 * 24 * Hour⟩, rfl,
    (C17_missing_header ⟨[], []⟩ (by decide) _ _).1,
    (C17_missing_header ⟨[("Authorization", [""])], []⟩ (by decide) _ _).1⟩

/-! ## C18: bad header format -/

/-- C18: for every request whose `Authorization` header is not empty and does not
start with `"Bearer "`, `AuthMiddleware` writes exactly the 401 response with the
reason `"Invalid authorization header format"`, which differs from the
missing-credential reason, whatever the service and the clock are: `ValidateToken`
plays no part. -/
theorem C18_bad_format (r : Request) (h1 : r.Header.Get "Authorization" ≠ "")
    (h2 : ¬ ∃ t : String, r.Header.Get "Authorization" = "Bearer " ++ t)
    (jwtService : JWTService) (now : Time) :
    AuthMiddleware jwtService now r =
      [.write { contentType := "application/json", status := 401,
                body := { success := false,
                          error := { code := 401,
                                     message := "Invalid authorization header format" } } }] ∧
    utils.ErrorResponse http.StatusUnauthorized "Invalid authorization header format"
      ≠ utils.ErrorResponse http.StatusUnauthorized "Authorization header required" := by
  refine ⟨?_, by decide⟩
  rcases ExtractToken_cases (r.Header.Get "Authorization") with ⟨t, ht, _⟩ | ⟨_, he⟩
  · exact absurd ⟨t, ht⟩ h2
  · exact AuthMiddleware_bad_format jwtService now r h1 _ _ he

/-- C18 witness: the headers `"Bearer"`, `"bearer abc"` and `"Token abc"` are
answered 401, `"Invalid authorization header format"`. -/
theorem C18_witness :
    ∃ s, NewJWTService "s3cr3t" = .ok s ∧
      AuthMiddleware s 1700000000000000000 ⟨[("Authorization", ["Bearer"])], []⟩ =
        [.write (utils.ErrorResponse 401 "Invalid authorization header format")] ∧
      AuthMiddleware s 1700000000000000000 ⟨[("Authorization", ["bearer abc"])], []⟩ =
        [.write (utils.ErrorResponse 401 "Invalid authorization header format")] ∧
      AuthMiddleware s 1700000000000000000 ⟨[("Authorization", ["Token abc"])], []⟩ =
        [.write (utils.ErrorResponse 401 "Invalid authorization header format")] := by
  have hnot : ∀ h : String, ExtractToken h = ("", some ErrInvalidToken) →
      ¬ ∃ t : String, h = "Bearer " ++ t := by
    rintro h he ⟨t, rfl⟩
    rw [ExtractToken_bearer_append] at he
    cases he
  exact ⟨⟨"s3cr3t", 24 * Hour, 7 * 24 * Hour⟩, rfl,
    (C18_bad_format ⟨[("Authorization", ["Bearer"])], []⟩ (by decide)
      (hnot "Bearer" (by decide)) _ _).1,
    (C18_bad_format ⟨[("Authorization", ["bearer abc"])], []⟩ (by decide)
      (hnot "bearer abc" (by decide)) _ _).1,
    (C18_bad_format ⟨[("Authorization", ["Token abc"])], []⟩ (by decide)
      (hnot "Token abc" (by decide)) _ _).1⟩

/-! ## C19: expired against invalid -/

/-- C19: for every request with a well-shaped bearer header, when `ValidateToken`
returns an error the rejection written by `AuthMiddleware` has status 401 and the
reason `"Token has expired"` if the error is `ErrExpiredToken` and the generic
`"Invalid token"` for every other error; the reason is `"Token has expired"` if and
only if `ValidateToken` returns `ErrExpiredToken`, and the two reasons are
different strings. -/
theorem C19_expired_or_invalid_reason (jwtService : JWTService) (now : Time) (r : Request)
    (tokenString : String) (e : ServiceError)
    (hshape : r.Header.Get "Authorization" = "Bearer " ++ tokenString)
    (herr : ValidateToken jwtService tokenString now = .error e) :
    AuthMiddleware jwtService now r =
      [.write { contentType := "application/json", status := 401,
                body := { success := false,
                          error := { code := 401,
                                     message := if e = ErrExpiredToken then "Token has expired"
                                                else "Invalid token" } } }] ∧
    (AuthMiddleware jwtService now r =
        [.write (utils.ErrorResponse http.StatusUnauthorized "Token has expired")] ↔
      ValidateToken jwtService tokenString now = .error ErrExpiredToken) ∧
    (AuthMiddleware jwtService now r =
        [.write (utils.ErrorResponse http.StatusUnauthorized "Invalid token")] ↔
      ValidateToken jwtService tokenString now ≠ .error ErrExpiredToken) ∧
    "Token has expired" ≠ "Invalid token" := by
  have h1 : r.Header.Get "Authorization" ≠ "" := by
    rw [hshape]
    exact bearer_append_ne_empty tokenString
  have h2 : ExtractToken (r.Header.Get "Authorization") = (tokenString, none) := by
    rw [hshape]
    exact ExtractToken_bearer_append tokenString
  have he := AuthMiddleware_rejected jwtService now r h1 tokenString h2 e herr
  refine ⟨he, ?_, ?_, by decide⟩
  · rw [he, herr]
    by_cases hx : e = ErrExpiredToken
    · subst hx
      simp
    · rw [if_neg hx]
      constructor
      · intro hc
        exact absurd hc (by decide)
      · intro hc
        exact absurd (Except.error.inj hc) hx
  · rw [he, herr]
    by_cases hx : e = ErrExpiredToken
    · subst hx
      rw [if_pos rfl]
      constructor
      · intro hc
        exact absurd hc (by decide)
      · intro hc
        exact absurd rfl hc
    · rw [if_neg hx]
      constructor
      · intro _ hc
        exact hx (Except.error.inj hc)
      · intro _
        rfl

/-- C19 witness: the access token minted by `NewJWTService("s3cr3t")` at `t0 = 0`,
sent as a bearer token at 90000 s, is answered `"Token has expired"`; the token
`"x"` is answered `"Invalid token"`. -/
theorem C19_witness :
    ∃ s pair,
      NewJWTService "s3cr3t" = .ok s ∧
      GenerateToken s "42" "a@b.com" "developer" 0 = .ok pair ∧
      AuthMiddleware s 90000000000000 ⟨[("Authorization", ["Bearer " ++ pair.AccessToken])], []⟩
        = [.write (utils.ErrorResponse 401 "Token has expired")] ∧
      AuthMiddleware s 90000000000000 ⟨[("Authorization", ["Bearer x"])], []⟩
        = [.write (utils.ErrorResponse 401 "Invalid token")] := by
  obtain ⟨access, refresh, ha, _, hg⟩ :=
    GenerateToken_eq ⟨"s3cr3t", 24 * Hour, 7 * 24 * Hour⟩ "42" "a@b.com" "developer" 0
  have hv : ValidateToken ⟨"s3cr3t", 24 * Hour, 7 * 24 * Hour⟩ access 90000000000000
      = .error ErrExpiredToken := by
    rw [ValidateToken_signed _ .HS256 _ access rfl ha, windowVerdict_accessClaims,
      if_neg (by decide)]
  have hget : http.Header.Get [("Authorization", ["Bearer " ++ access])] "Authorization"
      = "Bearer " ++ access := by
    simp [http.Header.Get, List.lookup]
  have h1 := (C19_expired_or_invalid_reason ⟨"s3cr3t", 24 * Hour, 7 * 24 * Hour⟩ 90000000000000
    ⟨[("Authorization", ["Bearer " ++ access])], []⟩ access ErrExpiredToken hget hv).1
  have h2 := (C19_expired_or_invalid_reason ⟨"s3cr3t", 24 * Hour, 7 * 24 * Hour⟩ 90000000000000
    ⟨[("Authorization", ["Bearer x"])], []⟩ "x" ErrInvalidToken rfl rfl).1
  exact ⟨_, _, rfl, hg, h1, h2⟩

/-! ## C20: no leak of the failure cause -/

/-- C20: for any two bearer tokens that both fail validation for a reason other
than expiry, the effects of `AuthMiddleware` are identical: one and the same
response, with status 401 and the body of the generic `"Invalid token"` reason.
The response depends on the outcome class only, not on the token, the service,
the clock or the error value. -/
theorem C20_no_leak_of_failure_cause (jwtService1 jwtService2 : JWTService) (now1 now2 : Time)
    (r1 r2 : Request) (token1 token2 : String) (e1 e2 : ServiceError)
    (hshape1 : r1.Header.Get "Authorization" = "Bearer " ++ token1)
    (hshape2 : r2.Header.Get "Authorization" = "Bearer " ++ token2)
    (herr1 : ValidateToken jwtService1 token1 now1 = .error e1)
    (herr2 : ValidateToken jwtService2 token2 now2 = .error e2)
    (hne1 : e1 ≠ ErrExpiredToken) (hne2 : e2 ≠ ErrExpiredToken) :
    AuthMiddleware jwtService1 now1 r1 = AuthMiddleware jwtService2 now2 r2 ∧
    AuthMiddleware jwtService1 now1 r1 =
      [.write { contentType := "application/json", status := 401,
                body := { success := false,
                          error := { code := 401, message := "Invalid token" } } }] := by
  have h1 := AuthMiddleware_rejected jwtService1 now1 r1
    (by rw [hshape1]; exact bearer_append_ne_empty token1) token1
    (by rw [hshape1]; exact ExtractToken_bearer_append token1) e1 herr1
  have h2 := AuthMiddleware_rejected jwtService2 now2 r2
    (by rw [hshape2]; exact bearer_append_ne_empty token2) token2
    (by rw [hshape2]; exact ExtractToken_bearer_append token2) e2 herr2
  rw [if_neg hne1] at h1
  rw [if_neg hne2] at h2
  exact ⟨h1.trans h2.symm, h1⟩

/-- C20 witness: a malformed token (`"x"`) and a token built with secret `"other"`,
both sent to the service with secret `"s3cr3t"` one hundred thousand seconds after
issuance, are answered with the same response. -/
theorem C20_witness :
    ∃ s other pair,
      NewJWTService "s3cr3t" = .ok s ∧ NewJWTService "other" = .ok other ∧
      GenerateToken other "42" "a@b.com" "developer" 0 = .ok pair ∧
      AuthMiddleware s 100000000000000 ⟨[("Authorization", ["Bearer x"])], []⟩ =
        AuthMiddleware s 100000000000000
          ⟨[("Authorization", ["Bearer " ++ pair.AccessToken])], []⟩ := by
  obtain ⟨access, refresh, ha, _, hg⟩ :=
    GenerateToken_eq ⟨"other", 24 * Hour, 7 * 24 * Hour⟩ "42" "a@b.com" "developer" 0
  have hv : ValidateToken ⟨"s3cr3t", 24 * Hour, 7 * 24 * Hour⟩ access 100000000000000
      = .error ErrInvalidToken :=
    ValidateToken_of_not_verified _ access _
      (not_verified_of_other_key _ access
        ⟨"other", .HS256, _, signedByWith_of_SignedString "other" .HS256 _ access rfl ha,
          by decide⟩)
  have hget : http.Header.Get [("Authorization", ["Bearer " ++ access])] "Authorization"
      = "Bearer " ++ access := by
    simp [http.Header.Get, List.lookup]
  exact ⟨_, _, _, rfl, rfl, hg,
    (C20_no_leak_of_failure_cause ⟨"s3cr3t", 24 * Hour, 7 * 24 * Hour⟩
      ⟨"s3cr3t", 24 * Hour, 7 * 24 * Hour⟩ 100000000000000 100000000000000
      ⟨[("Authorization", ["Bearer x"])], []⟩
      ⟨[("Authorization", ["Bearer " ++ access])], []⟩ "x" access ErrInvalidToken
      ErrInvalidToken rfl hget rfl hv (by decide) (by decide)).1⟩

/-! ## C21: authentication failures against role failures -/

theorem AuthMiddleware_write_status (jwtService : JWTService) (now : Time) (r : Request)
    (resp : utils.Response) (h : Effect.write resp ∈ AuthMiddleware jwtService now r) :
    resp.status = 401 := by
  rcases AuthMiddleware_cases jwtService now r with ⟨_, r2, he⟩ | ⟨_, message, he⟩
  · rw [he] at h
    simp at h
  · rw [he] at h
    simp only [List.mem_singleton, Effect.write.injEq] at h
    rw [h]
    rfl

theorem RequireRole_write_status (requiredRole : String) (r : Request)
    (resp : utils.Response) (h : Effect.write resp ∈ RequireRole requiredRole r) :
    resp.status = 403 := by
  unfold RequireRole at h
  simp only at h
  split at h
  · simp only [List.mem_singleton, Effect.write.injEq] at h
    rw [h]
    rfl
  · simp at h

/-- C21: authentication failures and role failures are never collapsed.  Every
response written by `AuthMiddleware` (missing header, bad format, expired token,
invalid token) has status 401 and every response written by `RequireRole` has
status 403; no service, clock reading or request makes `AuthMiddleware` write a
403 or `RequireRole` write a 401.  Each of the four rejections of
`AuthMiddleware` is a single 401 response. -/
theorem C21_auth_is_401_role_is_403 (jwtService : JWTService) (now : Time)
    (requiredRole : String) (r : Request) :
    (∀ resp, Effect.write resp ∈ AuthMiddleware jwtService now r → resp.status = 401) ∧
    (∀ resp, Effect.write resp ∈ RequireRole requiredRole r → resp.status = 403) ∧
    (¬ ∃ resp, Effect.write resp ∈ AuthMiddleware jwtService now r ∧ resp.status = 403) ∧
    (¬ ∃ resp, Effect.write resp ∈ RequireRole requiredRole r ∧ resp.status = 401) ∧
    (utils.ErrorResponse http.StatusUnauthorized "Authorization header required").status = 401 ∧
    (utils.ErrorResponse http.StatusUnauthorized
      "Invalid authorization header format").status = 401 ∧
    (utils.ErrorResponse http.StatusUnauthorized "Token has expired").status = 401 ∧
    (utils.ErrorResponse http.StatusUnauthorized "Invalid token").status = 401 ∧
    (utils.ErrorResponse http.StatusForbidden "Insufficient permissions").status = 403 := by
  refine ⟨fun resp h => AuthMiddleware_write_status jwtService now r resp h,
    fun resp h => RequireRole_write_status requiredRole r resp h, ?_, ?_,
    rfl, rfl, rfl, rfl, rfl⟩
  · rintro ⟨resp, h, h403⟩
    rw [AuthMiddleware_write_status jwtService now r resp h] at h403
    exact absurd h403 (by decide)
  · rintro ⟨resp, h, h401⟩
    rw [RequireRole_write_status requiredRole r resp h] at h401
    exact absurd h401 (by decide)

/-! ## C22: the constructors and the empty secret -/

/-- C22: constructing the token service fails fatally if and only if the secret is
empty.  `NewJWTService("")` and `NewJWTServiceWithExpiry("", a, r)` panic with
`ErrMissingSecretKey` for all durations `a` and `r` (a panic is the `error`
result), and for every non-empty secret both constructors return a service
holding exactly that secret. -/
theorem C22_constructors_fail_iff_secret_empty (secret : String) (a r : Duration) :
    NewJWTService "" = .error ErrMissingSecretKey ∧
    NewJWTServiceWithExpiry "" a r = .error ErrMissingSecretKey ∧
    (NewJWTService secret = .error ErrMissingSecretKey ↔ secret = "") ∧
    (NewJWTServiceWithExpiry secret a r = .error ErrMissingSecretKey ↔ secret = "") ∧
    (secret ≠ "" ↔ ∃ s, NewJWTService secret = .ok s ∧ s.secretKey = secret) ∧
    (secret ≠ "" ↔ ∃ s, NewJWTServiceWithExpiry secret a r = .ok s ∧ s.secretKey = secret) := by
  refine ⟨rfl, rfl, ?_, ?_, ?_, ?_⟩
  · unfold NewJWTService
    by_cases h : secret = ""
    · simp [h]
    · simp [h]
  · unfold NewJWTServiceWithExpiry
    by_cases h : secret = ""
    · simp [h]
    · simp [h]
  · unfold NewJWTService
    by_cases h : secret = ""
    · simp [h]
    · simp [h]
  · unfold NewJWTServiceWithExpiry
    by_cases h : secret = ""
    · simp [h]
    · simp [h]

/-! ## C23: the two lifetimes -/

theorem verified_generated (s : JWTService) (developerID email role : String) (now : Time) :
    ∃ pair ta tr,
      GenerateToken s developerID email role now = .ok pair ∧
      verifiedToken s pair.AccessToken = .ok ta ∧
      ta.Claims = accessClaims s developerID email role now ∧
      verifiedToken s pair.RefreshToken = .ok tr ∧
      tr.Claims = refreshClaims s developerID email role now := by
  obtain ⟨access, refresh, ha, hr, hg⟩ := GenerateToken_eq s developerID email role now
  obtain ⟨ta, hta, hca, _⟩ := (verifiedToken_signed s .HS256 _ _ access rfl ha).1 rfl
  obtain ⟨tr, htr, hcr, _⟩ := (verifiedToken_signed s .HS256 _ _ refresh rfl hr).1 rfl
  exact ⟨_, ta, tr, hg, hta, hca, htr, hcr⟩

/-- C23: for every non-empty secret, `NewJWTService` yields an access-token
lifetime of exactly 24 hours and a refresh-token lifetime of exactly 168 hours;
`NewJWTServiceWithExpiry(secret, a, r)` yields access lifetime exactly `a` and
refresh lifetime exactly `r`, whatever the other one is.  These are the lifetimes
`GenerateToken` uses: in the pair minted at `now` the access token carries
`expiresAt = NewNumericDate(now + access lifetime)` and the refresh token carries
`expiresAt = NewNumericDate(now + refresh lifetime)`. -/
theorem C23_lifetimes (secret developerID email role : String) (a r : Duration) (now : Time)
    (h : secret ≠ "") :
    ∃ s1 s2 p1 p2 t1a t1r t2a t2r,
      NewJWTService secret = .ok s1 ∧
      s1.tokenExpiry = 24 * Hour ∧ s1.refreshExpiry = 168 * Hour ∧
      s1.tokenExpiry = 86400 * Second ∧ s1.refreshExpiry = 7 * 86400 * Second ∧
      NewJWTServiceWithExpiry secret a r = .ok s2 ∧
      s2.tokenExpiry = a ∧ s2.refreshExpiry = r ∧
      GenerateToken s1 developerID email role now = .ok p1 ∧
      verifiedToken s1 p1.AccessToken = .ok t1a ∧
      t1a.Claims.ExpiresAt = some (jwt.NewNumericDate (now + 24 * Hour)) ∧
      verifiedToken s1 p1.RefreshToken = .ok t1r ∧
      t1r.Claims.ExpiresAt = some (jwt.NewNumericDate (now + 168 * Hour)) ∧
      GenerateToken s2 developerID email role now = .ok p2 ∧
      verifiedToken s2 p2.AccessToken = .ok t2a ∧
      t2a.Claims.ExpiresAt = some (jwt.NewNumericDate (now + a)) ∧
      verifiedToken s2 p2.RefreshToken = .ok t2r ∧
      t2r.Claims.ExpiresAt = some (jwt.NewNumericDate (now + r)) := by
  obtain ⟨p1, t1a, t1r, hg1, h1a, hc1a, h1r, hc1r⟩ :=
    verified_generated ⟨secret, 24 * Hour, 7 * 24 * Hour⟩ developerID email role now
  obtain ⟨p2, t2a, t2r, hg2, h2a, hc2a, h2r, hc2r⟩ :=
    verified_generated ⟨secret, a, r⟩ developerID email role now
  refine ⟨⟨secret, 24 * Hour, 7 * 24 * Hour⟩, ⟨secret, a, r⟩, p1, p2, t1a, t1r, t2a, t2r,
    ?_, rfl, (by show 7 * 24 * Hour = 168 * Hour; decide),
    (by show 24 * Hour = 86400 * Second; decide),
    (by show 7 * 24 * Hour = 7 * 86400 * Second; decide),
    ?_, rfl, rfl, hg1, h1a, ?_, h1r, ?_, hg2, h2a, ?_, h2r, ?_⟩
  · unfold NewJWTService
    rw [if_neg h]
  · unfold NewJWTServiceWithExpiry
    rw [if_neg h]
  · rw [hc1a]
    rfl
  · rw [hc1r]
    rfl
  · rw [hc2a]
    rfl
  · rw [hc2r]
    rfl

/-- C23 witness: secret `"s3cr3t"`, custom lifetimes of 15 minutes and 30 days,
identity `("42", "a@b.com", "developer")`, minted at the epoch. -/
theorem C23_witness :
    ∃ s1 s2 p1 p2 t1a t1r t2a t2r,
      NewJWTService "s3cr3t" = .ok s1 ∧
      s1.tokenExpiry = 24 * Hour ∧ s1.refreshExpiry = 168 * Hour ∧
      s1.tokenExpiry = 86400 * Second ∧ s1.refreshExpiry = 7 * 86400 * Second ∧
      NewJWTServiceWithExpiry "s3cr3t" (900 * Second) (720 * Hour) = .ok s2 ∧
      s2.tokenExpiry = 900 * Second ∧ s2.refreshExpiry = 720 * Hour ∧
      GenerateToken s1 "42" "a@b.com" "developer" 0 = .ok p1 ∧
      verifiedToken s1 p1.AccessToken = .ok t1a ∧
      t1a.Claims.ExpiresAt = some (jwt.NewNumericDate (0 + 24 * Hour)) ∧
      verifiedToken s1 p1.RefreshToken = .ok t1r ∧
      t1r.Claims.ExpiresAt = some (jwt.NewNumericDate (0 + 168 * Hour)) ∧
      GenerateToken s2 "42" "a@b.com" "developer" 0 = .ok p2 ∧
      verifiedToken s2 p2.AccessToken = .ok t2a ∧
      t2a.Claims.ExpiresAt = some (jwt.NewNumericDate (0 + 900 * Second)) ∧
      verifiedToken s2 p2.RefreshToken = .ok t2r ∧
      t2r.Claims.ExpiresAt = some (jwt.NewNumericDate (0 + 720 * Hour)) :=
  C23_lifetimes "s3cr3t" "42" "a@b.com" "developer" (900 * Second) (720 * Hour) 0 (by decide)

/-! ## C27: the whole HMAC family is accepted -/

/-- C27: `ValidateToken` accepts the whole HMAC family.  A well-formed token whose
header names HS384 or HS512 (whatever else the header holds) and whose third
segment is the MAC of its first two segments under the service's secret and that
algorithm is accepted at every clock reading inside its validity window, and its
claims are returned; such is the token that `SignedString` builds with
`SigningMethodHS384` or `SigningMethodHS512`.  Yet every token `GenerateToken`
produces names HS256. -/
theorem C27_hmac_family_accepted (s : JWTService) (m : jwt.SigningMethod) (hdr : jwt.Header)
    (c : JWTClaims) (now : Time) (hm : m = .HS384 ∨ m = .HS512)
    (halg : hdr.alg = some m.Alg) (hw : withinWindow c now) :
    m.Alg ≠ "HS256" ∧
    headerAlg (String.mk (jwt.EncodeSegment (jwt.marshalHeader hdr) ++
        '.' :: (jwt.EncodeSegment (jwt.marshalClaims c) ++ '.' :: jwt.EncodeSegment
          (jwt.hmacSum m s.secretKey.toList
            (jwt.EncodeSegment (jwt.marshalHeader hdr) ++
              '.' :: jwt.EncodeSegment (jwt.marshalClaims c)))))) = some m.Alg ∧
    ValidateToken s (String.mk (jwt.EncodeSegment (jwt.marshalHeader hdr) ++
        '.' :: (jwt.EncodeSegment (jwt.marshalClaims c) ++ '.' :: jwt.EncodeSegment
          (jwt.hmacSum m s.secretKey.toList
            (jwt.EncodeSegment (jwt.marshalHeader hdr) ++
              '.' :: jwt.EncodeSegment (jwt.marshalClaims c)))))) now = .ok c ∧
    (∃ tok, (jwt.NewWithClaims m c).SignedString s.secretKey.toList = .ok tok ∧
      headerAlg tok = some m.Alg ∧ ValidateToken s tok now = .ok c) ∧
    (∀ developerID email role t0, ∃ pair,
      GenerateToken s developerID email role t0 = .ok pair ∧
      headerAlg pair.AccessToken = some "HS256" ∧
      headerAlg pair.RefreshToken = some "HS256") := by
  have hmac : m.isHMAC = true := by
    rcases hm with rfl | rfl <;> rfl
  have hne : m.Alg ≠ "HS256" := by
    rcases hm with rfl | rfl <;> decide
  have hverdict : windowVerdict c now = .ok c := (windowVerdict_ok_iff c c now).mpr ⟨rfl, hw⟩
  have hseg := verifiedToken_segments s hdr m c
    (jwt.hmacSum m s.secretKey.toList
      (jwt.EncodeSegment (jwt.marshalHeader hdr) ++ '.' :: jwt.EncodeSegment (jwt.marshalClaims c)))
    halg hmac
  rw [if_pos rfl] at hseg
  refine ⟨hne, ?_, ?_, ?_, ?_⟩
  · rw [(verified_headerAlg s _ _ hseg).1]
  · rw [ValidateToken_eq, hseg]
    exact hverdict
  · have hs := SignedString_hmac m c s.secretKey.toList hmac
    obtain ⟨t, ht, _, htm⟩ := (verifiedToken_signed s m c _ _ hmac hs).1 rfl
    refine ⟨_, hs, ?_, ?_⟩
    · rw [(verified_headerAlg s _ t ht).1, htm]
    · rw [ValidateToken_signed s m c _ hmac hs now]
      exact hverdict
  · intro developerID email role t0
    obtain ⟨access, refresh, ha, hr, hg⟩ := GenerateToken_eq s developerID email role t0
    obtain ⟨ta, hta, _, hma⟩ := (verifiedToken_signed s .HS256 _ _ access rfl ha).1 rfl
    obtain ⟨tr, htr, _, hmr⟩ := (verifiedToken_signed s .HS256 _ _ refresh rfl hr).1 rfl
    refine ⟨_, hg, ?_, ?_⟩
    · show headerAlg access = _
      rw [(verified_headerAlg s _ ta hta).1, hma]
      rfl
    · show headerAlg refresh = _
      rw [(verified_headerAlg s _ tr htr).1, hmr]
      rfl

/-- C27 witness: the service with secret `"s3cr3t"` accepts, one hour after
issuance, an HS512 token for `("42", "a@b.com", "admin")` valid from the epoch for
a day, here with a header that carries no `typ`. -/
theorem C27_witness :
    ∃ tok,
      headerAlg tok = some "HS512" ∧
      ValidateToken ⟨"s3cr3t", 24 * Hour, 7 * 24 * Hour⟩ tok Hour =
        .ok (accessClaims ⟨"s3cr3t", 24 * Hour, 7 * 24 * Hour⟩ "42" "a@b.com" "admin" 0) :=
  ⟨_, (C27_hmac_family_accepted ⟨"s3cr3t", 24 * Hour, 7 * 24 * Hour⟩ .HS512
      { typ := none, alg := some "HS512" }
      (accessClaims ⟨"s3cr3t", 24 * Hour, 7 * 24 * Hour⟩ "42" "a@b.com" "admin" 0) Hour
      (Or.inr rfl) rfl (by decide)).2.1,
    (C27_hmac_family_accepted ⟨"s3cr3t", 24 * Hour, 7 * 24 * Hour⟩ .HS512
      { typ := none, alg := some "HS512" }
      (accessClaims ⟨"s3cr3t", 24 * Hour, 7 * 24 * Hour⟩ "42" "a@b.com" "admin" 0) Hour
      (Or.inr rfl) rfl (by decide)).2.2.1⟩

/-! ## C29: `RequireRole` without an identity -/

/-- C29: on a request that carries no identity (no string under `UserRoleKey`, so
`GetUserRole` returns `""`), `RequireRole` answers 403 Forbidden, not 401, for
every non-empty required role and does not invoke the next handler; with the
empty string as required role it invokes the next handler and writes nothing. -/
theorem C29_RequireRole_without_identity (requiredRole : String) (r : Request)
    (h : context.Value r.Context UserRoleKey = none) :
    GetUserRole r = "" ∧
    (requiredRole ≠ "" →
      RequireRole requiredRole r =
        [.write { contentType := "application/json", status := 403,
                  body := { success := false,
                            error := { code := 403,
                                       message := "Insufficient permissions" } } }] ∧
      ∀ resp, Effect.write resp ∈ RequireRole requiredRole r → resp.status ≠ 401) ∧
    RequireRole "" r = [.next r] := by
  have hrole : GetUserRole r = "" := by
    unfold GetUserRole
    rw [h]
  refine ⟨hrole, ?_, ?_⟩
  · intro hne
    have he : RequireRole requiredRole r =
        [.write (utils.ErrorResponse http.StatusForbidden "Insufficient permissions")] := by
      unfold RequireRole
      simp only [hrole]
      rw [if_pos ⟨fun hc => hne hc.symm, by decide⟩]
    refine ⟨he, ?_⟩
    intro resp hresp
    rw [RequireRole_write_status requiredRole r resp hresp]
    decide
  · unfold RequireRole
    simp only [hrole]
    rw [if_neg (fun hc => hc.1 rfl)]

/-- C29 witness: a request with an empty context, required role `"developer"`. -/
theorem C29_witness :
    GetUserRole ⟨[], []⟩ = "" ∧
    ("developer" ≠ "" →
      RequireRole "developer" ⟨[], []⟩ =
        [.write { contentType := "application/json", status := 403,
                  body := { success := false,
                            error := { code := 403,
                                       message := "Insufficient permissions" } } }] ∧
      ∀ resp, Effect.write resp ∈ RequireRole "developer" ⟨[], []⟩ → resp.status ≠ 401) ∧
    RequireRole "" ⟨[], []⟩ = [.next ⟨[], []⟩] :=
  C29_RequireRole_without_identity "developer" ⟨[], []⟩ rfl

/-! ## C24: login of a developer without a stored password hash -/

theorem CheckPassword_empty_hash (core : bcrypt.Core) (password : String) :
    utils.CheckPassword core password "" = false := by
  unfold utils.CheckPassword bcrypt.CompareHashAndPassword
  rw [if_pos (by decide)]
  rfl

theorem HashPassword_short (core : bcrypt.Core) (random : List UInt8) (password : String)
    (h : (goBytes password).length < 6) :
    (utils.HashPassword core random password).1 = "" := by
  unfold utils.HashPassword
  by_cases h0 : (goBytes password).length = 0
  · rw [if_pos h0]
  · rw [if_neg h0, if_pos h]

theorem LoginRequest_Validate_nil (req : models.LoginRequest) :
    req.Validate = [] ↔ req.Email ≠ "" ∧ req.Password ≠ "" := by
  unfold models.LoginRequest.Validate
  by_cases h1 : req.Email = "" <;> by_cases h2 : req.Password = "" <;> simp [h1, h2]

/-- C24, the code against its comment ("for existing users without password,
allow any password for now"): when the developer found for the email has an empty
password hash and the password of the request is shorter than 6 bytes,
`HashPassword` fails, its error is discarded, the hash stays empty and
`CheckPassword` rejects it: a login request that passes `LoginRequest.Validate` is
answered 401 `"Invalid email or password"`; no token is issued and the status of
the developer is not updated.  This holds whatever the bcrypt computations, the
random bytes, the clock and the token service are. -/
theorem C24_legacy_login_rejects_short_password (h : handlers.AuthHandler) (core : bcrypt.Core)
    (random : List UInt8) (now : Time) (req : models.LoginRequest)
    (developer : models.Developer)
    (hvalid : req.Validate = [])
    (hfound : h.userRepo.GetByEmail req.Email = .ok (some developer))
    (hlegacy : developer.PasswordHash = "")
    (hshort : (goBytes req.Password).length < 6) :
    req.Email ≠ "" ∧ req.Password ≠ "" ∧
    h.Login core random now (some req) =
      [.write (.error { contentType := "application/json", status := 401,
                        body := { success := false,
                                  error := { code := 401,
                                             message := "Invalid email or password" } } })] := by
  obtain ⟨he, hp⟩ := (LoginRequest_Validate_nil req).mp hvalid
  refine ⟨he, hp, ?_⟩
  unfold handlers.AuthHandler.Login
  simp only [hvalid, hfound, hlegacy, List.length_nil, lt_self_iff_false, if_false, if_true]
  rw [HashPassword_short core random req.Password hshort, CheckPassword_empty_hash]
  rfl

/-- C24 witness: developer 3 (`"old@x.io"`, no stored hash) logs in with the
password `"abc"`, the bcrypt computations accepting every hash they are given. -/
theorem C24_witness :
    "old@x.io" ≠ "" ∧ "abc" ≠ "" ∧
    handlers.AuthHandler.Login
      ⟨⟨"s3cr3t", 24 * Hour, 7 * 24 * Hour⟩,
        ⟨⟨fun _ _ _ _ _ _ _ => .error (.other 0), fun _ => .error .ErrNoRows,
          fun email => .ok ⟨3, "Old", email, some "developer", none, none, "active", 0, 0⟩⟩⟩⟩
      ⟨fun _ password _ => .ok password, fun _ _ => none⟩ [] 2000 (some ⟨"old@x.io", "abc"⟩) =
      [.write (.error { contentType := "application/json", status := 401,
                        body := { success := false,
                                  error := { code := 401,
                                             message := "Invalid email or password" } } })] :=
  C24_legacy_login_rejects_short_password
    ⟨⟨"s3cr3t", 24 * Hour, 7 * 24 * Hour⟩,
      ⟨⟨fun _ _ _ _ _ _ _ => .error (.other 0), fun _ => .error .ErrNoRows,
        fun email => .ok ⟨3, "Old", email, some "developer", none, none, "active", 0, 0⟩⟩⟩⟩
    ⟨fun _ password _ => .ok password, fun _ _ => none⟩ [] 2000 ⟨"old@x.io", "abc"⟩
    (repository.developerOfRow ⟨3, "Old", "old@x.io", some "developer", none, none, "active", 0, 0⟩)
    (by decide) rfl rfl (by decide)

/-! ## C25: `ValidatePassword` -/

theorem letterStep_fold (cs : List Char) (flags : Bool × Bool) :
    ((cs.foldl utils.letterStep flags).1 = false ∧ (cs.foldl utils.letterStep flags).2 = false) ↔
      (flags.1 = false ∧ flags.2 = false ∧
        ∀ c ∈ cs, ¬ ('A' ≤ c ∧ c ≤ 'Z') ∧ ¬ ('a' ≤ c ∧ c ≤ 'z')) := by
  induction cs generalizing flags with
  | nil => simp
  | cons c cs ih =>
    rw [List.foldl_cons, ih]
    unfold utils.letterStep
    by_cases h1 : 'A' ≤ c ∧ c ≤ 'Z'
    · simp [h1]
    · by_cases h2 : 'a' ≤ c ∧ c ≤ 'z'
      · simp [h1, h2]
      · simp only [h1, h2, if_false, List.mem_cons, forall_eq_or_imp, not_false_eq_true,
          and_self, true_and]

/-- C25, the code against its comment ("we only require basic length"):
`ValidatePassword` returns `ErrEmptyPassword` for the empty password and
`ErrPasswordTooShort` for every password of 1 to 5 bytes, but for a password of at
least 6 bytes it returns `nil` only when the password contains an ASCII letter;
otherwise it returns `ErrPasswordNoLower`.  The six-byte password `"123456"` is
rejected with `ErrPasswordNoLower`. -/
theorem C25_ValidatePassword_requires_a_letter (password : String) :
    (goBytes "123456").length = 6 ∧
    utils.ValidatePassword "123456" = some .ErrPasswordNoLower ∧
    ((goBytes password).length = 0 →
      utils.ValidatePassword password = some .ErrEmptyPassword) ∧
    (1 ≤ (goBytes password).length ∧ (goBytes password).length ≤ 5 →
      utils.ValidatePassword password = some .ErrPasswordTooShort) ∧
    (6 ≤ (goBytes password).length →
      ((∃ c ∈ password.toList, ('A' ≤ c ∧ c ≤ 'Z') ∨ ('a' ≤ c ∧ c ≤ 'z')) →
        utils.ValidatePassword password = none) ∧
      ((∀ c ∈ password.toList, ¬ ('A' ≤ c ∧ c ≤ 'Z') ∧ ¬ ('a' ≤ c ∧ c ≤ 'z')) →
        utils.ValidatePassword password = some .ErrPasswordNoLower)) := by
  refine ⟨by decide, by decide, ?_, ?_, ?_⟩
  · intro h
    unfold utils.ValidatePassword
    rw [if_pos h]
  · rintro ⟨h1, h5⟩
    unfold utils.ValidatePassword
    rw [if_neg (by omega), if_pos (by omega)]
  · intro h6
    have hfold := letterStep_fold password.toList (false, false)
    constructor
    · rintro ⟨c, hc, hletter⟩
      unfold utils.ValidatePassword
      rw [if_neg (by omega), if_neg (by omega)]
      simp only
      rw [if_neg]
      intro hboth
      simp only [Bool.and_eq_true, Bool.not_eq_true'] at hboth
      have hall := (hfold.mp hboth).2.2 c hc
      rcases hletter with hu | hl
      · exact hall.1 hu
      · exact hall.2 hl
    · intro hall
      unfold utils.ValidatePassword
      rw [if_neg (by omega), if_neg (by omega)]
      simp only
      rw [if_pos]
      have hboth := hfold.mpr ⟨rfl, rfl, hall⟩
      simp only [Bool.and_eq_true, Bool.not_eq_true']
      exact hboth

/-! ## C26: the role of a registered developer -/

theorem Create_keeps (r : repository.DeveloperRepository) (developer created : models.Developer)
    (now : Time) (h : r.Create developer now = (created, none)) :
    created.Role = developer.Role ∧ created.Email = developer.Email ∧
      created.Name = developer.Name := by
  unfold repository.DeveloperRepository.Create at h
  split at h
  · simp at h
  · simp only [Prod.mk.injEq, and_true] at h
    subst h
    exact ⟨rfl, rfl, rfl⟩

theorem ToDeveloper_role (r : models.RegisterRequest) (passwordHash : String) :
    (r.ToDeveloper passwordHash).Role = if r.Role = "" then "developer" else r.Role := rfl

theorem Register_created (h : handlers.AuthHandler) (core : bcrypt.Core) (random : List UInt8)
    (tCreate now : Time) (req : models.RegisterRequest) (reply : handlers.Reply)
    (hmem : handlers.Effect.write reply ∈ h.Register core random tCreate now (some req))
    (hst : reply.status = 201) :
    ∃ passwordHash created tokenPair,
      h.userRepo.Create (req.ToDeveloper passwordHash) tCreate = (created, none) ∧
      GenerateToken h.jwtService (strconv.Itoa created.ID) created.Email created.Role now
        = .ok tokenPair ∧
      reply = .json 201 (.session "Registration successful" created tokenPair.AccessToken
        tokenPair.TokenType tokenPair.ExpiresIn) := by
  unfold handlers.AuthHandler.Register at hmem
  simp only at hmem
  split at hmem
  · simp only [List.mem_singleton, handlers.Effect.write.injEq] at hmem
    subst hmem
    exact absurd (show (400 : Nat) = 201 from hst) (by decide)
  · split at hmem
    · simp only [List.mem_singleton, handlers.Effect.write.injEq] at hmem
      subst hmem
      exact absurd hst (by decide)
    · split at hmem
      · simp only [List.mem_singleton, handlers.Effect.write.injEq] at hmem
        subst hmem
        exact absurd (show (400 : Nat) = 201 from hst) (by decide)
      · split at hmem
        · simp only [List.mem_singleton, handlers.Effect.write.injEq] at hmem
          subst hmem
          exact absurd hst (by decide)
        · simp only [List.mem_singleton, handlers.Effect.write.injEq] at hmem
          subst hmem
          exact absurd hst (by decide)
        · split at hmem
          · simp only [List.mem_singleton, handlers.Effect.write.injEq] at hmem
            subst hmem
            exact absurd hst (by decide)
          · rename_i passwordHash _
            split at hmem
            · simp only [List.mem_cons, List.mem_singleton, handlers.Effect.write.injEq,
                List.mem_nil_iff, or_false, false_or, reduceCtorEq] at hmem
              subst hmem
              exact absurd hst (by decide)
            · rename_i created hcreate
              split at hmem
              · simp only [List.mem_cons, List.mem_singleton, handlers.Effect.write.injEq,
                  List.mem_nil_iff, or_false, false_or, reduceCtorEq] at hmem
                subst hmem
                exact absurd hst (by decide)
              · rename_i tokenPair htoken
                simp only [List.mem_cons, List.mem_singleton, handlers.Effect.write.injEq,
                  List.mem_nil_iff, or_false, false_or, reduceCtorEq] at hmem
                exact ⟨passwordHash, created, tokenPair, hcreate, htoken, hmem⟩

/-- C26: `RegisterRequest.ToDeveloper(hash)` sets the role to `"developer"` when the
request's `Role` is empty and otherwise keeps the role the client sent, `"admin"`
included; in both cases `Name` and `Email` are copied from the request,
`PasswordHash` is `hash` and `Status` is `"active"`.  Hence, whenever `Register`
answers 201, the access token of its response verifies under the handler's
service and carries the role the client asked for (`"developer"` when it asked
for none), as does the developer created. -/
theorem C26_ToDeveloper_keeps_requested_role (r : models.RegisterRequest) (hash : String) :
    (r.Role = "" → (r.ToDeveloper hash).Role = "developer") ∧
    (r.Role ≠ "" → (r.ToDeveloper hash).Role = r.Role) ∧
    (r.Role = "admin" → (r.ToDeveloper hash).Role = "admin") ∧
    (r.ToDeveloper hash).Name = r.Name ∧
    (r.ToDeveloper hash).Email = r.Email ∧
    (r.ToDeveloper hash).PasswordHash = hash ∧
    (r.ToDeveloper hash).Status = "active" ∧
    (∀ (h : handlers.AuthHandler) (core : bcrypt.Core) (random : List UInt8)
      (tCreate now : Time) (reply : handlers.Reply),
      handlers.Effect.write reply ∈ h.Register core random tCreate now (some r) →
      reply.status = 201 →
      ∃ created accessToken tokenType expiresIn token,
        reply = .json 201 (.session "Registration successful" created accessToken tokenType
          expiresIn) ∧
        verifiedToken h.jwtService accessToken = .ok token ∧
        token.Claims.Role = (if r.Role = "" then "developer" else r.Role) ∧
        created.Role = (if r.Role = "" then "developer" else r.Role)) := by
  refine ⟨?_, ?_, ?_, rfl, rfl, rfl, rfl, ?_⟩
  · intro hr
    rw [ToDeveloper_role, if_pos hr]
  · intro hr
    rw [ToDeveloper_role, if_neg hr]
  · intro hr
    rw [ToDeveloper_role, hr]
    rfl
  · intro h core random tCreate now reply hmem hst
    obtain ⟨passwordHash, created, tokenPair, hcreate, htoken, hreply⟩ :=
      Register_created h core random tCreate now r reply hmem hst
    obtain ⟨hrole, _, _⟩ := Create_keeps h.userRepo _ created tCreate hcreate
    rw [ToDeveloper_role] at hrole
    obtain ⟨access, refresh, ha, _, hg⟩ :=
      GenerateToken_eq h.jwtService (strconv.Itoa created.ID) created.Email created.Role now
    rw [hg] at htoken
    simp only [Except.ok.injEq] at htoken
    subst htoken
    obtain ⟨token, hv, hc, _⟩ :=
      (verifiedToken_signed h.jwtService .HS256 _ _ access rfl ha).1 rfl
    refine ⟨created, access, "Bearer", _, token, hreply, hv, ?_, hrole⟩
    rw [hc]
    exact hrole

/-- C26 witness: an unauthenticated client registers `("Eve", "eve@x.io",
"hunter22")` asking for role `"admin"`; the repository knows no such email and
inserts the row as developer 7.  `Register` answers 201, and the developer and the
token of the response carry role `"admin"`. -/
theorem C26_witness :
    ∃ created accessToken tokenType expiresIn token,
      handlers.Effect.write (.json 201 (.session "Registration successful" created accessToken
          tokenType expiresIn)) ∈
        handlers.AuthHandler.Register
          ⟨⟨"s3cr3t", 24 * Hour, 7 * 24 * Hour⟩,
            ⟨⟨fun _ _ _ _ _ c u => .ok (7, c, u), fun _ => .error .ErrNoRows,
              fun _ => .error .ErrNoRows⟩⟩⟩
          ⟨fun _ password _ => .ok password, fun _ _ => none⟩ [] 1000 2000
          (some ⟨"Eve", "eve@x.io", "hunter22", "admin"⟩) ∧
      verifiedToken ⟨"s3cr3t", 24 * Hour, 7 * 24 * Hour⟩ accessToken = .ok token ∧
      token.Claims.Role = "admin" ∧ created.Role = "admin" := by
  obtain ⟨access, refresh, ha, hr, hg⟩ :=
    GenerateToken_eq ⟨"s3cr3t", 24 * Hour, 7 * 24 * Hour⟩ (strconv.Itoa 7) "eve@x.io" "admin" 2000
  have hreg : handlers.AuthHandler.Register
      ⟨⟨"s3cr3t", 24 * Hour, 7 * 24 * Hour⟩,
        ⟨⟨fun _ _ _ _ _ c u => .ok (7, c, u), fun _ => .error .ErrNoRows,
          fun _ => .error .ErrNoRows⟩⟩⟩
      ⟨fun _ password _ => .ok password, fun _ _ => none⟩ [] 1000 2000
      (some ⟨"Eve", "eve@x.io", "hunter22", "admin"⟩) =
      [.create ((⟨"Eve", "eve@x.io", "hunter22", "admin"⟩ : models.RegisterRequest).ToDeveloper
          "hunter22"),
       .updateStatus 7 "online",
       .write (.json 201 (.session "Registration successful"
        { (⟨"Eve", "eve@x.io", "hunter22", "admin"⟩ : models.RegisterRequest).ToDeveloper
            "hunter22" with ID := 7, CreatedAt := 1000, UpdatedAt := 1000 }
        access "Bearer" (int64OfFloat (Duration.Seconds (24 * Hour)))))] := by
    unfold handlers.AuthHandler.Register
    simp only
    rw [if_neg (by decide), if_neg (by decide)]
    have hvp : utils.ValidatePassword "hunter22" = none := by decide
    simp only [hvp]
    have hget : repository.DeveloperRepository.GetByEmail
        ⟨⟨fun _ _ _ _ _ c u => .ok (7, c, u), fun _ => .error .ErrNoRows,
          fun _ => .error .ErrNoRows⟩⟩ "eve@x.io" = .ok none := rfl
    simp only [hget]
    have hhash : utils.HashPassword ⟨fun _ password _ => .ok password, fun _ _ => none⟩ []
        "hunter22" = ("hunter22", none) := by
      unfold utils.HashPassword
      rw [if_neg (by decide), if_neg (by decide)]
    simp only [hhash]
    have hcreate : repository.DeveloperRepository.Create
        ⟨⟨fun _ _ _ _ _ c u => .ok (7, c, u), fun _ => .error .ErrNoRows,
          fun _ => .error .ErrNoRows⟩⟩
        ((⟨"Eve", "eve@x.io", "hunter22", "admin"⟩ : models.RegisterRequest).ToDeveloper
          "hunter22") 1000 =
        ({ (⟨"Eve", "eve@x.io", "hunter22", "admin"⟩ : models.RegisterRequest).ToDeveloper
            "hunter22" with ID := 7, CreatedAt := 1000, UpdatedAt := 1000 }, none) := rfl
    simp only [hcreate]
    have hg2 : GenerateToken ⟨"s3cr3t", 24 * Hour, 7 * 24 * Hour⟩ (strconv.Itoa 7) "eve@x.io"
        (if ("admin" : String) = "" then "developer" else "admin") 2000 = _ := hg
    simp only [ToDeveloper_role, models.RegisterRequest.ToDeveloper, hg2]
    rfl
  have hmem : handlers.Effect.write (.json 201 (.session "Registration successful"
        { (⟨"Eve", "eve@x.io", "hunter22", "admin"⟩ : models.RegisterRequest).ToDeveloper
            "hunter22" with ID := 7, CreatedAt := 1000, UpdatedAt := 1000 }
        access "Bearer" (int64OfFloat (Duration.Seconds (24 * Hour))))) ∈
      handlers.AuthHandler.Register
        ⟨⟨"s3cr3t", 24 * Hour, 7 * 24 * Hour⟩,
          ⟨⟨fun _ _ _ _ _ c u => .ok (7, c, u), fun _ => .error .ErrNoRows,
            fun _ => .error .ErrNoRows⟩⟩⟩
        ⟨fun _ password _ => .ok password, fun _ _ => none⟩ [] 1000 2000
        (some ⟨"Eve", "eve@x.io", "hunter22", "admin"⟩) := by
    rw [hreg]
    simp
  obtain ⟨created, accessToken, tokenType, expiresIn, token, hreply, hv, hrole, hcrole⟩ :=
    (C26_ToDeveloper_keeps_requested_role ⟨"Eve", "eve@x.io", "hunter22", "admin"⟩ "").2.2.2.2.2.2.2
      _ _ _ _ _ _ hmem rfl
  rw [hreply] at hmem
  exact ⟨created, accessToken, tokenType, expiresIn, token, hmem, hv, hrole, hcrole⟩

/-! ## `strconv.Atoi` against decimal notation -/

theorem map_toNat_goBytes_cons (c : Char) (cs : List Char) :
    (goBytes (String.mk (c :: cs))).map UInt8.toNat =
      (String.utf8EncodeChar c).map UInt8.toNat ++ (goBytes (String.mk cs)).map UInt8.toNat := by
  rw [goBytes_cons, List.map_append]

theorem utf8_head (c : Char) :
    ∃ b rest, (String.utf8EncodeChar c).map UInt8.toNat = b :: rest ∧ b < 256 ∧
      ((b < 128 ∨ c.toNat < 128) → rest = [] ∧ b = c.toNat) := by
  have hlen : 0 < (String.utf8EncodeChar c).length := by
    rw [String.length_utf8EncodeChar]
    exact Char.utf8Size_pos c
  cases henc : String.utf8EncodeChar c with
  | nil => rw [henc] at hlen; simp at hlen
  | cons b0 rest0 =>
    refine ⟨b0.toNat, rest0.map UInt8.toNat, by simp, b0.toNat_lt, ?_⟩
    have hascii : c.toNat < 128 → rest0 = [] ∧ b0.toNat = c.toNat := by
      intro hc
      have hc2 : c.val ≤ 0x7f := by
        show c.val.toNat ≤ 127
        have : c.toNat = c.val.toNat := rfl
        omega
      rw [utf8EncodeChar_of_ascii c hc2] at henc
      simp only [List.cons.injEq] at henc
      refine ⟨henc.2.symm, ?_⟩
      rw [← henc.1]
      simp only [UInt32.toUInt8, Nat.toUInt8]
      rw [UInt8.toNat_ofNat_of_lt (by unfold UInt8.size; have : c.toNat = c.val.toNat := rfl; omega)]
      rfl
    rintro (hb | hc)
    · have hb2 : b0 < 0x80 := by
        show b0.toNat < 128
        exact hb
      obtain ⟨hrest, hcv, _⟩ := utf8EncodeChar_ascii_head c b0 rest0 hb2 henc
      have hc : c.toNat < 128 := by
        have h1 : c.val.toNat ≤ 127 := hcv
        have : c.toNat = c.val.toNat := rfl
        omega
      obtain ⟨h1, h2⟩ := hascii hc
      exact ⟨by rw [h1]; rfl, h2⟩
    · obtain ⟨h1, h2⟩ := hascii hc
      exact ⟨by rw [h1]; rfl, h2⟩

theorem isDigit_iff (c : Char) : c.isDigit = true ↔ 48 ≤ c.toNat ∧ c.toNat ≤ 57 := by
  unfold Char.isDigit
  simp only [Bool.and_eq_true, decide_eq_true_eq]
  have : c.toNat = c.val.toNat := rfl
  constructor
  · rintro ⟨h1, h2⟩
    have h1' : (48 : UInt32).toNat ≤ c.val.toNat := h1
    have h2' : c.val.toNat ≤ (57 : UInt32).toNat := h2
    exact ⟨by rw [this]; exact h1', by rw [this]; exact h2'⟩
  · rintro ⟨h1, h2⟩
    exact ⟨show (48 : UInt32).toNat ≤ c.val.toNat from by rw [← this]; exact h1,
      show c.val.toNat ≤ (57 : UInt32).toNat from by rw [← this]; exact h2⟩

/-- The encoding of a character starts with a digit byte exactly when the character
is a decimal digit, and is then that byte alone. -/
theorem utf8_digit (c : Char) :
    ∃ b rest, (String.utf8EncodeChar c).map UInt8.toNat = b :: rest ∧ b < 256 ∧
      (c.isDigit = true → rest = [] ∧ b = c.toNat ∧ 48 ≤ b ∧ b ≤ 57) ∧
      (c.isDigit = false → ¬ (48 ≤ b ∧ b ≤ 57)) ∧
      (b = 45 ↔ c = '-') ∧ (b = 43 ↔ c = '+') ∧
      ((b = 45 ∨ b = 43) → rest = []) := by
  obtain ⟨b, rest, henc, hb, hascii⟩ := utf8_head c
  refine ⟨b, rest, henc, hb, ?_, ?_, ?_, ?_, ?_⟩
  · intro hd
    obtain ⟨h1, h2⟩ := (isDigit_iff c).mp hd
    obtain ⟨hr, hbc⟩ := hascii (Or.inr (by omega))
    exact ⟨hr, hbc, by omega, by omega⟩
  · intro hd hbd
    obtain ⟨_, hbc⟩ := hascii (Or.inl (by omega))
    have : c.isDigit = true := (isDigit_iff c).mpr (by omega)
    rw [this] at hd
    cases hd
  · constructor
    · intro h45
      obtain ⟨_, hbc⟩ := hascii (Or.inl (by omega))
      apply Char.ext
      apply UInt32.ext
      show c.val.toNat = 45
      have : c.toNat = c.val.toNat := rfl
      omega
    · intro hc
      subst hc
      obtain ⟨_, hbc⟩ := hascii (Or.inr (by decide))
      rw [hbc]
      rfl
  · constructor
    · intro h43
      obtain ⟨_, hbc⟩ := hascii (Or.inl (by omega))
      apply Char.ext
      apply UInt32.ext
      show c.val.toNat = 43
      have : c.toNat = c.val.toNat := rfl
      omega
    · intro hc
      subst hc
      obtain ⟨_, hbc⟩ := hascii (Or.inr (by decide))
      rw [hbc]
      rfl
  · intro h
    exact (hascii (Or.inl (by omega))).1

theorem digitsValue_cons (n : Nat) (c : Char) (cs : List Char) :
    digitsValue n (c :: cs) = digitsValue (10 * n + (c.toNat - 48)) cs := rfl

theorem digitsValue_ge (cs : List Char) (n : Nat) : n ≤ digitsValue n cs := by
  induction cs generalizing n with
  | nil => exact le_refl n
  | cons c cs ih =>
    rw [digitsValue_cons]
    exact le_trans (by omega) (ih _)

theorem digitsValue_lt (cs : List Char) (n : Nat) (h : cs.all Char.isDigit = true) :
    digitsValue n cs < (n + 1) * 10 ^ cs.length := by
  induction cs generalizing n with
  | nil => simp [digitsValue]
  | cons c cs ih =>
    rw [List.all_cons, Bool.and_eq_true] at h
    obtain ⟨h1, h2⟩ := (isDigit_iff c).mp h.1
    rw [digitsValue_cons, List.length_cons, pow_succ]
    have h3 := ih (10 * n + (c.toNat - 48)) h.2
    have h4 : (10 * n + (c.toNat - 48) + 1) * 10 ^ cs.length ≤ (n + 1) * (10 ^ cs.length * 10) := by
      have : 10 * n + (c.toNat - 48) + 1 ≤ (n + 1) * 10 := by omega
      calc (10 * n + (c.toNat - 48) + 1) * 10 ^ cs.length
          ≤ ((n + 1) * 10) * 10 ^ cs.length := Nat.mul_le_mul_right _ this
        _ = (n + 1) * (10 ^ cs.length * 10) := by ring
    omega

theorem length_bytes_of_digits (cs : List Char) (h : cs.all Char.isDigit = true) :
    ((goBytes (String.mk cs)).map UInt8.toNat).length = cs.length := by
  induction cs with
  | nil => rfl
  | cons c cs ih =>
    rw [List.all_cons, Bool.and_eq_true] at h
    obtain ⟨b, rest, henc, _, hd, _⟩ := utf8_digit c
    obtain ⟨hr, _⟩ := hd h.1
    rw [map_toNat_goBytes_cons, henc, hr, List.length_append, ih h.2]
    simp
    omega

theorem bytes_eq_nil_iff (cs : List Char) :
    (goBytes (String.mk cs)).map UInt8.toNat = [] ↔ cs = [] := by
  cases cs with
  | nil => simp [goBytes]
  | cons c cs =>
    obtain ⟨b, rest, henc, _⟩ := utf8_head c
    rw [map_toNat_goBytes_cons, henc]
    simp

/-- The fast-path loop of `Atoi` on the bytes of a text. -/
theorem atoiLoop_bytes (cs : List Char) (n : Nat) :
    strconv.atoiLoop ((goBytes (String.mk cs)).map UInt8.toNat) (n : Int) =
      if cs.all Char.isDigit = true then some ((digitsValue n cs : Nat) : Int) else none := by
  induction cs generalizing n with
  | nil => simp [goBytes, strconv.atoiLoop, digitsValue]
  | cons c cs ih =>
    obtain ⟨b, rest, henc, hb, hd, hnd, _⟩ := utf8_digit c
    rw [map_toNat_goBytes_cons, henc, List.all_cons]
    cases hc : c.isDigit with
    | true =>
      obtain ⟨hr, hbc, h1, h2⟩ := hd hc
      subst hr
      simp only [List.cons_append, List.nil_append, Bool.true_and]
      unfold strconv.atoiLoop
      simp only
      have hmod : (b + 256 - 48) % 256 = c.toNat - 48 := by omega
      rw [hmod, if_neg (by omega)]
      have hcast : (n : Int) * 10 + ((c.toNat - 48 : Nat) : Int)
          = ((10 * n + (c.toNat - 48) : Nat) : Int) := by
        push_cast
        ring
      rw [hcast, ih, digitsValue_cons]
    | false =>
      have hnb := hnd hc
      simp only [List.cons_append, Bool.false_and]
      unfold strconv.atoiLoop
      simp only
      rw [if_pos (by omega)]
      simp

/-- The loop of `ParseUint` returns a value without error, or one of its two error
results. -/
theorem parseUintLoop_shape (bytes : List Nat) (n : Nat) :
    (strconv.parseUintLoop bytes n).2 = none ∨
      strconv.parseUintLoop bytes n = (0, some .ErrSyntax) ∨
      strconv.parseUintLoop bytes n = (strconv.maxUint64, some .ErrRange) := by
  induction bytes generalizing n with
  | nil => left; rfl
  | cons c rest ih =>
    unfold strconv.parseUintLoop
    simp only
    split
    · right; left; rfl
    · split
      · right; left; rfl
      · split
        · right; right; rfl
        · split
          · right; right; rfl
          · exact ih _

/-- The loop of `ParseUint` on the bytes of a text: it succeeds exactly on a run of
digits whose value, continued from `n`, fits `uint64`. -/
theorem parseUintLoop_bytes (cs : List Char) (n : Nat) (hn : n ≤ strconv.maxUint64) :
    (cs.all Char.isDigit = true ∧ digitsValue n cs ≤ strconv.maxUint64 →
      strconv.parseUintLoop ((goBytes (String.mk cs)).map UInt8.toNat) n
        = (digitsValue n cs, none)) ∧
    (¬ (cs.all Char.isDigit = true ∧ digitsValue n cs ≤ strconv.maxUint64) →
      (strconv.parseUintLoop ((goBytes (String.mk cs)).map UInt8.toNat) n).2 ≠ none) := by
  induction cs generalizing n with
  | nil =>
    constructor
    · intro _
      rfl
    · intro h
      exact absurd ⟨rfl, hn⟩ h
  | cons c cs ih =>
    obtain ⟨b, rest, henc, hb, hd, hnd, _⟩ := utf8_digit c
    rw [map_toNat_goBytes_cons, henc, List.all_cons, digitsValue_cons]
    unfold strconv.maxUint64 at hn ⊢
    cases hc : c.isDigit with
    | false =>
      have hnb := hnd hc
      constructor
      · rintro ⟨h, _⟩
        simp at h
      · intro _
        simp only [List.cons_append]
        unfold strconv.parseUintLoop
        simp only [hnb, if_false]
        split
        · simp
        · split
          · simp
          · rename_i d hdv hd10
            split at hdv
            · simp only [Option.some.injEq] at hdv
              unfold strconv.lower at hdv
              omega
            · cases hdv
    | true =>
      obtain ⟨hr, hbc, h1, h2⟩ := hd hc
      subst hr
      simp only [List.cons_append, List.nil_append, Bool.true_and]
      have hstep : strconv.parseUintLoop (b :: (goBytes (String.mk cs)).map UInt8.toNat) n =
          if n ≥ 18446744073709551615 / 10 + 1 then (18446744073709551615, some .ErrRange)
          else if (n * 10 % 18446744073709551616 + (b - 48)) % 18446744073709551616
                < n * 10 % 18446744073709551616 ∨
              (n * 10 % 18446744073709551616 + (b - 48)) % 18446744073709551616
                > 18446744073709551615 then (18446744073709551615, some .ErrRange)
          else strconv.parseUintLoop ((goBytes (String.mk cs)).map UInt8.toNat)
            ((n * 10 % 18446744073709551616 + (b - 48)) % 18446744073709551616) := by
        conv_lhs => unfold strconv.parseUintLoop
        simp only [strconv.maxUint64]
        rw [if_pos ⟨h1, h2⟩]
        simp only
        rw [if_neg (by omega)]
      rw [hstep]
      have hge := digitsValue_ge cs (10 * n + (c.toNat - 48))
      by_cases hcut : n ≥ 18446744073709551615 / 10 + 1
      · rw [if_pos hcut]
        constructor
        · rintro ⟨_, hv⟩
          omega
        · intro _
          simp
      · rw [if_neg hcut]
        by_cases hov : (n * 10 % 18446744073709551616 + (b - 48)) % 18446744073709551616
                < n * 10 % 18446744073709551616 ∨
              (n * 10 % 18446744073709551616 + (b - 48)) % 18446744073709551616
                > 18446744073709551615
        · rw [if_pos hov]
          constructor
          · rintro ⟨_, hv⟩
            omega
          · intro _
            simp
        · rw [if_neg hov]
          have hn1 : (n * 10 % 18446744073709551616 + (b - 48)) % 18446744073709551616
              = 10 * n + (c.toNat - 48) := by omega
          rw [hn1]
          exact ih (10 * n + (c.toNat - 48)) (by unfold strconv.maxUint64; omega)

theorem ParseUint_bytes (cs : List Char) :
    (cs ≠ [] ∧ cs.all Char.isDigit = true ∧ digitsValue 0 cs ≤ strconv.maxUint64 →
      strconv.ParseUint ((goBytes (String.mk cs)).map UInt8.toNat) = (digitsValue 0 cs, none)) ∧
    (¬ (cs ≠ [] ∧ cs.all Char.isDigit = true ∧ digitsValue 0 cs ≤ strconv.maxUint64) →
      strconv.ParseUint ((goBytes (String.mk cs)).map UInt8.toNat) = (0, some .ErrSyntax) ∨
      strconv.ParseUint ((goBytes (String.mk cs)).map UInt8.toNat)
        = (strconv.maxUint64, some .ErrRange)) := by
  unfold strconv.ParseUint
  by_cases hnil : cs = []
  · subst hnil
    constructor
    · rintro ⟨h, _⟩
      exact absurd rfl h
    · intro _
      left
      rfl
  · rw [if_neg (fun h => hnil ((bytes_eq_nil_iff cs).mp h))]
    obtain ⟨hok, herr⟩ := parseUintLoop_bytes cs 0 (by decide)
    constructor
    · rintro ⟨_, h⟩
      exact hok h
    · intro h
      have h2 := herr (fun hc => h ⟨hnil, hc⟩)
      rcases parseUintLoop_shape ((goBytes (String.mk cs)).map UInt8.toNat) 0 with h3 | h3 | h3
      · exact absurd h3 h2
      · exact Or.inl h3
      · exact Or.inr h3

theorem parseIntRange_ok (neg : Bool) (un : Nat) :
    (∀ v, (if neg = true then -(un : Int) else (un : Int)) = v →
      -9223372036854775808 ≤ v ∧ v ≤ 9223372036854775807 →
      strconv.parseIntRange neg un none = (v, none)) ∧
    (¬ (-9223372036854775808 ≤ (if neg = true then -(un : Int) else (un : Int)) ∧
        (if neg = true then -(un : Int) else (un : Int)) ≤ 9223372036854775807) →
      (strconv.parseIntRange neg un none).2 ≠ none) := by
  unfold strconv.parseIntRange strconv.intSize strconv.toInt64
  simp only [ne_eq, not_true_eq_false, false_and, if_false]
  cases neg with
  | false =>
    simp only [Bool.false_eq_true, if_false, true_and, false_and]
    constructor
    · rintro v rfl ⟨h1, h2⟩
      rw [if_neg (by norm_num; omega)]
      refine Prod.ext ?_ rfl
      show ((un : Int) + 9223372036854775808) % 18446744073709551616 - 9223372036854775808 = un
      omega
    · intro h
      rw [if_pos (by norm_num; omega)]
      simp
  | true =>
    simp only [if_true, true_and, Bool.true_eq_false, false_and, if_false]
    constructor
    · rintro v rfl ⟨h1, h2⟩
      rw [if_neg (by norm_num; omega)]
      refine Prod.ext ?_ rfl
      show (-(((un : Int) + 9223372036854775808) % 18446744073709551616 - 9223372036854775808)
        + 9223372036854775808) % 18446744073709551616 - 9223372036854775808 = -(un : Int)
      omega
    · intro h
      rw [if_pos (by norm_num; omega)]
      simp

theorem parseIntRange_err (neg : Bool) :
    (strconv.parseIntRange neg 0 (some .ErrSyntax)).2 ≠ none ∧
    (strconv.parseIntRange neg strconv.maxUint64 (some .ErrRange)).2 ≠ none := by
  cases neg <;> exact ⟨by decide, by decide⟩

/-- The part of `ParseInt` after the sign, on the bytes of a text, against the
integer the text denotes. -/
theorem parseIntRange_bytes (neg : Bool) (cs : List Char) :
    (∀ v, decimalOf neg cs = some v →
      strconv.parseIntRange neg
        (strconv.ParseUint ((goBytes (String.mk cs)).map UInt8.toNat)).1
        (strconv.ParseUint ((goBytes (String.mk cs)).map UInt8.toNat)).2 = (v, none)) ∧
    (decimalOf neg cs = none →
      (strconv.parseIntRange neg
        (strconv.ParseUint ((goBytes (String.mk cs)).map UInt8.toNat)).1
        (strconv.ParseUint ((goBytes (String.mk cs)).map UInt8.toNat)).2).2 ≠ none) := by
  obtain ⟨hok, herr⟩ := ParseUint_bytes cs
  obtain ⟨hrok, hrerr⟩ := parseIntRange_ok neg (digitsValue 0 cs)
  unfold decimalOf
  by_cases hd : cs ≠ [] ∧ cs.all Char.isDigit = true
  · rw [if_pos hd]
    simp only
    by_cases hr : -9223372036854775808 ≤
          (if neg = true then -(digitsValue 0 cs : Int) else (digitsValue 0 cs : Int)) ∧
        (if neg = true then -(digitsValue 0 cs : Int) else (digitsValue 0 cs : Int))
          ≤ 9223372036854775807
    · rw [if_pos hr]
      have hmax : digitsValue 0 cs ≤ strconv.maxUint64 := by
        unfold strconv.maxUint64
        cases neg
        · simp only [Bool.false_eq_true, if_false] at hr
          omega
        · simp only [if_true] at hr
          omega
      rw [hok ⟨hd.1, hd.2, hmax⟩]
      constructor
      · intro v hv
        simp only [Option.some.injEq] at hv
        exact hrok v hv (hv ▸ hr)
      · intro hc
        cases hc
    · rw [if_neg hr]
      constructor
      · intro v hv
        cases hv
      · intro _
        by_cases hmax : digitsValue 0 cs ≤ strconv.maxUint64
        · rw [hok ⟨hd.1, hd.2, hmax⟩]
          exact hrerr hr
        · rcases herr (fun hc => hmax hc.2.2) with h | h
          · rw [h]
            exact (parseIntRange_err neg).1
          · rw [h]
            exact (parseIntRange_err neg).2
  · rw [if_neg hd]
    constructor
    · intro v hv
      cases hv
    · intro _
      rcases herr (fun hc => hd ⟨hc.1, hc.2.1⟩) with h | h
      · rw [h]
        exact (parseIntRange_err neg).1
      · rw [h]
        exact (parseIntRange_err neg).2

/-- Go `ParseInt(s, 10, 0)` returns the integer the text denotes, and an error when
the text denotes none. -/
theorem ParseInt_bytes (l : List Char) :
    (∀ v, decimalInt (String.mk l) = some v →
      strconv.ParseInt ((goBytes (String.mk l)).map UInt8.toNat) = (v, none)) ∧
    (decimalInt (String.mk l) = none →
      (strconv.ParseInt ((goBytes (String.mk l)).map UInt8.toNat)).2 ≠ none) := by
  cases l with
  | nil =>
    constructor
    · intro v hv
      cases hv
    · intro _
      decide
  | cons c cs =>
    obtain ⟨b, rest, henc, hb, _, _, h45, h43, hsign⟩ := utf8_digit c
    have hdec : decimalInt (String.mk (c :: cs)) =
        if c = '-' then decimalOf true cs
        else if c = '+' then decimalOf false cs
        else decimalOf false (c :: cs) := rfl
    rw [hdec]
    have hbytes := map_toNat_goBytes_cons c cs
    rw [henc] at hbytes
    by_cases hm : c = '-'
    · have hb45 := h45.mpr hm
      have hrest := hsign (Or.inl hb45)
      rw [hrest, hb45] at hbytes
      rw [if_pos hm, hbytes]
      exact parseIntRange_bytes true cs
    · by_cases hp : c = '+'
      · have hb43 := h43.mpr hp
        have hrest := hsign (Or.inr hb43)
        rw [hrest, hb43] at hbytes
        rw [if_neg hm, if_pos hp, hbytes]
        exact parseIntRange_bytes false cs
      · have hb45 : b ≠ 45 := fun h => hm (h45.mp h)
        have hb43 : b ≠ 43 := fun h => hp (h43.mp h)
        rw [if_neg hm, if_neg hp]
        have hparse : strconv.ParseInt ((goBytes (String.mk (c :: cs))).map UInt8.toNat) =
            strconv.parseIntRange false
              (strconv.ParseUint ((goBytes (String.mk (c :: cs))).map UInt8.toNat)).1
              (strconv.ParseUint ((goBytes (String.mk (c :: cs))).map UInt8.toNat)).2 := by
          rw [hbytes]
          simp only [List.cons_append]
          unfold strconv.ParseInt
          simp only [hb45, hb43, if_false, decide_False]
        rw [hparse]
        exact parseIntRange_bytes false (c :: cs)

theorem digitsValue_small (cs : List Char) (h : cs.all Char.isDigit = true)
    (hlen : cs.length ≤ 18) : digitsValue 0 cs < 1000000000000000000 := by
  have h1 := digitsValue_lt cs 0 h
  have h2 : 10 ^ cs.length ≤ 10 ^ 18 := Nat.pow_le_pow_right (by norm_num) hlen
  have h3 : (10 : Nat) ^ 18 = 1000000000000000000 := by norm_num
  omega

/-- The fast path of `Atoi` after the sign: on at most 18 bytes the loop returns
the value of the digits, which always fits. -/
theorem atoiLoop_fast (neg : Bool) (cs : List Char) (hne : cs ≠ [])
    (hlen : ((goBytes (String.mk cs)).map UInt8.toNat).length ≤ 18) :
    (cs.all Char.isDigit = true →
      strconv.atoiLoop ((goBytes (String.mk cs)).map UInt8.toNat) 0
        = some (digitsValue 0 cs : Int) ∧
      decimalOf neg cs
        = some (if neg = true then -(digitsValue 0 cs : Int) else (digitsValue 0 cs : Int))) ∧
    (¬ cs.all Char.isDigit = true →
      strconv.atoiLoop ((goBytes (String.mk cs)).map UInt8.toNat) 0 = none ∧
      decimalOf neg cs = none) := by
  have hloop := atoiLoop_bytes cs 0
  rw [Nat.cast_zero] at hloop
  constructor
  · intro hall
    rw [hloop, if_pos hall]
    refine ⟨rfl, ?_⟩
    rw [length_bytes_of_digits cs hall] at hlen
    have hsmall := digitsValue_small cs hall hlen
    unfold decimalOf
    rw [if_pos ⟨hne, hall⟩]
    simp only
    rw [if_pos]
    cases neg
    · simp only [Bool.false_eq_true, if_false]
      omega
    · simp only [if_true]
      omega
  · intro hall
    rw [hloop, if_neg hall]
    refine ⟨rfl, ?_⟩
    unfold decimalOf
    rw [if_neg (fun hc => hall hc.2)]

/-- Go `strconv.Atoi` returns the integer the text denotes, with a `nil` error, and
returns an error on every text that denotes none. -/
theorem Atoi_decimalInt (s : String) :
    (∀ v, decimalInt s = some v → strconv.Atoi s = (v, none)) ∧
    (decimalInt s = none → (strconv.Atoi s).2 ≠ none) := by
  obtain ⟨l⟩ := s
  unfold strconv.Atoi
  simp only
  by_cases hfast : 0 < ((goBytes (String.mk l)).map UInt8.toNat).length ∧
      ((goBytes (String.mk l)).map UInt8.toNat).length < 19
  · rw [if_pos hfast]
    cases l with
    | nil =>
      exact absurd hfast.1 (by decide)
    | cons c cs =>
      obtain ⟨b, rest, henc, hb, _, _, h45, h43, hsign⟩ := utf8_digit c
      have hdec : decimalInt (String.mk (c :: cs)) =
          if c = '-' then decimalOf true cs
          else if c = '+' then decimalOf false cs
          else decimalOf false (c :: cs) := rfl
      rw [hdec]
      have hbytes := map_toNat_goBytes_cons c cs
      rw [henc] at hbytes
      by_cases hm : c = '-'
      · have hb45 := h45.mpr hm
        have hrest := hsign (Or.inl hb45)
        rw [hrest, hb45] at hbytes
        rw [hbytes] at hfast
        rw [if_pos hm, hbytes]
        simp only [List.cons_append, List.nil_append, true_or, decide_True, if_true, true_and]
        simp only [List.cons_append, List.nil_append, List.length_cons] at hfast
        by_cases hnil : cs = []
        · subst hnil
          constructor
          · intro v hv
            cases hv
          · intro _
            decide
        · have hlen1 : ¬ ((goBytes (String.mk cs)).map UInt8.toNat).length < 1 := by
            intro hc
            have h0 : (goBytes (String.mk cs)).map UInt8.toNat = [] :=
              List.length_eq_zero.mp (by omega)
            exact hnil ((bytes_eq_nil_iff cs).mp h0)
          rw [if_neg hlen1]
          obtain ⟨hyes, hno⟩ := atoiLoop_fast true cs hnil (by omega)
          by_cases hall : cs.all Char.isDigit = true
          · obtain ⟨h1, h2⟩ := hyes hall
            rw [h1, h2]
            simp only [if_true]
            constructor
            · intro v hv
              simp only [Option.some.injEq] at hv
              rw [hv]
            · intro hc
              cases hc
          · obtain ⟨h1, h2⟩ := hno hall
            rw [h1, h2]
            constructor
            · intro v hv
              cases hv
            · intro _
              simp
      · by_cases hp : c = '+'
        · have hb43 := h43.mpr hp
          have hrest := hsign (Or.inr hb43)
          rw [hrest, hb43] at hbytes
          rw [hbytes] at hfast
          rw [if_neg hm, if_pos hp, hbytes]
          simp only [List.cons_append, List.nil_append, or_true, decide_True, if_true, true_and]
          simp only [List.cons_append, List.nil_append, List.length_cons] at hfast
          by_cases hnil : cs = []
          · subst hnil
            constructor
            · intro v hv
              cases hv
            · intro _
              decide
          · have hlen1 : ¬ ((goBytes (String.mk cs)).map UInt8.toNat).length < 1 := by
              intro hc
              have h0 : (goBytes (String.mk cs)).map UInt8.toNat = [] :=
                List.length_eq_zero.mp (by omega)
              exact hnil ((bytes_eq_nil_iff cs).mp h0)
            rw [if_neg hlen1]
            obtain ⟨hyes, hno⟩ := atoiLoop_fast false cs hnil (by omega)
            by_cases hall : cs.all Char.isDigit = true
            · obtain ⟨h1, h2⟩ := hyes hall
              rw [h1, h2]
              simp only [Bool.false_eq_true, if_false]
              rw [if_neg (by decide)]
              constructor
              · intro v hv
                simp only [Option.some.injEq] at hv
                rw [hv]
              · intro hc
                cases hc
            · obtain ⟨h1, h2⟩ := hno hall
              rw [h1, h2]
              constructor
              · intro v hv
                cases hv
              · intro _
                simp
        · have hb45 : b ≠ 45 := fun h => hm (h45.mp h)
          have hb43 : b ≠ 43 := fun h => hp (h43.mp h)
          rw [if_neg hm, if_neg hp]
          obtain ⟨hyes, hno⟩ := atoiLoop_fast false (c :: cs) (by simp) (by omega)
          rw [hbytes] at hyes hno
          rw [hbytes]
          simp only [List.cons_append, hb45, hb43, or_self, decide_False, Bool.false_eq_true,
            if_false, false_and] at hyes hno ⊢
          by_cases hall : (c :: cs).all Char.isDigit = true
          · obtain ⟨h1, h2⟩ := hyes hall
            rw [h1, h2]
            constructor
            · intro v hv
              simp only [Option.some.injEq] at hv
              rw [hv]
            · intro hc
              cases hc
          · obtain ⟨h1, h2⟩ := hno hall
            rw [h1, h2]
            constructor
            · intro v hv
              cases hv
            · intro _
              simp
  · rw [if_neg hfast]
    exact ParseInt_bytes l

/-! ## C28: `GetUserID`, `IsAuthenticated`, `Me` and `Logout` -/

theorem atoi_getD (s : String) :
    (match strconv.Atoi s with
      | (_, some _) => (0 : Int)
      | (userID, none) => userID) = (decimalInt s).getD 0 := by
  obtain ⟨hok, herr⟩ := Atoi_decimalInt s
  cases hd : decimalInt s with
  | none =>
    have h := herr hd
    cases ha : strconv.Atoi s with
    | mk v e =>
      rw [ha] at h
      cases e with
      | none => exact absurd rfl h
      | some e => rfl
  | some v =>
    rw [hok v hd]
    rfl

theorem GetUserID_eq (r : Request) :
    GetUserID r =
      match context.Value r.Context UserIDKey with
      | some (.string userIDStr) => (decimalInt userIDStr).getD 0
      | _ => 0 := by
  unfold GetUserID
  cases context.Value r.Context UserIDKey with
  | none => rfl
  | some value =>
    cases value with
    | string userIDStr => exact atoi_getD userIDStr
    | otherType id => rfl

theorem GetUserID_withIdentity (r : Request) (c : JWTClaims) :
    GetUserID (withIdentity r c) = (decimalInt c.DeveloperID).getD 0 := by
  have h1 : (UserIDKey == UserRoleKey) = false := by decide
  have h2 : (UserIDKey == UserEmailKey) = false := by decide
  have h3 : (UserIDKey == UserIDKey) = true := by decide
  rw [GetUserID_eq]
  simp only [withIdentity, Request.WithContext, context.WithValue, context.Value, List.lookup,
    h1, h2, h3]

theorem AuthMiddleware_next (jwtService : JWTService) (now : Time) (r r2 : Request)
    (h : Effect.next r2 ∈ AuthMiddleware jwtService now r) :
    ∃ tokenString c, ValidateToken jwtService tokenString now = .ok c ∧
      r2 = withIdentity r c := by
  by_cases h1 : r.Header.Get "Authorization" = ""
  · rw [AuthMiddleware_missing jwtService now r h1] at h
    simp at h
  · rcases ExtractToken_cases (r.Header.Get "Authorization") with ⟨t, _, he⟩ | ⟨_, he⟩
    · cases hv : ValidateToken jwtService t now with
      | error e =>
        rw [AuthMiddleware_rejected jwtService now r h1 t he e hv] at h
        simp at h
      | ok c =>
        rw [AuthMiddleware_accepted jwtService now r h1 t he c hv] at h
        simp only [List.mem_singleton, Effect.next.injEq] at h
        exact ⟨t, c, hv, h⟩
    · rw [AuthMiddleware_bad_format jwtService now r h1 _ _ he] at h
      simp at h

theorem Me_of_zero (h : handlers.AuthHandler) (r : Request) (h0 : GetUserID r = 0) :
    h.Me r = [.write (.error (utils.ErrorResponse http.StatusUnauthorized "Not authenticated"))] := by
  unfold handlers.AuthHandler.Me
  simp only [h0, if_true]

theorem Logout_of_zero (h : handlers.AuthHandler) (r : Request) (h0 : GetUserID r = 0) :
    h.Logout r =
      [.write (.error (utils.ErrorResponse http.StatusUnauthorized "Not authenticated"))] := by
  unfold handlers.AuthHandler.Logout
  simp only [h0, if_true]

theorem Logout_of_ne_zero (h : handlers.AuthHandler) (r : Request) (h0 : GetUserID r ≠ 0) :
    h.Logout r =
      [.updateStatus (GetUserID r) "inactive",
       .write (.json http.StatusOK (.message "Logout successful"))] := by
  unfold handlers.AuthHandler.Logout
  simp only [h0, if_false]

theorem Me_of_ne_zero (h : handlers.AuthHandler) (r : Request) (h0 : GetUserID r ≠ 0)
    (reply : handlers.Reply) (hmem : handlers.Effect.write reply ∈ h.Me r) :
    reply.status = 500 ∨ reply.status = 404 ∨ reply.status = 200 := by
  unfold handlers.AuthHandler.Me at hmem
  simp only [h0, if_false] at hmem
  split at hmem
  · simp only [List.mem_singleton, handlers.Effect.write.injEq] at hmem
    subst hmem
    left
    rfl
  · simp only [List.mem_singleton, handlers.Effect.write.injEq] at hmem
    subst hmem
    right
    left
    rfl
  · simp only [List.mem_singleton, handlers.Effect.write.injEq] at hmem
    subst hmem
    right
    right
    rfl

/-- C28 fails as stated for a negative subject: the access token minted by the
service with secret `"s3cr3t"` for subject `"-5"` passes `AuthMiddleware` five
seconds later; on the request passed on, `GetUserID` returns -5 and
`IsAuthenticated` is false, yet `Logout` does not answer 401: it sets the status of
developer -5 and answers 200 `"Logout successful"`; and `Me`, with a repository
that finds no row, answers 404 `"User not found"`. -/
theorem C28_counterexample_negative_subject :
    ∃ s pair r2,
      NewJWTService "s3cr3t" = .ok s ∧
      GenerateToken s "-5" "a@b.com" "developer" 0 = .ok pair ∧
      AuthMiddleware s 5000000000 ⟨[("Authorization", ["Bearer " ++ pair.AccessToken])], []⟩
        = [.next r2] ∧
      GetUserID r2 = -5 ∧ IsAuthenticated r2 = false ∧
      handlers.AuthHandler.Logout
        ⟨s, ⟨⟨fun _ _ _ _ _ _ _ => .error (.other 0), fun _ => .error .ErrNoRows,
          fun _ => .error .ErrNoRows⟩⟩⟩ r2 =
        [.updateStatus (-5) "inactive",
         .write (.json 200 (.message "Logout successful"))] ∧
      handlers.AuthHandler.Me
        ⟨s, ⟨⟨fun _ _ _ _ _ _ _ => .error (.other 0), fun _ => .error .ErrNoRows,
          fun _ => .error .ErrNoRows⟩⟩⟩ r2 =
        [.write (.error { contentType := "application/json", status := 404,
                          body := { success := false,
                                    error := { code := 404, message := "User not found" } } })] := by
  obtain ⟨access, refresh, ha, _, hg⟩ :=
    GenerateToken_eq ⟨"s3cr3t", 24 * Hour, 7 * 24 * Hour⟩ "-5" "a@b.com" "developer" 0
  have hv : ValidateToken ⟨"s3cr3t", 24 * Hour, 7 * 24 * Hour⟩ access 5000000000
      = .ok (accessClaims ⟨"s3cr3t", 24 * Hour, 7 * 24 * Hour⟩ "-5" "a@b.com" "developer" 0) := by
    rw [ValidateToken_signed _ .HS256 _ access rfl ha, windowVerdict_accessClaims,
      if_pos (by decide), if_neg (by decide)]
  have hget : http.Header.Get [("Authorization", ["Bearer " ++ access])] "Authorization"
      = "Bearer " ++ access := by
    simp [http.Header.Get, List.lookup]
  have hmw := AuthMiddleware_accepted ⟨"s3cr3t", 24 * Hour, 7 * 24 * Hour⟩ 5000000000
    ⟨[("Authorization", ["Bearer " ++ access])], []⟩
    (by rw [hget]; exact bearer_append_ne_empty access) access
    (by rw [hget]; exact ExtractToken_bearer_append access) _ hv
  have hid : GetUserID (withIdentity ⟨[("Authorization", ["Bearer " ++ access])], []⟩
      (accessClaims ⟨"s3cr3t", 24 * Hour, 7 * 24 * Hour⟩ "-5" "a@b.com" "developer" 0)) = -5 := by
    rw [GetUserID_withIdentity]
    have hd : decimalInt "-5" = some (-5) := by decide
    show (decimalInt "-5").getD 0 = -5
    rw [hd]
    rfl
  refine ⟨_, _, _, rfl, hg, hmw, hid, ?_, ?_, ?_⟩
  · unfold IsAuthenticated
    rw [hid]
    decide
  · rw [Logout_of_ne_zero _ _ (by rw [hid]; decide), hid]
    rfl
  · unfold handlers.AuthHandler.Me
    simp only [hid]
    rfl

/-- C28, amended: `GetUserID` returns the integer that the subject id stored in the
request context denotes in decimal notation when that text parses as a Go `int`
(optional sign, digits, 64-bit range), and 0 when no identity is attached or the
text does not parse; `IsAuthenticated` is true if and only if `GetUserID > 0`.
Consequently, on a request passed on by `AuthMiddleware` for validated claims
whose subject does not parse or denotes an integer that is zero or negative,
`IsAuthenticated` is false; and when the subject does not parse or denotes zero,
`Me` and `Logout` answer 401 `"Not authenticated"`. -/
theorem C28_GetUserID_and_IsAuthenticated (h : handlers.AuthHandler) (r0 : Request) :
    (GetUserID r0 =
      match context.Value r0.Context UserIDKey with
      | some (.string userIDStr) => (decimalInt userIDStr).getD 0
      | _ => 0) ∧
    (context.Value r0.Context UserIDKey = none → GetUserID r0 = 0) ∧
    (IsAuthenticated r0 = true ↔ GetUserID r0 > 0) ∧
    (∀ (jwtService : JWTService) (now : Time) (r r2 : Request),
      Effect.next r2 ∈ AuthMiddleware jwtService now r →
      ∃ tokenString c,
        ValidateToken jwtService tokenString now = .ok c ∧
        GetUserIDString r2 = c.DeveloperID ∧
        (∀ n, decimalInt c.DeveloperID = some n → GetUserID r2 = n) ∧
        (decimalInt c.DeveloperID = none → GetUserID r2 = 0) ∧
        ((decimalInt c.DeveloperID = none ∨ ∃ n, decimalInt c.DeveloperID = some n ∧ n ≤ 0) →
          IsAuthenticated r2 = false) ∧
        ((decimalInt c.DeveloperID = none ∨ decimalInt c.DeveloperID = some 0) →
          h.Me r2 =
            [.write (.error { contentType := "application/json", status := 401,
                              body := { success := false,
                                        error := { code := 401,
                                                   message := "Not authenticated" } } })] ∧
          h.Logout r2 =
            [.write (.error { contentType := "application/json", status := 401,
                              body := { success := false,
                                        error := { code := 401,
                                                   message := "Not authenticated" } } })])) := by
  refine ⟨GetUserID_eq r0, ?_, ?_, ?_⟩
  · intro hnone
    rw [GetUserID_eq, hnone]
  · unfold IsAuthenticated
    exact decide_eq_true_iff
  · intro jwtService now r r2 hpass
    obtain ⟨tokenString, c, hv, hr2⟩ := AuthMiddleware_next jwtService now r r2 hpass
    subst hr2
    have hid := GetUserID_withIdentity r c
    refine ⟨tokenString, c, hv, GetUserIDString_withIdentity r c, ?_, ?_, ?_, ?_⟩
    · intro n hn
      rw [hid, hn]
      rfl
    · intro hn
      rw [hid, hn]
      rfl
    · intro hcases
      unfold IsAuthenticated
      rw [hid]
      rcases hcases with hn | ⟨n, hn, hle⟩
      · rw [hn]
        rfl
      · rw [hn]
        simp only [Option.getD_some, gt_iff_lt, decide_eq_false_iff_not, not_lt]
        exact hle
    · intro hcases
      have h0 : GetUserID (withIdentity r c) = 0 := by
        rw [hid]
        rcases hcases with hn | hn <;> rw [hn] <;> rfl
      exact ⟨Me_of_zero h _ h0, Logout_of_zero h _ h0⟩

/-- C28 witness: the access token minted by the service with secret `"s3cr3t"` for
the subject `"abc"` passes `AuthMiddleware` five seconds later; on the request
passed on, `GetUserID` returns 0, `IsAuthenticated` is false and `Me` and `Logout`
answer 401. -/
theorem C28_witness :
    ∃ s pair r2,
      NewJWTService "s3cr3t" = .ok s ∧
      GenerateToken s "abc" "a@b.com" "developer" 0 = .ok pair ∧
      AuthMiddleware s 5000000000 ⟨[("Authorization", ["Bearer " ++ pair.AccessToken])], []⟩
        = [.next r2] ∧
      GetUserIDString r2 = "abc" ∧ GetUserID r2 = 0 ∧ IsAuthenticated r2 = false ∧
      handlers.AuthHandler.Me
        ⟨s, ⟨⟨fun _ _ _ _ _ _ _ => .error (.other 0), fun _ => .error .ErrNoRows,
          fun _ => .error .ErrNoRows⟩⟩⟩ r2 =
        [.write (.error (utils.ErrorResponse 401 "Not authenticated"))] ∧
      handlers.AuthHandler.Logout
        ⟨s, ⟨⟨fun _ _ _ _ _ _ _ => .error (.other 0), fun _ => .error .ErrNoRows,
          fun _ => .error .ErrNoRows⟩⟩⟩ r2 =
        [.write (.error (utils.ErrorResponse 401 "Not authenticated"))] := by
  obtain ⟨access, refresh, ha, _, hg⟩ :=
    GenerateToken_eq ⟨"s3cr3t", 24 * Hour, 7 * 24 * Hour⟩ "abc" "a@b.com" "developer" 0
  have hv : ValidateToken ⟨"s3cr3t", 24 * Hour, 7 * 24 * Hour⟩ access 5000000000
      = .ok (accessClaims ⟨"s3cr3t", 24 * Hour, 7 * 24 * Hour⟩ "abc" "a@b.com" "developer" 0) := by
    rw [ValidateToken_signed _ .HS256 _ access rfl ha, windowVerdict_accessClaims,
      if_pos (by decide), if_neg (by decide)]
  have hget : http.Header.Get [("Authorization", ["Bearer " ++ access])] "Authorization"
      = "Bearer " ++ access := by
    simp [http.Header.Get, List.lookup]
  have hmw := AuthMiddleware_accepted ⟨"s3cr3t", 24 * Hour, 7 * 24 * Hour⟩ 5000000000
    ⟨[("Authorization", ["Bearer " ++ access])], []⟩
    (by rw [hget]; exact bearer_append_ne_empty access) access
    (by rw [hget]; exact ExtractToken_bearer_append access) _ hv
  have hsubj := GetUserIDString_withIdentity ⟨[("Authorization", ["Bearer " ++ access])], []⟩
    (accessClaims ⟨"s3cr3t", 24 * Hour, 7 * 24 * Hour⟩ "abc" "a@b.com" "developer" 0)
  obtain ⟨_, c, _, hc, _, hzero, hauth, hme⟩ :=
    (C28_GetUserID_and_IsAuthenticated
      ⟨⟨"s3cr3t", 24 * Hour, 7 * 24 * Hour⟩,
        ⟨⟨fun _ _ _ _ _ _ _ => .error (.other 0), fun _ => .error .ErrNoRows,
          fun _ => .error .ErrNoRows⟩⟩⟩ ⟨[], []⟩).2.2.2
      ⟨"s3cr3t", 24 * Hour, 7 * 24 * Hour⟩ 5000000000
      ⟨[("Authorization", ["Bearer " ++ access])], []⟩ _
      (by rw [hmw]; exact List.mem_singleton.mpr rfl)
  have habc : c.DeveloperID = "abc" := by
    rw [← hc, hsubj]
    rfl
  have hnone : decimalInt c.DeveloperID = none := by
    rw [habc]
    decide
  exact ⟨_, _, _, rfl, hg, hmw, hsubj, hzero hnone, hauth (Or.inl hnone),
    (hme (Or.inl hnone)).1, (hme (Or.inl hnone)).2⟩

/-! ## C30: `getEnv` and the secret of `main` -/

theorem getEnv_ne_empty (env : os.Environ) (key defaultValue : String)
    (h : defaultValue ≠ "") : config.getEnv env key defaultValue ≠ "" := by
  unfold config.getEnv
  simp only
  split
  · exact h
  · assumption

/-- C30: `getEnv(key, default)` returns `default` when the variable is unset or
set to the empty string and the variable's value otherwise.  Therefore the
`JWTSecret` produced by `config.Load` is never the empty string, for every `.env`
file and every environment: it is the configured value, or the built-in
`"super-secret-key-change-in-production"` when `JWT_SECRET` is unset or empty.
The call `NewJWTService(cfg.JWTSecret)` of `main` therefore never takes the
`ErrMissingSecretKey` branch: it returns a service holding that secret. -/
theorem C30_getEnv_default_and_secret_never_empty (file : Option (List (String × String)))
    (env : os.Environ) (key defaultValue : String) :
    (os.LookupEnv env key = none → config.getEnv env key defaultValue = defaultValue) ∧
    (os.LookupEnv env key = some "" → config.getEnv env key defaultValue = defaultValue) ∧
    (∀ value, os.LookupEnv env key = some value → value ≠ "" →
      config.getEnv env key defaultValue = value) ∧
    (config.Load file env).JWTSecret ≠ "" ∧
    ((config.Load file env).JWTSecret =
      match os.LookupEnv (godotenv.Load file env) "JWT_SECRET" with
      | none => "super-secret-key-change-in-production"
      | some value => if value = "" then "super-secret-key-change-in-production" else value) ∧
    server.jwtService file env ≠ .error ErrMissingSecretKey ∧
    ∃ s, server.jwtService file env = .ok s ∧ s.secretKey = (config.Load file env).JWTSecret := by
  have hsecret : (config.Load file env).JWTSecret ≠ "" :=
    getEnv_ne_empty (godotenv.Load file env) "JWT_SECRET" _ (by decide)
  refine ⟨?_, ?_, ?_, hsecret, ?_, ?_, ?_⟩
  · intro h
    simp [config.getEnv, os.Getenv, h]
  · intro h
    simp [config.getEnv, os.Getenv, h]
  · intro value h hne
    simp [config.getEnv, os.Getenv, h, hne]
  · show config.getEnv (godotenv.Load file env) "JWT_SECRET" _ = _
    unfold config.getEnv os.Getenv
    cases os.LookupEnv (godotenv.Load file env) "JWT_SECRET" with
    | none => simp
    | some value => simp
  · unfold server.jwtService NewJWTService
    simp only
    rw [if_neg hsecret]
    intro hc
    cases hc
  · unfold server.jwtService NewJWTService
    simp only
    rw [if_neg hsecret]
    exact ⟨_, rfl, rfl⟩

end TaskManager
